import Mathlib

/-!
Verification of the SysY compiler (Rust, two-stage SysY → Koopa IR → RV32).

Each Rust structure or function that the claims depend on is embedded as a
Lean definition translated from the corresponding source file; theorems about
those definitions settle the claims.

Sources embedded here:
  * `src/backend/environment.rs` — `FunctionPrologueInfo`, `ValueStorage`,
    `alloc_stack_storage`, `generate_lw` / `generate_sw` / `generate_addi`;
  * `src/backend/register.rs` — `RVRegister`, `RVRegisterPool`;
  * `src/backend/instruction.rs` — RV32 `Instruction`;
  * `src/util/name_generator.rs` — `NameGenerator`;
  * `src/frontend/symbol.rs` — `NestedSymbolTable`;
  * `src/frontend/ast.rs` — `Expr`, `has_side_effect`, `try_const_eval`;
  * `src/frontend/generate_ir.rs` — IR generation for expressions,
    statements and function definitions;
  * `src/opt/dead_code_elimination.rs` — the dead-code sweep.
-/

namespace SysY

/-! ## Frontend error kinds (`src/frontend/mod.rs`) -/

inductive FrontendError where
  | multipleDefinitionsForIdentifier (name : String)
  | definitionNotFoundForIdentifier (name : String)
  | bindingNonConstExpr (name : String)
  | constEvalDivZero
  | invalidAssignmentToConst
  | invalidFunctionCall
  | breakOutsideOfLoop
  | continueOutsideOfLoop
  deriving Repr, DecidableEq

/-! ## 32-bit wrapping arithmetic

The Rust `i32` type: we model values as unbounded `Int` and wrap the
arithmetic results into `[-2^31, 2^31)` (two's complement, release-mode
wrapping semantics). -/

def wrap32 (x : Int) : Int := (x + 2 ^ 31) % 2 ^ 32 - 2 ^ 31

def add32 (a b : Int) : Int := wrap32 (a + b)

def sub32 (a b : Int) : Int := wrap32 (a - b)

def mul32 (a b : Int) : Int := wrap32 (a * b)

/-- 32-bit two's-complement truncated division with wraparound
(`i32::MIN / -1` gives `i32::MIN`): the semantics of the RV32M `div`
instruction the backend emits for Koopa `Div` (RISC-V division does not
trap on overflow; its zero-divisor convention of returning -1 is not
modelled here).  Rust's `/` on `i32` is NOT this function: it panics on the
`i32::MIN / -1` overflow in every build profile, so the front-end const
evaluator is modelled by `Expr.constEval` below, which signals that panic
as `none` and uses `div32` only where it equals the exact quotient. -/
def div32 (a b : Int) : Int := wrap32 (Int.tdiv a b)

/-- 32-bit truncated remainder with wraparound (`i32::MIN % -1` gives 0):
the semantics of the RV32M `rem` instruction emitted for Koopa `Mod`.
Rust's `%` on `i32` instead panics on `i32::MIN % -1` in every build
profile; see `Expr.constEval`. -/
def mod32 (a b : Int) : Int := wrap32 (Int.tmod a b)

/-! ## C1 — `FunctionPrologueInfo` (`src/backend/environment.rs`, lines 13-40) -/

structure FunctionPrologueInfo where
  stack_size : Int
  is_leaf : Bool
  args_stack_size : Int
  deriving Repr, DecidableEq

/-- `FunctionPrologueInfo::get_aligned_stack_size`
(`src/backend/environment.rs` lines 30-39).  Note the Rust source computes
`stack_size + args_stack_size + (self.is_leaf as i32) * 4`, i.e. it adds the
extra 4 bytes when `is_leaf` is *true*.  Rust `%` on `i32` is truncated
remainder (`Int.tmod`). -/
def FunctionPrologueInfo.getAlignedStackSize (info : FunctionPrologueInfo) : Int :=
  let stackSize := info.stack_size + info.args_stack_size +
    (if info.is_leaf then 1 else 0) * 4
  let remainder := Int.tmod stackSize 16
  if remainder = 0 then stackSize else stackSize + 16 - remainder

/-- Modelled from the spec: the aligned frame size the specification
prescribes — "Aligned frame size = round-up to 16 of
`stack_size + args_stack_size + (is_leaf ? 0 : 4)`" (§3, §8 of the spec).
This is the claim-side definition, to be compared with the source-side
`FunctionPrologueInfo.getAlignedStackSize`. -/
def claimedAlignedStackSize (info : FunctionPrologueInfo) : Int :=
  let stackSize := info.stack_size + info.args_stack_size +
    (if info.is_leaf then 0 else 4)
  let remainder := Int.tmod stackSize 16
  if remainder = 0 then stackSize else stackSize + 16 - remainder

/-! ## C7 — `NameGenerator` (`src/util/name_generator.rs`) -/

/-- One call to the name generator: `generate(pfx)` or `generate_group(pfxs)`
(`src/util/name_generator.rs` lines 14-27). -/
inductive NGCall where
  | gen (pfx : String)
  | genGroup (pfxs : List String)
  deriving Repr, DecidableEq

/-- The labels one call returns when the counter is `c`: each label is
`format!("{}{}", pfx, counter)`, i.e. the prefix followed by the decimal
rendering of the counter. -/
def NGCall.labels : NGCall → Nat → List String
  | .gen pfx, c => [pfx ++ Nat.repr c]
  | .genGroup pfxs, c => pfxs.map (fun pfx => pfx ++ Nat.repr c)

/-- The prefixes a call uses. -/
def NGCall.prefixes : NGCall → List String
  | .gen pfx => [pfx]
  | .genGroup pfxs => pfxs

/-- Run a sequence of calls against one `NameGenerator` whose counter starts
at `c0`; both `generate` and `generate_group` increment the counter by one
after formatting.  Returns the labels of each call in order. -/
def runNG (c0 : Nat) : List NGCall → List (List String)
  | [] => []
  | call :: rest => call.labels c0 :: runNG (c0 + 1) rest

/-! ## C8 — `NestedSymbolTable` (`src/frontend/symbol.rs`) -/

/-- Koopa IR types as used by the symbol table (i32, unit, pointer). -/
inductive IRType where
  | i32
  | unit
  | pointer (inner : IRType)
  deriving Repr, DecidableEq

/-- `SymbolTableEntry` (`src/frontend/symbol.rs` lines 7-12).  `Value` and
`Function` handles are opaque indices, modelled as `Nat`. -/
inductive SymbolTableEntry where
  | const (name : String) (value : Int)
  | var (value : Nat)
  | func (handle : Nat) (retType : IRType) (params : List (String × IRType))
  deriving Repr, DecidableEq

/-- `NestedSymbolTable` (`src/frontend/symbol.rs` lines 17-20): own entries
(a hash map, modelled as an association list with most-recent-first lookup)
plus an optional parent link. -/
inductive NestedSymbolTable where
  | mk (entries : List (String × SymbolTableEntry))
      (parent : Option NestedSymbolTable)

def NestedSymbolTable.entries : NestedSymbolTable → List (String × SymbolTableEntry)
  | .mk es _ => es

def NestedSymbolTable.parent : NestedSymbolTable → Option NestedSymbolTable
  | .mk _ p => p

/-- Hash-map key membership for the entry map. -/
def entriesContains (es : List (String × SymbolTableEntry)) (ident : String) : Bool :=
  es.any (fun p => p.1 = ident)

/-- `NestedSymbolTable::lookup` (`src/frontend/symbol.rs` lines 37-47):
search the current scope's entries, then the parent chain. -/
def NestedSymbolTable.lookup : NestedSymbolTable → String → Option SymbolTableEntry
  | .mk es p, ident =>
    match es.find? (fun q => q.1 = ident) with
    | some q => some q.2
    | none =>
      match p with
      | some parent => parent.lookup ident
      | none => none

/-- `NestedSymbolTable::bind` (`src/frontend/symbol.rs` lines 49-55).
Rust mutates `self` and returns `Result<(), FrontendError>`; we return the
resulting table together with the optional error.  On error the table is
returned unchanged, mirroring the early `return Err(..)` before any insert. -/
def NestedSymbolTable.bind (t : NestedSymbolTable) (ident : String)
    (entry : SymbolTableEntry) : NestedSymbolTable × Option FrontendError :=
  if entriesContains t.entries ident then
    (t, some (.multipleDefinitionsForIdentifier ident))
  else
    (.mk ((ident, entry) :: t.entries) t.parent, none)

/-! ## C5 — `Expr` and `try_const_eval` (`src/frontend/ast.rs`) -/

/-- The SysY expression AST (`src/frontend/ast.rs` lines 106-127).  The
`call` variant is matched by `src/frontend/generate_ir.rs` (line 471); its
declaration is missing from the checked-in `ast.rs` snapshot. -/
inductive Expr where
  | num (n : Int)
  | lval (ident : String)
  | pos (e : Expr)
  | neg (e : Expr)
  | not (e : Expr)
  | add (lhs rhs : Expr)
  | sub (lhs rhs : Expr)
  | mul (lhs rhs : Expr)
  | div (lhs rhs : Expr)
  | mod (lhs rhs : Expr)
  | lt (lhs rhs : Expr)
  | gt (lhs rhs : Expr)
  | le (lhs rhs : Expr)
  | ge (lhs rhs : Expr)
  | eq (lhs rhs : Expr)
  | ne (lhs rhs : Expr)
  | land (lhs rhs : Expr)
  | lor (lhs rhs : Expr)
  | call (ident : String) (args : List Expr)
  deriving Repr

/-- `Expr::has_side_effect` (`src/frontend/ast.rs` lines 139-160): leaves are
pure, unary and binary nodes recurse.  Modelled from the spec for the `call`
case (missing from the checked-in `ast.rs`): "Logical `&&`/`||` choose
between two strategies depending on whether operands contain a call (or any
other side-effecting construct)" — a call has a side effect. -/
def Expr.hasSideEffect : Expr → Bool
  | .num _ => false
  | .lval _ => false
  | .pos e => e.hasSideEffect
  | .neg e => e.hasSideEffect
  | .not e => e.hasSideEffect
  | .add lhs rhs => lhs.hasSideEffect || rhs.hasSideEffect
  | .sub lhs rhs => lhs.hasSideEffect || rhs.hasSideEffect
  | .mul lhs rhs => lhs.hasSideEffect || rhs.hasSideEffect
  | .div lhs rhs => lhs.hasSideEffect || rhs.hasSideEffect
  | .mod lhs rhs => lhs.hasSideEffect || rhs.hasSideEffect
  | .lt lhs rhs => lhs.hasSideEffect || rhs.hasSideEffect
  | .gt lhs rhs => lhs.hasSideEffect || rhs.hasSideEffect
  | .le lhs rhs => lhs.hasSideEffect || rhs.hasSideEffect
  | .ge lhs rhs => lhs.hasSideEffect || rhs.hasSideEffect
  | .eq lhs rhs => lhs.hasSideEffect || rhs.hasSideEffect
  | .ne lhs rhs => lhs.hasSideEffect || rhs.hasSideEffect
  | .land lhs rhs => lhs.hasSideEffect || rhs.hasSideEffect
  | .lor lhs rhs => lhs.hasSideEffect || rhs.hasSideEffect
  | .call _ _ => true

/-- `Expr::try_const_eval` (`src/frontend/ast.rs` lines 162-207), as the
value/error it returns on executions that do not panic.  The environment
lookup (`env.lookup(lval)`) resolves through the nested symbol table; a
`Const` entry yields its folded value, any other binding (or no binding)
signals `BindingNonConstExpr`.  Division or modulus whose right operand
folds to 0 signals `ConstEvalDivZero`; the left operand is evaluated first,
so its error takes precedence.  A `call` (not a const expression) also
signals `BindingNonConstExpr`.  CAUTION: this function is not a complete
model of the source — Rust's `/` and `%` panic on the `i32::MIN / -1`
overflow in every build profile, a failure path this `Except`-valued
function cannot express; the faithful model is `Expr.constEval` below
(`none` = panic), and `constEval_agrees` proves this function agrees with
it on every evaluation that does not panic (which is why the lowering
pipeline `generateConstDefs` may consume it). -/
def Expr.tryConstEval (tbl : NestedSymbolTable) : Expr → Except FrontendError Int
  | .num n => .ok n
  | .lval ident =>
    match tbl.lookup ident with
    | none => .error (.bindingNonConstExpr ident)
    | some (.const _ n) => .ok n
    | some _ => .error (.bindingNonConstExpr ident)
  | .pos e => e.tryConstEval tbl
  | .neg e => (e.tryConstEval tbl).map (fun v => wrap32 (-v))
  | .not e => (e.tryConstEval tbl).map (fun v => if v = 0 then 1 else 0)
  | .add lhs rhs => do pure (add32 (← lhs.tryConstEval tbl) (← rhs.tryConstEval tbl))
  | .sub lhs rhs => do pure (sub32 (← lhs.tryConstEval tbl) (← rhs.tryConstEval tbl))
  | .mul lhs rhs => do pure (mul32 (← lhs.tryConstEval tbl) (← rhs.tryConstEval tbl))
  | .div lhs rhs => do
    let lhsVal ← lhs.tryConstEval tbl
    let rhsVal ← rhs.tryConstEval tbl
    if rhsVal = 0 then
      .error .constEvalDivZero
    else
      pure (div32 lhsVal rhsVal)
  | .mod lhs rhs => do
    let lhsVal ← lhs.tryConstEval tbl
    let rhsVal ← rhs.tryConstEval tbl
    if rhsVal = 0 then
      .error .constEvalDivZero
    else
      pure (mod32 lhsVal rhsVal)
  | .lt lhs rhs => do
    pure (if (← lhs.tryConstEval tbl) < (← rhs.tryConstEval tbl) then 1 else 0)
  | .gt lhs rhs => do
    pure (if (← lhs.tryConstEval tbl) > (← rhs.tryConstEval tbl) then 1 else 0)
  | .le lhs rhs => do
    pure (if (← lhs.tryConstEval tbl) ≤ (← rhs.tryConstEval tbl) then 1 else 0)
  | .ge lhs rhs => do
    pure (if (← lhs.tryConstEval tbl) ≥ (← rhs.tryConstEval tbl) then 1 else 0)
  | .eq lhs rhs => do
    pure (if (← lhs.tryConstEval tbl) = (← rhs.tryConstEval tbl) then 1 else 0)
  | .ne lhs rhs => do
    pure (if (← lhs.tryConstEval tbl) ≠ (← rhs.tryConstEval tbl) then 1 else 0)
  | .land lhs rhs => do
    pure (if (← lhs.tryConstEval tbl) ≠ 0 ∧ (← rhs.tryConstEval tbl) ≠ 0 then 1 else 0)
  | .lor lhs rhs => do
    pure (if (← lhs.tryConstEval tbl) ≠ 0 ∨ (← rhs.tryConstEval tbl) ≠ 0 then 1 else 0)
  | .call ident _ => .error (.bindingNonConstExpr ident)

/-- Sequencing for the panic-aware const evaluator: `none` (a Rust panic)
and `Except.error` both cut evaluation short, mirroring the `?` operator
plus the possibility of an aborting arithmetic operation. -/
def pBind (x : Option (Except FrontendError Int))
    (f : Int → Option (Except FrontendError Int)) :
    Option (Except FrontendError Int) :=
  match x with
  | none => none
  | some (.error e) => some (.error e)
  | some (.ok v) => f v

/-- `Expr::try_const_eval` (`src/frontend/ast.rs` lines 162-207), faithful
panic-aware model: `none` models a Rust panic (the process aborts without
returning), `some` the function's actual `Result`.  All arms mirror
`Expr.tryConstEval`; the difference is `/` and `%`: after the source's
`rhs == 0` check, Rust's `/` and `%` on `i32` panic — in every build
profile, since division overflow checks are unconditional — exactly when
`lhs = i32::MIN` and `rhs = -1`, and otherwise return the exact (in-range)
truncated quotient/remainder, which `div32`/`mod32` then coincide with. -/
def Expr.constEval (tbl : NestedSymbolTable) : Expr → Option (Except FrontendError Int)
  | .num n => some (.ok n)
  | .lval ident =>
    match tbl.lookup ident with
    | none => some (.error (.bindingNonConstExpr ident))
    | some (.const _ n) => some (.ok n)
    | some _ => some (.error (.bindingNonConstExpr ident))
  | .pos e => e.constEval tbl
  | .neg e => pBind (e.constEval tbl) fun v => some (.ok (wrap32 (-v)))
  | .not e => pBind (e.constEval tbl) fun v => some (.ok (if v = 0 then 1 else 0))
  | .add lhs rhs =>
    pBind (lhs.constEval tbl) fun lv =>
      pBind (rhs.constEval tbl) fun rv => some (.ok (add32 lv rv))
  | .sub lhs rhs =>
    pBind (lhs.constEval tbl) fun lv =>
      pBind (rhs.constEval tbl) fun rv => some (.ok (sub32 lv rv))
  | .mul lhs rhs =>
    pBind (lhs.constEval tbl) fun lv =>
      pBind (rhs.constEval tbl) fun rv => some (.ok (mul32 lv rv))
  | .div lhs rhs =>
    pBind (lhs.constEval tbl) fun lv =>
      pBind (rhs.constEval tbl) fun rv =>
        if rv = 0 then some (.error .constEvalDivZero)
        else if lv = -(2 ^ 31) ∧ rv = -1 then none
        else some (.ok (div32 lv rv))
  | .mod lhs rhs =>
    pBind (lhs.constEval tbl) fun lv =>
      pBind (rhs.constEval tbl) fun rv =>
        if rv = 0 then some (.error .constEvalDivZero)
        else if lv = -(2 ^ 31) ∧ rv = -1 then none
        else some (.ok (mod32 lv rv))
  | .lt lhs rhs =>
    pBind (lhs.constEval tbl) fun lv =>
      pBind (rhs.constEval tbl) fun rv => some (.ok (if lv < rv then 1 else 0))
  | .gt lhs rhs =>
    pBind (lhs.constEval tbl) fun lv =>
      pBind (rhs.constEval tbl) fun rv => some (.ok (if lv > rv then 1 else 0))
  | .le lhs rhs =>
    pBind (lhs.constEval tbl) fun lv =>
      pBind (rhs.constEval tbl) fun rv => some (.ok (if lv ≤ rv then 1 else 0))
  | .ge lhs rhs =>
    pBind (lhs.constEval tbl) fun lv =>
      pBind (rhs.constEval tbl) fun rv => some (.ok (if lv ≥ rv then 1 else 0))
  | .eq lhs rhs =>
    pBind (lhs.constEval tbl) fun lv =>
      pBind (rhs.constEval tbl) fun rv => some (.ok (if lv = rv then 1 else 0))
  | .ne lhs rhs =>
    pBind (lhs.constEval tbl) fun lv =>
      pBind (rhs.constEval tbl) fun rv => some (.ok (if lv ≠ rv then 1 else 0))
  | .land lhs rhs =>
    pBind (lhs.constEval tbl) fun lv =>
      pBind (rhs.constEval tbl) fun rv =>
        some (.ok (if lv ≠ 0 ∧ rv ≠ 0 then 1 else 0))
  | .lor lhs rhs =>
    pBind (lhs.constEval tbl) fun lv =>
      pBind (rhs.constEval tbl) fun rv =>
        some (.ok (if lv ≠ 0 ∨ rv ≠ 0 then 1 else 0))
  | .call ident _ => some (.error (.bindingNonConstExpr ident))

/-! ## IR value kinds (Koopa IR, as used by `src/opt` and `src/frontend`) -/

/-- Koopa `BinaryOp` values used by the front-end. -/
inductive IRBinaryOp where
  | notEq | eq | gt | lt | ge | le
  | add | sub | mul | div | mod | and | or
  deriving Repr, DecidableEq

/-- Koopa `ValueKind`, restricted to the kinds this compiler produces.
Value and basic-block handles are opaque indices (`Nat`). -/
inductive IRValueKind where
  | integer (n : Int)
  | alloc
  | globalAlloc (init : Int)
  | load (src : Nat)
  | store (val dst : Nat)
  | binary (op : IRBinaryOp) (lhs rhs : Nat)
  | branch (cond tbb fbb : Nat)
  | jump (target : Nat)
  | ret (v : Option Nat)
  | call (callee : Nat) (args : List Nat)
  | funcArgRef (index : Nat)
  deriving Repr, DecidableEq

/-! ## C6 — dead-code sweep (`src/opt/dead_code_elimination.rs`) -/

/-- `DeadCodeEliminationPass::is_terminator`
(`src/opt/dead_code_elimination.rs` lines 94-99). -/
def isTerminator : IRValueKind → Bool
  | .branch _ _ _ => true
  | .ret _ => true
  | .jump _ => true
  | _ => false

/-- The per-block part of `DeadCodeEliminationPass::sweep`
(`src/opt/dead_code_elimination.rs` lines 39-56): once a terminator is seen,
all subsequent instructions of the block are removed.  A basic block is the
list of its layout instructions, each carried with its value kind. -/
def sweepBlock : List (Nat × IRValueKind) → List (Nat × IRValueKind)
  | [] => []
  | inst :: rest =>
    if isTerminator inst.2 then [inst] else inst :: sweepBlock rest

/-- The `@main` fix-up of `DeadCodeEliminationPass::sweep`
(`src/opt/dead_code_elimination.rs` lines 58-64 and 84-91): every block whose
final instruction is not a terminator (including empty blocks) gets a fresh
integer-0 value and a `Return` of it appended; the integer is created in the
DFG but only the `Return` is pushed onto the block.  `nv` is the next fresh
value handle. -/
def dceAppendMain (nv : Nat) :
    List (List (Nat × IRValueKind)) → List (List (Nat × IRValueKind)) × Nat
  | [] => ([], nv)
  | bb :: rest =>
    if (bb.getLast?).elim true (fun inst => !isTerminator inst.2) then
      let bb := bb ++ [(nv + 1, .ret (some nv))]
      let (rest', nv') := dceAppendMain (nv + 2) rest
      (bb :: rest', nv')
    else
      let (rest', nv') := dceAppendMain nv rest
      (bb :: rest', nv')

/-- `DeadCodeEliminationPass::sweep` restricted to the function layout:
truncate every block after its first terminator, and, when the function is
`@main`, append `ret 0` to the blocks that are left unterminated.  (The
worklist that erases the removed values from the DFG does not touch the
layout and is not modelled.) -/
def dceSweep (isMain : Bool) (nv : Nat) (bbs : List (List (Nat × IRValueKind))) :
    List (List (Nat × IRValueKind)) × Nat :=
  let swept := bbs.map sweepBlock
  if isMain then dceAppendMain nv swept else (swept, nv)

/-! ## Registers and RV32 instructions (`src/backend/register.rs`,
`src/backend/instruction.rs`) -/

inductive RVRegister where
  | ra | sp
  | a0 | a1 | a2 | a3 | a4 | a5 | a6 | a7
  | t0 | t1 | t2 | t3 | t4 | t5 | t6
  | zero
  deriving Repr, DecidableEq

/-- `RVRegister::is_temp` (`src/backend/register.rs` lines 12-18). -/
def RVRegister.isTemp : RVRegister → Bool
  | .t0 | .t1 | .t2 | .t3 | .t4 | .t5 | .t6 => true
  | _ => false

/-- `Instruction` (`src/backend/instruction.rs` lines 4-27). -/
inductive Instruction where
  | addi (rd rs : RVRegister) (imm : Int)
  | li (rd : RVRegister) (imm : Int)
  | lw (rd rs : RVRegister) (imm : Int)
  | sw (rs rd : RVRegister) (imm : Int)
  | mv (rd rs : RVRegister)
  | add (rd rs1 rs2 : RVRegister)
  | sub (rd rs1 rs2 : RVRegister)
  | mul (rd rs1 rs2 : RVRegister)
  | div (rd rs1 rs2 : RVRegister)
  | rem (rd rs1 rs2 : RVRegister)
  | and (rd rs1 rs2 : RVRegister)
  | or (rd rs1 rs2 : RVRegister)
  | xor (rd rs1 rs2 : RVRegister)
  | slt (rd rs1 rs2 : RVRegister)
  | sgt (rd rs1 rs2 : RVRegister)
  | seqz (rd rs : RVRegister)
  | snez (rd rs : RVRegister)
  | bnez (rs : RVRegister) (label : String)
  | j (label : String)
  | call (label : String)
  | ret
  deriving Repr, DecidableEq

/-- `RVRegisterPool` (`src/backend/register.rs` lines 66-97): the set of
available registers.  The Rust `HashSet` iteration order is unspecified; the
model refines it to a list whose head is handed out first. -/
abbrev RVRegisterPool := List RVRegister

/-- `RVRegisterPool::next` (`src/backend/register.rs` lines 80-87). -/
def poolNext : RVRegisterPool → Option (RVRegister × RVRegisterPool)
  | [] => none
  | r :: rest => some (r, rest)

/-- `RVRegisterPool::release` (`src/backend/register.rs` lines 89-96):
re-inserted iff the register is a temporary. -/
def poolRelease (pool : RVRegisterPool) (r : RVRegister) : RVRegisterPool :=
  if r.isTemp then pool ++ [r] else pool

/-! ## C9 — long-offset lowering helpers (`src/backend/environment.rs`,
lines 220-268).  Each helper returns the emitted instruction list and the
updated register pool; `none` models the `unwrap` panic on an empty pool. -/

/-- `AsmEnvironment::generate_sw` (`src/backend/environment.rs` lines 220-235). -/
def generateSw (pool : RVRegisterPool) (rs rd : RVRegister) (imm : Int) :
    Option (List Instruction × RVRegisterPool) :=
  if -(2 ^ 11) ≤ imm ∧ imm < 2 ^ 11 then
    some ([.sw rs rd imm], pool)
  else
    match poolNext pool with
    | none => none
    | some (temp, pool') =>
      some ([.li temp imm, .add temp temp rd, .sw rs temp 0], poolRelease pool' temp)

/-- `AsmEnvironment::generate_lw` (`src/backend/environment.rs` lines 237-252). -/
def generateLw (pool : RVRegisterPool) (rd rs : RVRegister) (imm : Int) :
    Option (List Instruction × RVRegisterPool) :=
  if -(2 ^ 11) ≤ imm ∧ imm < 2 ^ 11 then
    some ([.lw rd rs imm], pool)
  else
    match poolNext pool with
    | none => none
    | some (temp, pool') =>
      some ([.li temp imm, .add temp temp rs, .lw rd temp 0], poolRelease pool' temp)

/-- `AsmEnvironment::generate_addi` (`src/backend/environment.rs` lines 254-268). -/
def generateAddi (pool : RVRegisterPool) (rd rs : RVRegister) (imm : Int) :
    Option (List Instruction × RVRegisterPool) :=
  if -(2 ^ 11) ≤ imm ∧ imm < 2 ^ 11 then
    some ([.addi rd rs imm], pool)
  else
    match poolNext pool with
    | none => none
    | some (temp, pool') =>
      some ([.li temp imm, .add rd rs temp], poolRelease pool' temp)

/-! ## RV32 machine semantics for straight-line code

Registers hold integers; `x0` reads as zero and ignores writes; memory maps
addresses to words.  Only the instruction forms the long-offset helpers emit
matter for C9; the remaining ALU forms get their standard meaning and the
control-flow forms leave the state unchanged (they never appear in the
compared sequences). -/

structure Machine where
  regs : RVRegister → Int
  mem : Int → Int

def Machine.read (m : Machine) (r : RVRegister) : Int :=
  if r = .zero then 0 else m.regs r

def Machine.write (m : Machine) (r : RVRegister) (v : Int) : Machine :=
  if r = .zero then m
  else { m with regs := fun x => if x = r then v else m.regs x }

def execInst (m : Machine) : Instruction → Machine
  | .addi rd rs imm => m.write rd (m.read rs + imm)
  | .li rd imm => m.write rd imm
  | .lw rd rs imm => m.write rd (m.mem (m.read rs + imm))
  | .sw rs rd imm =>
    { m with mem := fun a => if a = m.read rd + imm then m.read rs else m.mem a }
  | .mv rd rs => m.write rd (m.read rs)
  | .add rd rs1 rs2 => m.write rd (m.read rs1 + m.read rs2)
  | .sub rd rs1 rs2 => m.write rd (m.read rs1 - m.read rs2)
  | .mul rd rs1 rs2 => m.write rd (m.read rs1 * m.read rs2)
  | .div rd rs1 rs2 => m.write rd (Int.tdiv (m.read rs1) (m.read rs2))
  | .rem rd rs1 rs2 => m.write rd (Int.tmod (m.read rs1) (m.read rs2))
  | .and rd rs1 rs2 => m.write rd (Int.land (m.read rs1) (m.read rs2))
  | .or rd rs1 rs2 => m.write rd (Int.lor (m.read rs1) (m.read rs2))
  | .xor rd rs1 rs2 => m.write rd (Int.xor (m.read rs1) (m.read rs2))
  | .slt rd rs1 rs2 => m.write rd (if m.read rs1 < m.read rs2 then 1 else 0)
  | .sgt rd rs1 rs2 => m.write rd (if m.read rs1 > m.read rs2 then 1 else 0)
  | .seqz rd rs => m.write rd (if m.read rs = 0 then 1 else 0)
  | .snez rd rs => m.write rd (if m.read rs = 0 then 0 else 1)
  | .bnez _ _ => m
  | .j _ => m
  | .call _ => m
  | .ret => m

def execInsts (m : Machine) (l : List Instruction) : Machine :=
  l.foldl execInst m

/-! ## C10 — `alloc_stack_storage` (`src/backend/environment.rs`, lines 185-191) -/

/-- `ValueStorage` (`src/backend/environment.rs` lines 42-48). -/
inductive ValueStorage where
  | immediate (n : Int)
  | register (r : RVRegister)
  | stack (offset : Int)
  | global (label : String)
  deriving Repr, DecidableEq

/-- The slice of `AsmEnvironment` that `alloc_stack_storage` reads and
writes: the presence table (a hash map from value identity to storage,
modelled as a most-recent-first association list) and the function prologue
info. -/
structure AsmAllocEnv where
  presence_table : List (Nat × ValueStorage)
  function_prologue_info : FunctionPrologueInfo

/-- Presence-table lookup (hash-map semantics: the most recent insert for a
key wins). -/
def presenceGet (env : AsmAllocEnv) (v : Nat) : Option ValueStorage :=
  (env.presence_table.find? (fun p => p.1 = v)).map Prod.snd

/-- `AsmEnvironment::alloc_stack_storage` (`src/backend/environment.rs`
lines 185-191): the slot offset is `stack_size + args_stack_size`, then
`stack_size` advances by `size`. -/
def allocStackStorage (env : AsmAllocEnv) (value : Nat) (size : Int) : AsmAllocEnv :=
  let position := env.function_prologue_info.stack_size +
    env.function_prologue_info.args_stack_size
  { presence_table := (value, .stack position) :: env.presence_table,
    function_prologue_info :=
      { env.function_prologue_info with
        stack_size := env.function_prologue_info.stack_size + size } }

/-- A sequence of 4-byte allocations, one per value, in order — every call
site of `alloc_stack_storage` in `src/backend/generate_asm.rs` passes
`size = 4`. -/
def allocStackMany (env : AsmAllocEnv) (values : List Nat) : AsmAllocEnv :=
  values.foldl (fun e v => allocStackStorage e v 4) env

/-- `args_stack_size` from the call graph (`src/backend/generate_asm.rs`
line 111): `max(0, max_args - 8) * 4`. -/
def argsStackSizeOf (maxArgs : Nat) : Int :=
  max 0 ((maxArgs : Int) - 8) * 4

/-- The stack offset at which the `i`-th call argument (`i ≥ 8`) is stored
before a `call` (`src/backend/generate_asm.rs` line 335): `(i - 8) * 4`. -/
def callArgStoreOffset (i : Nat) : Int :=
  ((i : Int) - 8) * 4

/-! ## Front-end AST — statements and declarations (`src/frontend/ast.rs`) -/

inductive ConstDef where
  | mk (ident : String) (initVal : Expr)
  deriving Repr

inductive VarDef where
  | ident (i : String)
  | init (i : String) (e : Expr)
  deriving Repr

inductive Decl where
  | constDecl (defs : List ConstDef)
  | varDecl (defs : List VarDef)
  deriving Repr

mutual

inductive Stmt where
  | ret (e : Expr)
  | assign (ident : String) (e : Expr)
  | expr (e : Expr)
  | empty
  | block (b : Block)
  | ifThen (cond : Expr) (s : Stmt)
  | ifElse (cond : Expr) (s t : Stmt)
  | whileLoop (cond : Expr) (body : Stmt)
  | brk
  | cont
  deriving Repr

inductive Block where
  | mk (items : List BlockItem)
  deriving Repr

inductive BlockItem where
  | decl (d : Decl)
  | stmt (s : Stmt)
  deriving Repr

end

/-- Function return types (`FuncType`).  The checked-in `ast.rs` snapshot
lists only `Int`; the `void` variant is required by
`src/frontend/generate_ir.rs` line 90 (`self.func_type.to() ==
Type::get_unit()`) and by the spec's void functions. -/
inductive FuncType where
  | int
  | void
  deriving Repr, DecidableEq

/-- `FuncType::to()`. -/
def FuncType.toIR : FuncType → IRType
  | .int => .i32
  | .void => .unit

/-- `FuncDef` (per `src/frontend/generate_ir.rs` lines 41-96): parameters
are identifiers, each of base type `int`. -/
structure FuncDef where
  funcType : FuncType
  ident : String
  params : List String
  block : Block
  deriving Repr

/-! ## IR generation state

`src/common/environment.rs`: the `IREnvironment` threads a shared program
(data-flow graph plus block layout), a shared name generator, the current
basic block, a loop stack and a symbol table through every lowering function.
The shared, mutable program state is collected in `GenState`; the symbol
table and the loop stack are passed explicitly, mirroring the per-environment
copies. -/

def assocGet {α : Type} : List (Nat × α) → Nat → Option α
  | [], _ => none
  | p :: rest, k => if p.1 = k then some p.2 else assocGet rest k

structure GenState where
  dfg : List (Nat × IRValueKind)
  nextValue : Nat
  blockInsts : List (Nat × List Nat)
  blockNames : List (Nat × String)
  nextBB : Nat
  curBB : Nat
  nameCounter : Nat
  nextFunc : Nat
  deriving Repr

/-- `dfg_mut().new_value()` — create a fresh value with the given kind. -/
def GenState.newValue (s : GenState) (k : IRValueKind) : Nat × GenState :=
  (s.nextValue, { s with dfg := (s.nextValue, k) :: s.dfg, nextValue := s.nextValue + 1 })

/-- `IRContext::add_instruction` (`src/common/environment.rs` lines 273-281):
push the value onto the current basic block's instruction list. -/
def GenState.addInst (s : GenState) (v : Nat) : GenState :=
  { s with blockInsts :=
      s.blockInsts.map (fun p => if p.1 = s.curBB then (p.1, p.2 ++ [v]) else p) }

/-- `IRContext::create_block` (`src/common/environment.rs` lines 262-270):
create a named basic block and push it onto the function layout; the current
block is not changed. -/
def GenState.createBlock (s : GenState) (name : String) : Nat × GenState :=
  (s.nextBB, { s with blockInsts := s.blockInsts ++ [(s.nextBB, [])],
                      blockNames := s.blockNames ++ [(s.nextBB, name)],
                      nextBB := s.nextBB + 1 })

/-- `enter_bb` / `switch_bb`: continue generating into the given block. -/
def GenState.enterBB (s : GenState) (bb : Nat) : GenState :=
  { s with curBB := bb }

/-- `NameGenerator::generate` through the shared `Rc<RefCell<_>>`. -/
def GenState.genName (s : GenState) (pfx : String) : String × GenState :=
  (pfx ++ Nat.repr s.nameCounter, { s with nameCounter := s.nameCounter + 1 })

/-- `NameGenerator::generate_group` through the shared `Rc<RefCell<_>>`. -/
def GenState.genGroup (s : GenState) (pfxs : List String) : List String × GenState :=
  (pfxs.map (fun pfx => pfx ++ Nat.repr s.nameCounter),
   { s with nameCounter := s.nameCounter + 1 })

/-- `Program::new_func` — allocate a function handle. -/
def GenState.newFunc (s : GenState) : Nat × GenState :=
  (s.nextFunc, { s with nextFunc := s.nextFunc + 1 })

def GenState.dfgGet (s : GenState) (v : Nat) : Option IRValueKind :=
  assocGet s.dfg v

def GenState.blockOf (s : GenState) (bb : Nat) : List Nat :=
  (assocGet s.blockInsts bb).getD []

/-! ## Expression lowering (`src/frontend/generate_ir.rs`, lines 331-497) -/

/-- `Expr::Land` side-effecting prelude (`src/frontend/generate_ir.rs`
lines 383-387): allocate the result slot and store 0 into it.  Returns the
slot. -/
def landEntry (st : GenState) : Nat × GenState :=
  let (result, s1) := st.newValue .alloc
  let s2 := s1.addInst result
  let (zeroResultInit, s3) := s2.newValue (.integer 0)
  let (resultInit, s4) := s3.newValue (.store zeroResultInit result)
  (result, s4.addInst resultInit)

/-- `Expr::Land` side-effecting guard (lines 390-400): normalize the lhs via
`!= 0`, create the `%logical_and_branch` / `%logical_and_merge` blocks,
branch on the normalized lhs (true → second-operand block, false → merge),
and continue in the second-operand block.  Returns
`(lhsNeqZ, bbBranch, bbMerge, state)`. -/
def landGuard (s : GenState) (lhsVal : Nat) : Nat × Nat × Nat × GenState :=
  let (zero, s1) := s.newValue (.integer 0)
  let (lhsNeqZ, s2) := s1.newValue (.binary .notEq lhsVal zero)
  let s3 := s2.addInst lhsNeqZ
  let (name1, s4) := s3.genName "%logical_and_branch"
  let (bbBranch, s5) := s4.createBlock name1
  let (name2, s6) := s5.genName "%logical_and_merge"
  let (bbMerge, s7) := s6.createBlock name2
  let (branch, s8) := s7.newValue (.branch lhsNeqZ bbBranch bbMerge)
  let s9 := s8.addInst branch
  (lhsNeqZ, bbBranch, bbMerge, s9.enterBB bbBranch)

/-- `Expr::Lor` side-effecting prelude (lines 429-433): the slot is
initialized to 1. -/
def lorEntry (st : GenState) : Nat × GenState :=
  let (result, s1) := st.newValue .alloc
  let s2 := s1.addInst result
  let (oneResultInit, s3) := s2.newValue (.integer 1)
  let (resultInit, s4) := s3.newValue (.store oneResultInit result)
  (result, s4.addInst resultInit)

/-- `Expr::Lor` side-effecting guard (lines 435-446): branch on `lhs == 0`
(true → second-operand block, false → merge), blocks named
`%logical_or_branch` / `%logical_or_merge`. -/
def lorGuard (s : GenState) (lhsVal : Nat) : Nat × Nat × Nat × GenState :=
  let (zero, s1) := s.newValue (.integer 0)
  let (lhsEqZ, s2) := s1.newValue (.binary .eq lhsVal zero)
  let s3 := s2.addInst lhsEqZ
  let (name1, s4) := s3.genName "%logical_or_branch"
  let (bbBranch, s5) := s4.createBlock name1
  let (name2, s6) := s5.genName "%logical_or_merge"
  let (bbMerge, s7) := s6.createBlock name2
  let (branch, s8) := s7.newValue (.branch lhsEqZ bbBranch bbMerge)
  let s9 := s8.addInst branch
  (lhsEqZ, bbBranch, bbMerge, s9.enterBB bbBranch)

/-- The second-operand epilogue shared by `&&` and `||` (lines 401-413 and
447-459): store `rhs != 0` into the slot, jump to the merge block, continue
there and load the slot.  Returns the loaded result. -/
def scClose (s : GenState) (rhsVal result bbMerge : Nat) : Nat × GenState :=
  let (zeroBranch, s1) := s.newValue (.integer 0)
  let (rhsNeqZ, s2) := s1.newValue (.binary .notEq rhsVal zeroBranch)
  let s3 := s2.addInst rhsNeqZ
  let (resultAssign, s4) := s3.newValue (.store rhsNeqZ result)
  let s5 := s4.addInst resultAssign
  let (branchJump, s6) := s5.newValue (.jump bbMerge)
  let s7 := s6.addInst branchJump
  let s8 := s7.enterBB bbMerge
  let (resultLoad, s9) := s8.newValue (.load result)
  (resultLoad, s9.addInst resultLoad)

mutual

/-- `IRGenerator for Expr::generate_ir` (`src/frontend/generate_ir.rs`
lines 331-497).  Returns the value handle of the lowered expression. -/
def generateExpr (tbl : NestedSymbolTable) : Expr → GenState → Except FrontendError (Nat × GenState)
  | .num n, st => .ok (st.newValue (.integer n))
  | .lval ident, st =>
    match tbl.lookup ident with
    | none => .error (.definitionNotFoundForIdentifier ident)
    | some (.const _ n) => .ok (st.newValue (.integer n))
    | some (.var v) =>
      let (load, s1) := st.newValue (.load v)
      .ok (load, s1.addInst load)
    | some (.func _ _ _) => .error .invalidFunctionCall
  | .pos e, st => generateExpr tbl e st
  | .neg e, st =>
    let (zero, s1) := st.newValue (.integer 0)
    match generateExpr tbl e s1 with
    | .error err => .error err
    | .ok (v, s2) =>
      let (op, s3) := s2.newValue (.binary .sub zero v)
      .ok (op, s3.addInst op)
  | .not e, st =>
    let (zero, s1) := st.newValue (.integer 0)
    match generateExpr tbl e s1 with
    | .error err => .error err
    | .ok (v, s2) =>
      let (op, s3) := s2.newValue (.binary .eq v zero)
      .ok (op, s3.addInst op)
  | .add l r, st =>
    match generateExpr tbl l st with
    | .error err => .error err
    | .ok (lv, s1) =>
      match generateExpr tbl r s1 with
      | .error err => .error err
      | .ok (rv, s2) =>
        let (op, s3) := s2.newValue (.binary .add lv rv)
        .ok (op, s3.addInst op)
  | .sub l r, st =>
    match generateExpr tbl l st with
    | .error err => .error err
    | .ok (lv, s1) =>
      match generateExpr tbl r s1 with
      | .error err => .error err
      | .ok (rv, s2) =>
        let (op, s3) := s2.newValue (.binary .sub lv rv)
        .ok (op, s3.addInst op)
  | .mul l r, st =>
    match generateExpr tbl l st with
    | .error err => .error err
    | .ok (lv, s1) =>
      match generateExpr tbl r s1 with
      | .error err => .error err
      | .ok (rv, s2) =>
        let (op, s3) := s2.newValue (.binary .mul lv rv)
        .ok (op, s3.addInst op)
  | .div l r, st =>
    match generateExpr tbl l st with
    | .error err => .error err
    | .ok (lv, s1) =>
      match generateExpr tbl r s1 with
      | .error err => .error err
      | .ok (rv, s2) =>
        let (op, s3) := s2.newValue (.binary .div lv rv)
        .ok (op, s3.addInst op)
  | .mod l r, st =>
    match generateExpr tbl l st with
    | .error err => .error err
    | .ok (lv, s1) =>
      match generateExpr tbl r s1 with
      | .error err => .error err
      | .ok (rv, s2) =>
        let (op, s3) := s2.newValue (.binary .mod lv rv)
        .ok (op, s3.addInst op)
  | .lt l r, st =>
    match generateExpr tbl l st with
    | .error err => .error err
    | .ok (lv, s1) =>
      match generateExpr tbl r s1 with
      | .error err => .error err
      | .ok (rv, s2) =>
        let (op, s3) := s2.newValue (.binary .lt lv rv)
        .ok (op, s3.addInst op)
  | .gt l r, st =>
    match generateExpr tbl l st with
    | .error err => .error err
    | .ok (lv, s1) =>
      match generateExpr tbl r s1 with
      | .error err => .error err
      | .ok (rv, s2) =>
        let (op, s3) := s2.newValue (.binary .gt lv rv)
        .ok (op, s3.addInst op)
  | .le l r, st =>
    match generateExpr tbl l st with
    | .error err => .error err
    | .ok (lv, s1) =>
      match generateExpr tbl r s1 with
      | .error err => .error err
      | .ok (rv, s2) =>
        let (op, s3) := s2.newValue (.binary .le lv rv)
        .ok (op, s3.addInst op)
  | .ge l r, st =>
    match generateExpr tbl l st with
    | .error err => .error err
    | .ok (lv, s1) =>
      match generateExpr tbl r s1 with
      | .error err => .error err
      | .ok (rv, s2) =>
        let (op, s3) := s2.newValue (.binary .ge lv rv)
        .ok (op, s3.addInst op)
  | .eq l r, st =>
    match generateExpr tbl l st with
    | .error err => .error err
    | .ok (lv, s1) =>
      match generateExpr tbl r s1 with
      | .error err => .error err
      | .ok (rv, s2) =>
        let (op, s3) := s2.newValue (.binary .eq lv rv)
        .ok (op, s3.addInst op)
  | .ne l r, st =>
    match generateExpr tbl l st with
    | .error err => .error err
    | .ok (lv, s1) =>
      match generateExpr tbl r s1 with
      | .error err => .error err
      | .ok (rv, s2) =>
        let (op, s3) := s2.newValue (.binary .notEq lv rv)
        .ok (op, s3.addInst op)
  | .land lhs rhs, st =>
    if lhs.hasSideEffect || rhs.hasSideEffect then
      let (result, stE) := landEntry st
      match generateExpr tbl lhs stE with
      | .error err => .error err
      | .ok (lhsVal, s1) =>
        match landGuard s1 lhsVal with
        | (_, _, bbMerge, sG) =>
          match generateExpr tbl rhs sG with
          | .error err => .error err
          | .ok (rhsVal, s2) => .ok (scClose s2 rhsVal result bbMerge)
    else
      match generateExpr tbl lhs st with
      | .error err => .error err
      | .ok (lhsVal, s1) =>
        match generateExpr tbl rhs s1 with
        | .error err => .error err
        | .ok (rhsVal, s2) =>
          let (zero, s3) := s2.newValue (.integer 0)
          let (lhsNeqZ, s4) := s3.newValue (.binary .notEq lhsVal zero)
          let (rhsNeqZ, s5) := s4.newValue (.binary .notEq rhsVal zero)
          let (op, s6) := s5.newValue (.binary .and lhsNeqZ rhsNeqZ)
          let s7 := s6.addInst lhsNeqZ
          let s8 := s7.addInst rhsNeqZ
          .ok (op, s8.addInst op)
  | .lor lhs rhs, st =>
    if lhs.hasSideEffect || rhs.hasSideEffect then
      let (result, stE) := lorEntry st
      match generateExpr tbl lhs stE with
      | .error err => .error err
      | .ok (lhsVal, s1) =>
        match lorGuard s1 lhsVal with
        | (_, _, bbMerge, sG) =>
          match generateExpr tbl rhs sG with
          | .error err => .error err
          | .ok (rhsVal, s2) => .ok (scClose s2 rhsVal result bbMerge)
    else
      match generateExpr tbl lhs st with
      | .error err => .error err
      | .ok (lhsVal, s1) =>
        match generateExpr tbl rhs s1 with
        | .error err => .error err
        | .ok (rhsVal, s2) =>
          let (zero, s3) := s2.newValue (.integer 0)
          let (op, s4) := s3.newValue (.binary .or lhsVal rhsVal)
          let (snez, s5) := s4.newValue (.binary .notEq op zero)
          let s6 := s5.addInst op
          .ok (snez, s6.addInst snez)
  | .call ident args, st =>
    match tbl.lookup ident with
    | none => .error (.definitionNotFoundForIdentifier ident)
    | some (.func handle _ _) =>
      match generateExprList tbl args st with
      | .error err => .error err
      | .ok (argVals, s1) =>
        let (c, s2) := s1.newValue (.call handle argVals)
        .ok (c, s2.addInst c)
    | some _ => .error .invalidFunctionCall

/-- Left-to-right lowering of call arguments (lines 478-483). -/
def generateExprList (tbl : NestedSymbolTable) : List Expr → GenState → Except FrontendError (List Nat × GenState)
  | [], st => .ok ([], st)
  | e :: rest, st =>
    match generateExpr tbl e st with
    | .error err => .error err
    | .ok (v, s1) =>
      match generateExprList tbl rest s1 with
      | .error err => .error err
      | .ok (vs, s2) => .ok (v :: vs, s2)

end

/-! ## Declaration lowering (`src/frontend/generate_ir.rs`, lines 123-172) -/

/-- Const definitions: fold the initializer, bind as `Const`. -/
def generateConstDefs (tbl : NestedSymbolTable) :
    List ConstDef → GenState → Except FrontendError (NestedSymbolTable × GenState)
  | [], st => .ok (tbl, st)
  | .mk ident initExpr :: rest, st =>
    match initExpr.tryConstEval tbl with
    | .error err => .error err
    | .ok v =>
      match tbl.bind ident (.const ident v) with
      | (_, some err) => .error err
      | (tbl1, none) => generateConstDefs tbl1 rest st

/-- Var definitions: allocate a slot, store the lowered initializer if
present, bind as `Var`. -/
def generateVarDefs (tbl : NestedSymbolTable) :
    List VarDef → GenState → Except FrontendError (NestedSymbolTable × GenState)
  | [], st => .ok (tbl, st)
  | .ident i :: rest, st =>
    let (var, s1) := st.newValue .alloc
    let s2 := s1.addInst var
    match tbl.bind i (.var var) with
    | (_, some err) => .error err
    | (tbl1, none) => generateVarDefs tbl1 rest s2
  | .init i e :: rest, st =>
    let (var, s1) := st.newValue .alloc
    let s2 := s1.addInst var
    match generateExpr tbl e s2 with
    | .error err => .error err
    | .ok (v, s3) =>
      let (storeInst, s4) := s3.newValue (.store v var)
      let s5 := s4.addInst storeInst
      match tbl.bind i (.var var) with
      | (_, some err) => .error err
      | (tbl1, none) => generateVarDefs tbl1 rest s5

def generateDecl (tbl : NestedSymbolTable) : Decl → GenState → Except FrontendError (NestedSymbolTable × GenState)
  | .constDecl defs, st => generateConstDefs tbl defs st
  | .varDecl defs, st => generateVarDefs tbl defs st

/-! ## Statement lowering (`src/frontend/generate_ir.rs`, lines 174-319) -/

mutual

/-- `IRGenerator for Stmt::generate_ir`.  `ws` is the break/continue stack of
`(loop entry, loop end)` blocks. -/
def generateStmt (tbl : NestedSymbolTable) (ws : List (Nat × Nat)) :
    Stmt → GenState → Except FrontendError GenState
  | .ret e, st =>
    match generateExpr tbl e st with
    | .error err => .error err
    | .ok (v, s1) =>
      let (r, s2) := s1.newValue (.ret (some v))
      .ok (s2.addInst r)
  | .assign ident e, st =>
    match generateExpr tbl e st with
    | .error err => .error err
    | .ok (v, s1) =>
      match tbl.lookup ident with
      | some (.var slot) =>
        let (storeInst, s2) := s1.newValue (.store v slot)
        .ok (s2.addInst storeInst)
      | some _ => .error .invalidAssignmentToConst
      | none => .error (.definitionNotFoundForIdentifier ident)
  | .expr e, st =>
    match generateExpr tbl e st with
    | .error err => .error err
    | .ok (_, s1) => .ok s1
  | .empty, st => .ok st
  | .block b, st =>
    match b with
    | .mk items =>
      match generateBlockItems ws items (.mk [] (some tbl)) st with
      | .error err => .error err
      | .ok (_, s1) => .ok s1
  | .ifThen cond thenStmt, st =>
    match generateExpr tbl cond st with
    | .error err => .error err
    | .ok (condVal, s1) =>
      let (group, s2) := s1.genGroup ["%then", "%merge"]
      let (thenBB, s3) := s2.createBlock (group.getD 0 "")
      let (mergeBB, s4) := s3.createBlock (group.getD 1 "")
      let (branch, s5) := s4.newValue (.branch condVal thenBB mergeBB)
      let s6 := s5.addInst branch
      let s7 := s6.enterBB thenBB
      match generateStmt tbl ws thenStmt s7 with
      | .error err => .error err
      | .ok s8 =>
        let (thenJump, s9) := s8.newValue (.jump mergeBB)
        let s10 := s9.addInst thenJump
        .ok (s10.enterBB mergeBB)
  | .ifElse cond thenStmt elseStmt, st =>
    match generateExpr tbl cond st with
    | .error err => .error err
    | .ok (condVal, s1) =>
      let (group, s2) := s1.genGroup ["%then", "%else", "%merge"]
      let (thenBB, s3) := s2.createBlock (group.getD 0 "")
      let (elseBB, s4) := s3.createBlock (group.getD 1 "")
      let (mergeBB, s5) := s4.createBlock (group.getD 2 "")
      let (branch, s6) := s5.newValue (.branch condVal thenBB elseBB)
      let s7 := s6.addInst branch
      let s8 := s7.enterBB thenBB
      match generateStmt tbl ws thenStmt s8 with
      | .error err => .error err
      | .ok s9 =>
        let (thenJump, s10) := s9.newValue (.jump mergeBB)
        let s11 := s10.addInst thenJump
        let s12 := s11.enterBB elseBB
        match generateStmt tbl ws elseStmt s12 with
        | .error err => .error err
        | .ok s13 =>
          let (elseJump, s14) := s13.newValue (.jump mergeBB)
          let s15 := s14.addInst elseJump
          .ok (s15.enterBB mergeBB)
  | .whileLoop cond body, st =>
    let (group, s1) := st.genGroup ["%entry", "%body", "%end"]
    let (entryBB, s2) := s1.createBlock (group.getD 0 "")
    let (bodyBB, s3) := s2.createBlock (group.getD 1 "")
    let (endBB, s4) := s3.createBlock (group.getD 2 "")
    let (entryJump, s5) := s4.newValue (.jump entryBB)
    let s6 := s5.addInst entryJump
    let s7 := s6.enterBB entryBB
    match generateExpr tbl cond s7 with
    | .error err => .error err
    | .ok (condVal, s8) =>
      let (branch, s9) := s8.newValue (.branch condVal bodyBB endBB)
      let s10 := s9.addInst branch
      let s11 := s10.enterBB bodyBB
      match generateStmt tbl ((entryBB, endBB) :: ws) body s11 with
      | .error err => .error err
      | .ok s12 =>
        let (bodyJump, s13) := s12.newValue (.jump entryBB)
        let s14 := s13.addInst bodyJump
        .ok (s14.enterBB endBB)
  | .brk, st =>
    match ws with
    | (_, endBB) :: _ =>
      let (jmp, s1) := st.newValue (.jump endBB)
      .ok (s1.addInst jmp)
    | [] => .error .breakOutsideOfLoop
  | .cont, st =>
    match ws with
    | (entryBB, _) :: _ =>
      let (jmp, s1) := st.newValue (.jump entryBB)
      .ok (s1.addInst jmp)
    | [] => .error .continueOutsideOfLoop

/-- `IRGenerator for Block::generate_ir` + `BlockItem::generate_ir`
(lines 99-121): lower the items in order, declarations extending the current
scope. -/
def generateBlockItems (ws : List (Nat × Nat)) :
    List BlockItem → NestedSymbolTable → GenState → Except FrontendError (NestedSymbolTable × GenState)
  | [], tbl, st => .ok (tbl, st)
  | .stmt s :: rest, tbl, st =>
    match generateStmt tbl ws s st with
    | .error err => .error err
    | .ok s1 => generateBlockItems ws rest tbl s1
  | .decl d :: rest, tbl, st =>
    match generateDecl tbl d st with
    | .error err => .error err
    | .ok (tbl1, s1) => generateBlockItems ws rest tbl1 s1

end

/-! ## Function lowering (`src/frontend/generate_ir.rs`, lines 41-97) -/

/-- `FunctionData::new` creates the `FuncArgRef` parameter values, with
indices `idx, idx+1, …`. -/
def newArgRefs (idx : Nat) : Nat → GenState → List Nat × GenState
  | 0, st => ([], st)
  | c + 1, st =>
    let (v, s1) := st.newValue (.funcArgRef idx)
    let (vs, s2) := newArgRefs (idx + 1) c s1
    (v :: vs, s2)

/-- Parameter materialization (lines 76-84): for each parameter, allocate a
local slot, store the parameter reference into it, bind the name as `Var`. -/
def bindParams : List (String × Nat) → NestedSymbolTable → GenState → Except FrontendError (NestedSymbolTable × GenState)
  | [], tbl, st => .ok (tbl, st)
  | (ident, argRef) :: rest, tbl, st =>
    let (var, s1) := st.newValue .alloc
    let s2 := s1.addInst var
    let (storeInst, s3) := s2.newValue (.store argRef var)
    let s4 := s3.addInst storeInst
    match tbl.bind ident (.var var) with
    | (_, some err) => .error err
    | (tbl1, none) => bindParams rest tbl1 s4

/-- `IRGenerator for FuncDef::generate_ir` up to and including the body
(lines 44-87): create the function and its parameter values, register it in
the enclosing scope, enter a child scope and the `%entry` block, materialize
the parameters, and lower the body. -/
def generateFuncCore (f : FuncDef) (tbl : NestedSymbolTable) (st : GenState) :
    Except FrontendError (NestedSymbolTable × GenState) :=
  let (argRefs, s1) := newArgRefs 0 f.params.length st
  let (funcHandle, s2) := s1.newFunc
  match tbl.bind f.ident
      (.func funcHandle f.funcType.toIR (f.params.map (fun p => (p, IRType.i32)))) with
  | (_, some err) => .error err
  | (tbl1, none) =>
    let innerTbl : NestedSymbolTable := .mk [] (some tbl1)
    let (entryBB, s3) := s2.createBlock "%entry"
    let s4 := s3.enterBB entryBB
    match bindParams (f.params.zip argRefs) innerTbl s4 with
    | .error err => .error err
    | .ok (innerTbl1, s5) =>
      match f.block with
      | .mk items =>
        match generateBlockItems [] items innerTbl1 s5 with
        | .error err => .error err
        | .ok (_, s6) => .ok (tbl1, s6)

/-- `IRGenerator for FuncDef::generate_ir` (lines 44-96): after lowering the
body, a `Return(None)` is emitted whenever the return type is unit — the
source performs no check of whether the current block is already
terminated. -/
def generateFuncDef (f : FuncDef) (tbl : NestedSymbolTable) (st : GenState) :
    Except FrontendError (NestedSymbolTable × GenState) :=
  match generateFuncCore f tbl st with
  | .error err => .error err
  | .ok (tbl1, s) =>
    if f.funcType.toIR = IRType.unit then
      let (r, s1) := s.newValue (.ret none)
      .ok (tbl1, s1.addInst r)
    else
      .ok (tbl1, s)

/-! ## Execution semantics of the generated IR

A small-step interpreter over the generated layout, used to state the
runtime part of the short-circuit claim.  Values evaluate via `evalVal`:
integer constants denote themselves, every other value reads the environment
entry written when its instruction executed.  `Call` results are supplied by
an `oracle` (one arbitrary return value per call instruction); the list of
executed instruction handles is the observable trace. -/

/-- Koopa semantics of the binary operators (cf. the op sequences emitted by
`src/backend/generate_asm.rs`, lines 230-259). -/
def denoteBin : IRBinaryOp → Int → Int → Int
  | .notEq, a, b => if a = b then 0 else 1
  | .eq, a, b => if a = b then 1 else 0
  | .gt, a, b => if a > b then 1 else 0
  | .lt, a, b => if a < b then 1 else 0
  | .ge, a, b => if a ≥ b then 1 else 0
  | .le, a, b => if a ≤ b then 1 else 0
  | .add, a, b => add32 a b
  | .sub, a, b => sub32 a b
  | .mul, a, b => mul32 a b
  | .div, a, b => div32 a b
  | .mod, a, b => mod32 a b
  | .and, a, b => Int.land a b
  | .or, a, b => Int.lor a b

/-- Value denotation: constants are immediate, all other values read the
execution environment. -/
def evalVal (dfg : List (Nat × IRValueKind)) (env : Nat → Int) (v : Nat) : Int :=
  match assocGet dfg v with
  | some (.integer n) => n
  | _ => env v

/-- Execution state: value environment, memory (addressed by `Alloc`
handles), and the trace of executed instruction handles. -/
structure ExecSt where
  env : Nat → Int
  mem : Nat → Int
  executed : List Nat

inductive BlockRes where
  | goto (bb : Nat)
  | halt
  | fall
  deriving Repr, DecidableEq

/-- Run the instructions of one basic block.  Terminators end the block with
a control result; a block that runs out of instructions falls through. -/
def runBlock (dfg : List (Nat × IRValueKind)) (oracle : Nat → Int) :
    List Nat → ExecSt → ExecSt × BlockRes
  | [], est => (est, .fall)
  | h :: rest, est =>
    let est1 : ExecSt := { est with executed := est.executed ++ [h] }
    match assocGet dfg h with
    | some (.branch c t f) =>
      (est1, .goto (if evalVal dfg est1.env c = 0 then f else t))
    | some (.jump t) => (est1, .goto t)
    | some (.ret _) => (est1, .halt)
    | some (.store v d) =>
      runBlock dfg oracle rest
        { est1 with mem := fun a => if a = d then evalVal dfg est1.env v else est1.mem a }
    | some (.load srcv) =>
      runBlock dfg oracle rest
        { est1 with env := fun x => if x = h then est1.mem srcv else est1.env x }
    | some (.binary op l r) =>
      runBlock dfg oracle rest
        { est1 with env := fun x =>
            if x = h then denoteBin op (evalVal dfg est1.env l) (evalVal dfg est1.env r)
            else est1.env x }
    | some (.call _ _) =>
      runBlock dfg oracle rest
        { est1 with env := fun x => if x = h then oracle h else est1.env x }
    | _ => runBlock dfg oracle rest est1

/-- Run the control-flow graph for at most `fuel` blocks, starting at `bb`.
Returns the final state and the list of visited blocks. -/
def runCFG (dfg : List (Nat × IRValueKind)) (blocks : List (Nat × List Nat))
    (oracle : Nat → Int) : Nat → Nat → ExecSt → ExecSt × List Nat
  | 0, _, est => (est, [])
  | fuel + 1, bb, est =>
    let p := runBlock dfg oracle ((assocGet blocks bb).getD []) est
    match p.2 with
    | .goto nxt =>
      let q := runCFG dfg blocks oracle fuel nxt p.1
      (q.1, bb :: q.2)
    | _ => (p.1, [bb])

/-- The basic-block targets a value kind can transfer control to. -/
def kindTargets : IRValueKind → List Nat
  | .branch _ t f => [t, f]
  | .jump t => [t]
  | _ => []

/-! ## Well-formedness and extension invariants of the generation state -/

/-- Well-formedness of a generation state: all handles in use are below the
corresponding counters, keys are unambiguous, and control targets point at
existing blocks. -/
structure WFGen (st : GenState) : Prop where
  dfgKeysLt : ∀ p ∈ st.dfg, p.1 < st.nextValue
  dfgTargetsLt : ∀ p ∈ st.dfg, ∀ t ∈ kindTargets p.2, t < st.nextBB
  blockKeysLt : ∀ p ∈ st.blockInsts, p.1 < st.nextBB
  blockHandlesLt : ∀ p ∈ st.blockInsts, ∀ h ∈ p.2, h < st.nextValue
  curBBLt : st.curBB < st.nextBB
  curBBSome : (assocGet st.blockInsts st.curBB).isSome = true

/-- How one IR-generation call extends the state: counters grow; old values
keep their kinds; new values transfer control only to blocks created during
the call; untouched blocks keep their instruction lists; newly placed
instructions are fresh and are placed only into the entry current block or
blocks created by the call; the final current block is the entry one or a
created one. -/
structure GenExtends (st st' : GenState) : Prop where
  hval : st.nextValue ≤ st'.nextValue
  hbb : st.nextBB ≤ st'.nextBB
  hdfg_old : ∀ h, h < st.nextValue → st'.dfgGet h = st.dfgGet h
  hdfg_new : ∀ h k, st'.dfgGet h = some k → st.nextValue ≤ h →
    ∀ t ∈ kindTargets k, st.nextBB ≤ t ∧ t < st'.nextBB
  hblocks_old : ∀ bb, bb ≠ st.curBB → bb < st.nextBB → st'.blockOf bb = st.blockOf bb
  hblocks_new : ∀ bb h, h ∈ st'.blockOf bb → h ∉ st.blockOf bb →
    (st.nextValue ≤ h ∧ h < st'.nextValue) ∧
    (bb = st.curBB ∨ (st.nextBB ≤ bb ∧ bb < st'.nextBB))
  hkeys : ∀ bb, (assocGet st.blockInsts bb).isSome = true →
    (assocGet st'.blockInsts bb).isSome = true
  hcur : st'.curBB = st.curBB ∨ (st.nextBB ≤ st'.curBB ∧ st'.curBB < st'.nextBB)

/-! ## Decimal digits (reference for `Nat.repr`) -/

/-- The decimal digit characters of `n`, most significant first — the
reference function for `Nat.toDigitsCore` at base 10. -/
def natDigits (n : Nat) : List Char :=
  if h : n < 10 then [Nat.digitChar n]
  else natDigits (n / 10) ++ [Nat.digitChar (n % 10)]
decreasing_by exact Nat.div_lt_self (by omega) (by omega)

/-- The numeric value of a digit character. -/
def digitVal (c : Char) : Nat := c.toNat - '0'.toNat

/-- Decode a digit string back to a number. -/
def digitsVal (cs : List Char) : Nat :=
  cs.foldl (fun a c => a * 10 + digitVal c) 0

/-! ## Concrete runs used to settle the claims -/

/-- The empty enclosing symbol table. -/
def tbl0 : NestedSymbolTable := .mk [] none

/-- A fresh generation state with one empty current block `%entry`. -/
def initGenState : GenState :=
  { dfg := [], nextValue := 0, blockInsts := [(0, [])], blockNames := [(0, "%entry")],
    nextBB := 1, curBB := 0, nameCounter := 0, nextFunc := 0 }

/-- A completely fresh generation state (no blocks yet). -/
def emptyGenState : GenState :=
  { dfg := [], nextValue := 0, blockInsts := [], blockNames := [],
    nextBB := 0, curBB := 0, nameCounter := 0, nextFunc := 0 }

/-- Whether the operands of an emitted `Or` instruction are themselves
`!= 0` normalization instructions — the shape the claim prescribes for the
pure `a || b` lowering. -/
def orOperandsNormalized (s : GenState) (orHandle : Nat) : Bool :=
  match s.dfgGet orHandle with
  | some (.binary .or a b) =>
    (match s.dfgGet a with
     | some (.binary .notEq _ _) => true
     | _ => false) &&
    (match s.dfgGet b with
     | some (.binary .notEq _ _) => true
     | _ => false)
  | _ => false

/-- The pure `5 || 7` lowering, from a fresh state. -/
def c2run : Except FrontendError (Nat × GenState) :=
  generateExpr tbl0 (.lor (.num 5) (.num 7)) initGenState

/-- A void function whose body ends in `return 0;` — its current block is
already terminated when the body finishes. -/
def c3fun : FuncDef :=
  { funcType := .void, ident := "f", params := [],
    block := .mk [.stmt (.ret (.num 0))] }

def c3run : Except FrontendError (NestedSymbolTable × GenState) :=
  generateFuncDef c3fun tbl0 emptyGenState

/-- The left operand of the C5 failing input: `0 - 2147483647 - 1` folds to
`i32::MIN` without any intermediate overflow. -/
def c5badLhs : Expr := .sub (.sub (.num 0) (.num 2147483647)) (.num 1)

/-- The right operand of the C5 failing input: `0 - 1` folds to `-1`. -/
def c5badRhs : Expr := .sub (.num 0) (.num 1)

/-- A call sequence on one `NameGenerator` whose labels collide across two
different prefixes: call 0 with prefix `"a1"` at counter 0 and call 10 with
prefix `"a"` at counter 10 both return `"a10"`. -/
def c7calls : List NGCall :=
  [.gen "a1", .gen "x", .gen "x", .gen "x", .gen "x", .gen "x",
   .gen "x", .gen "x", .gen "x", .gen "x", .gen "a"]

/-! ## C4 — generic short-circuit fragments and the lowering shape

`genEntry` and `genGuard` generalize the `&&`/`||` entry and guard fragments
over the initialization constant and the comparison operator; `landEntry`,
`lorEntry`, `landGuard` and `lorGuard` are definitionally their instances
(proved by `rfl` below). -/

/-- The side-effecting prelude with initialization constant `c`
(`landEntry` at `c = 0`, `lorEntry` at `c = 1`). -/
def genEntry (c : Int) (st : GenState) : Nat × GenState :=
  let (result, s1) := st.newValue .alloc
  let s2 := s1.addInst result
  let (cResultInit, s3) := s2.newValue (.integer c)
  let (resultInit, s4) := s3.newValue (.store cResultInit result)
  (result, s4.addInst resultInit)

/-- The side-effecting guard with comparison `gop` against zero
(`landGuard` at `.notEq`, `lorGuard` at `.eq`, modulo block names). -/
def genGuard (gop : IRBinaryOp) (nm1 nm2 : String) (s : GenState) (lhsVal : Nat) :
    Nat × Nat × Nat × GenState :=
  let (zero, s1) := s.newValue (.integer 0)
  let (guardV, s2) := s1.newValue (.binary gop lhsVal zero)
  let s3 := s2.addInst guardV
  let (name1, s4) := s3.genName nm1
  let (bbBranch, s5) := s4.createBlock name1
  let (name2, s6) := s5.genName nm2
  let (bbMerge, s7) := s6.createBlock name2
  let (branch, s8) := s7.newValue (.branch guardV bbBranch bbMerge)
  let s9 := s8.addInst branch
  (guardV, bbBranch, bbMerge, s9.enterBB bbBranch)

/-- The shape-and-runtime content of the short-circuit lowering of
`lhs && rhs` / `lhs || rhs` with a side-effecting operand, phrased over the
intermediate states: `st0` (entry), `s1` (after the left operand), `sG`
(after the guard, current block = second-operand block `s1.nextBB`),
`s2` (after the right operand) and the final state `stF`; `lhsVal` is the
left operand's handle, `v` the overall result handle, `gop` the guard
comparison and `c` the slot initialization constant.  It packages: the slot
and its initialization, the guard comparison/branch and their placement at
the end of the block the left operand finished in, the result load as the
sole instruction of the merge block `s1.nextBB + 1`, the confinement of the
right operand's instructions to the second-operand region
(`s1.nextBB` itself or blocks created after the merge block), the fact that
only the guard branch (or right-operand-internal transfers) can enter that
region, and the runtime behaviour: when the guard comparison evaluates to
0 the branch falls to the merge block, the merge block immediately falls
through, and any execution whose visited blocks avoid the second-operand
region never executes a right-operand instruction. -/
def C4Core (st0 s1 sG s2 stF : GenState) (lhsVal v : Nat)
    (gop : IRBinaryOp) (c : Int) : Prop :=
  stF.dfgGet st0.nextValue = some .alloc ∧
  stF.dfgGet (st0.nextValue + 1) = some (.integer c) ∧
  stF.dfgGet (st0.nextValue + 2) = some (.store (st0.nextValue + 1) st0.nextValue) ∧
  stF.dfgGet s1.nextValue = some (.integer 0) ∧
  stF.dfgGet (s1.nextValue + 1) = some (.binary gop lhsVal s1.nextValue) ∧
  stF.dfgGet (s1.nextValue + 2) =
    some (.branch (s1.nextValue + 1) s1.nextBB (s1.nextBB + 1)) ∧
  stF.blockOf s1.curBB = s1.blockOf s1.curBB ++ [s1.nextValue + 1, s1.nextValue + 2] ∧
  stF.dfgGet v = some (.load st0.nextValue) ∧
  stF.blockOf (s1.nextBB + 1) = [v] ∧
  (∀ bb h, h ∈ stF.blockOf bb → sG.nextValue ≤ h → h < s2.nextValue →
    bb = s1.nextBB ∨ (s1.nextBB + 2 ≤ bb ∧ bb < s2.nextBB)) ∧
  (∀ h k, stF.dfgGet h = some k → ∀ t ∈ kindTargets k,
    (t = s1.nextBB ∨ (s1.nextBB + 2 ≤ t ∧ t < s2.nextBB)) →
    h = s1.nextValue + 2 ∨ (sG.nextValue ≤ h ∧ h < s2.nextValue)) ∧
  (∀ oracle est, denoteBin gop (evalVal stF.dfg est.env lhsVal) 0 = 0 →
    (runBlock stF.dfg oracle [s1.nextValue + 1, s1.nextValue + 2] est).2 =
      .goto (s1.nextBB + 1) ∧
    (runBlock stF.dfg oracle [s1.nextValue + 1, s1.nextValue + 2] est).1.executed =
      est.executed ++ [s1.nextValue + 1, s1.nextValue + 2]) ∧
  (∀ oracle fuel est,
    (runCFG stF.dfg stF.blockInsts oracle (fuel + 1) (s1.nextBB + 1) est).2 =
      [s1.nextBB + 1]) ∧
  (∀ oracle fuel bb est h, sG.nextValue ≤ h → h < s2.nextValue → h ∉ est.executed →
    (∀ b ∈ (runCFG stF.dfg stF.blockInsts oracle fuel bb est).2,
      ¬(b = s1.nextBB ∨ (s1.nextBB + 2 ≤ b ∧ b < s2.nextBB))) →
    h ∉ (runCFG stF.dfg stF.blockInsts oracle fuel bb est).1.executed)

/-- A symbol table binding one void function `f`, for concrete short-circuit
runs. -/
def c4tbl : NestedSymbolTable := .mk [("f", .func 0 .unit [])] none

/-- The concrete `0 && f()` lowering result (the call gives `f()` a side
effect, so the branching strategy is taken). -/
def c4landRes : Nat × GenState :=
  (generateExpr c4tbl (.land (.num 0) (.call "f" [])) initGenState).toOption.getD
    (0, initGenState)

/-- The concrete `0 || f()` lowering result. -/
def c4lorRes : Nat × GenState :=
  (generateExpr c4tbl (.lor (.num 0) (.call "f" [])) initGenState).toOption.getD
    (0, initGenState)

/-! # Theorems -/

/-! ## C1 — frame alignment -/

/-- C1: the claim states the aligned frame size is
`roundup16(stack_size + args_stack_size + (is_leaf ? 0 : 4))`, in particular
at least `stack_size + args_stack_size + 4` for a non-leaf function.  The
source instead adds the 4 bytes for *leaf* functions
(`(self.is_leaf as i32) * 4`): for a non-leaf function with
`stack_size = 16`, `args_stack_size = 0` the emitted frame is 16, strictly
below the `16 + 0 + 4` the claim requires (so the `ra` slot at offset
`stack_size + args_stack_size = 16` lies outside the frame), while the claim
formula gives 32; and a leaf function with `stack_size = 0` gets frame 16
where the claim formula gives 0. -/
theorem c1_getAlignedStackSize_flips_is_leaf :
    FunctionPrologueInfo.getAlignedStackSize ⟨16, false, 0⟩ = 16 ∧
    claimedAlignedStackSize ⟨16, false, 0⟩ = 32 ∧
    ¬ ((16 : Int) + 0 + 4 ≤ FunctionPrologueInfo.getAlignedStackSize ⟨16, false, 0⟩) ∧
    FunctionPrologueInfo.getAlignedStackSize ⟨0, true, 0⟩ = 16 ∧
    claimedAlignedStackSize ⟨0, true, 0⟩ = 0 := by
  refine ⟨by decide, by decide, by decide, by decide, by decide⟩

/-! ## C8 — duplicate binding detection -/

/-- C8: `bind(name, entry)` fails with `MultipleDefinitionsForIdentifier`
iff the current scope's own entry map already contains the name — an entry
present only in an ancestor scope does not cause failure — and on failure
the table is left unchanged; on success the entry is inserted into the
current scope only. -/
theorem c8_bind_current_scope_only (t : NestedSymbolTable) (name : String)
    (entry : SymbolTableEntry) :
    ((t.bind name entry).2 ≠ none ↔ entriesContains t.entries name = true) ∧
    ((t.bind name entry).2 ≠ none →
      (t.bind name entry).2 = some (.multipleDefinitionsForIdentifier name) ∧
      (t.bind name entry).1 = t) ∧
    (entriesContains t.entries name = false →
      (t.bind name entry).2 = none ∧
      (t.bind name entry).1 = .mk ((name, entry) :: t.entries) t.parent) := by
  unfold NestedSymbolTable.bind
  by_cases h : entriesContains t.entries name <;> simp [h]

/-- Witness for C8: binding `"x"` in a child scope succeeds even though an
ancestor scope holds `"x"` (and `lookup` sees it); re-binding in the same
scope fails and leaves the scope unchanged. -/
theorem c8_bind_current_scope_only_witness :
    ((NestedSymbolTable.mk [] (some (.mk [("x", .const "x" 1)] none))).bind
        "x" (.var 0)).2 = none ∧
    ((NestedSymbolTable.mk [] (some (.mk [("x", .const "x" 1)] none))).bind
        "x" (.var 0)).1 =
      .mk [("x", .var 0)] (some (.mk [("x", .const "x" 1)] none)) ∧
    ((NestedSymbolTable.mk [("x", .const "x" 1)] none).bind "x" (.var 0)).2 =
      some (.multipleDefinitionsForIdentifier "x") ∧
    ((NestedSymbolTable.mk [("x", .const "x" 1)] none).bind "x" (.var 0)).1 =
      .mk [("x", .const "x" 1)] none := by
  refine ⟨((c8_bind_current_scope_only _ "x" (.var 0)).2.2 (by decide)).1,
    ((c8_bind_current_scope_only _ "x" (.var 0)).2.2 (by decide)).2,
    ((c8_bind_current_scope_only _ "x" (.var 0)).2.1 (by decide)).1,
    ((c8_bind_current_scope_only _ "x" (.var 0)).2.1 (by decide)).2⟩

/-! ## C5 — const evaluation: division overflow panics -/

/-! ## C5 — the panic-aware const evaluator: destructuring and agreement -/

theorem pBind_eq_some (x : Option (Except FrontendError Int))
    (f : Int → Option (Except FrontendError Int)) (r : Except FrontendError Int)
    (h : pBind x f = some r) :
    (∃ e, x = some (.error e) ∧ r = .error e) ∨
    (∃ v, x = some (.ok v) ∧ f v = some r) := by
  match x with
  | none => simp [pBind] at h
  | some (.error e) =>
    simp only [pBind, Option.some.injEq] at h
    exact .inl ⟨e, rfl, h.symm⟩
  | some (.ok v) =>
    exact .inr ⟨v, rfl, h⟩

/-- Wherever the panic-aware evaluator does not panic, the `Except`-valued
model `tryConstEval` consumed by the lowering pipeline computes the same
result. -/
theorem constEval_agrees (tbl : NestedSymbolTable) (e : Expr) :
    ∀ r, e.constEval tbl = some r → e.tryConstEval tbl = r := by
  cases e with
  | num n =>
    intro res h
    simp only [Expr.constEval, Option.some.injEq] at h
    subst h
    rfl
  | lval ident =>
    intro res h
    simp only [Expr.constEval] at h
    cases hlk : tbl.lookup ident with
    | none =>
      rw [hlk] at h
      simp only [Option.some.injEq] at h
      subst h
      simp [Expr.tryConstEval, hlk]
    | some entry =>
      rw [hlk] at h
      cases entry with
      | const nm n =>
        simp only [Option.some.injEq] at h
        subst h
        simp [Expr.tryConstEval, hlk]
      | var vv =>
        simp only [Option.some.injEq] at h
        subst h
        simp [Expr.tryConstEval, hlk]
      | func a b cc =>
        simp only [Option.some.injEq] at h
        subst h
        simp [Expr.tryConstEval, hlk]
  | pos e =>
    intro res h
    exact constEval_agrees tbl e res h
  | neg e =>
    intro res h
    simp only [Expr.constEval] at h
    rcases pBind_eq_some _ _ _ h with ⟨er, hx, hr⟩ | ⟨v, hx, hsome⟩
    · subst hr
      simp [Expr.tryConstEval, Except.map, constEval_agrees tbl e _ hx]
    · simp only [Option.some.injEq] at hsome
      subst hsome
      simp [Expr.tryConstEval, Except.map, constEval_agrees tbl e _ hx]
  | not e =>
    intro res h
    simp only [Expr.constEval] at h
    rcases pBind_eq_some _ _ _ h with ⟨er, hx, hr⟩ | ⟨v, hx, hsome⟩
    · subst hr
      simp [Expr.tryConstEval, Except.map, constEval_agrees tbl e _ hx]
    · simp only [Option.some.injEq] at hsome
      subst hsome
      simp [Expr.tryConstEval, Except.map, constEval_agrees tbl e _ hx]
  | add l r =>
    intro res h
    simp only [Expr.constEval] at h
    rcases pBind_eq_some _ _ _ h with ⟨e, hx, hr⟩ | ⟨lv, hx, hf⟩
    · subst hr
      simp [Expr.tryConstEval, Bind.bind, Except.bind, constEval_agrees tbl l _ hx]
    · rcases pBind_eq_some _ _ _ hf with ⟨e, hy, hr⟩ | ⟨rv, hy, hsome⟩
      · subst hr
        simp [Expr.tryConstEval, Bind.bind, Except.bind, constEval_agrees tbl l _ hx,
          constEval_agrees tbl r _ hy]
      · simp only [Option.some.injEq] at hsome
        subst hsome
        simp [Expr.tryConstEval, Bind.bind, Except.bind, pure, Except.pure,
          constEval_agrees tbl l _ hx, constEval_agrees tbl r _ hy]
  | sub l r =>
    intro res h
    simp only [Expr.constEval] at h
    rcases pBind_eq_some _ _ _ h with ⟨e, hx, hr⟩ | ⟨lv, hx, hf⟩
    · subst hr
      simp [Expr.tryConstEval, Bind.bind, Except.bind, constEval_agrees tbl l _ hx]
    · rcases pBind_eq_some _ _ _ hf with ⟨e, hy, hr⟩ | ⟨rv, hy, hsome⟩
      · subst hr
        simp [Expr.tryConstEval, Bind.bind, Except.bind, constEval_agrees tbl l _ hx,
          constEval_agrees tbl r _ hy]
      · simp only [Option.some.injEq] at hsome
        subst hsome
        simp [Expr.tryConstEval, Bind.bind, Except.bind, pure, Except.pure,
          constEval_agrees tbl l _ hx, constEval_agrees tbl r _ hy]
  | mul l r =>
    intro res h
    simp only [Expr.constEval] at h
    rcases pBind_eq_some _ _ _ h with ⟨e, hx, hr⟩ | ⟨lv, hx, hf⟩
    · subst hr
      simp [Expr.tryConstEval, Bind.bind, Except.bind, constEval_agrees tbl l _ hx]
    · rcases pBind_eq_some _ _ _ hf with ⟨e, hy, hr⟩ | ⟨rv, hy, hsome⟩
      · subst hr
        simp [Expr.tryConstEval, Bind.bind, Except.bind, constEval_agrees tbl l _ hx,
          constEval_agrees tbl r _ hy]
      · simp only [Option.some.injEq] at hsome
        subst hsome
        simp [Expr.tryConstEval, Bind.bind, Except.bind, pure, Except.pure,
          constEval_agrees tbl l _ hx, constEval_agrees tbl r _ hy]
  | lt l r =>
    intro res h
    simp only [Expr.constEval] at h
    rcases pBind_eq_some _ _ _ h with ⟨e, hx, hr⟩ | ⟨lv, hx, hf⟩
    · subst hr
      simp [Expr.tryConstEval, Bind.bind, Except.bind, constEval_agrees tbl l _ hx]
    · rcases pBind_eq_some _ _ _ hf with ⟨e, hy, hr⟩ | ⟨rv, hy, hsome⟩
      · subst hr
        simp [Expr.tryConstEval, Bind.bind, Except.bind, constEval_agrees tbl l _ hx,
          constEval_agrees tbl r _ hy]
      · simp only [Option.some.injEq] at hsome
        subst hsome
        simp [Expr.tryConstEval, Bind.bind, Except.bind, pure, Except.pure,
          constEval_agrees tbl l _ hx, constEval_agrees tbl r _ hy]
  | gt l r =>
    intro res h
    simp only [Expr.constEval] at h
    rcases pBind_eq_some _ _ _ h with ⟨e, hx, hr⟩ | ⟨lv, hx, hf⟩
    · subst hr
      simp [Expr.tryConstEval, Bind.bind, Except.bind, constEval_agrees tbl l _ hx]
    · rcases pBind_eq_some _ _ _ hf with ⟨e, hy, hr⟩ | ⟨rv, hy, hsome⟩
      · subst hr
        simp [Expr.tryConstEval, Bind.bind, Except.bind, constEval_agrees tbl l _ hx,
          constEval_agrees tbl r _ hy]
      · simp only [Option.some.injEq] at hsome
        subst hsome
        simp [Expr.tryConstEval, Bind.bind, Except.bind, pure, Except.pure,
          constEval_agrees tbl l _ hx, constEval_agrees tbl r _ hy]
  | le l r =>
    intro res h
    simp only [Expr.constEval] at h
    rcases pBind_eq_some _ _ _ h with ⟨e, hx, hr⟩ | ⟨lv, hx, hf⟩
    · subst hr
      simp [Expr.tryConstEval, Bind.bind, Except.bind, constEval_agrees tbl l _ hx]
    · rcases pBind_eq_some _ _ _ hf with ⟨e, hy, hr⟩ | ⟨rv, hy, hsome⟩
      · subst hr
        simp [Expr.tryConstEval, Bind.bind, Except.bind, constEval_agrees tbl l _ hx,
          constEval_agrees tbl r _ hy]
      · simp only [Option.some.injEq] at hsome
        subst hsome
        simp [Expr.tryConstEval, Bind.bind, Except.bind, pure, Except.pure,
          constEval_agrees tbl l _ hx, constEval_agrees tbl r _ hy]
  | ge l r =>
    intro res h
    simp only [Expr.constEval] at h
    rcases pBind_eq_some _ _ _ h with ⟨e, hx, hr⟩ | ⟨lv, hx, hf⟩
    · subst hr
      simp [Expr.tryConstEval, Bind.bind, Except.bind, constEval_agrees tbl l _ hx]
    · rcases pBind_eq_some _ _ _ hf with ⟨e, hy, hr⟩ | ⟨rv, hy, hsome⟩
      · subst hr
        simp [Expr.tryConstEval, Bind.bind, Except.bind, constEval_agrees tbl l _ hx,
          constEval_agrees tbl r _ hy]
      · simp only [Option.some.injEq] at hsome
        subst hsome
        simp [Expr.tryConstEval, Bind.bind, Except.bind, pure, Except.pure,
          constEval_agrees tbl l _ hx, constEval_agrees tbl r _ hy]
  | eq l r =>
    intro res h
    simp only [Expr.constEval] at h
    rcases pBind_eq_some _ _ _ h with ⟨e, hx, hr⟩ | ⟨lv, hx, hf⟩
    · subst hr
      simp [Expr.tryConstEval, Bind.bind, Except.bind, constEval_agrees tbl l _ hx]
    · rcases pBind_eq_some _ _ _ hf with ⟨e, hy, hr⟩ | ⟨rv, hy, hsome⟩
      · subst hr
        simp [Expr.tryConstEval, Bind.bind, Except.bind, constEval_agrees tbl l _ hx,
          constEval_agrees tbl r _ hy]
      · simp only [Option.some.injEq] at hsome
        subst hsome
        simp [Expr.tryConstEval, Bind.bind, Except.bind, pure, Except.pure,
          constEval_agrees tbl l _ hx, constEval_agrees tbl r _ hy]
  | ne l r =>
    intro res h
    simp only [Expr.constEval] at h
    rcases pBind_eq_some _ _ _ h with ⟨e, hx, hr⟩ | ⟨lv, hx, hf⟩
    · subst hr
      simp [Expr.tryConstEval, Bind.bind, Except.bind, constEval_agrees tbl l _ hx]
    · rcases pBind_eq_some _ _ _ hf with ⟨e, hy, hr⟩ | ⟨rv, hy, hsome⟩
      · subst hr
        simp [Expr.tryConstEval, Bind.bind, Except.bind, constEval_agrees tbl l _ hx,
          constEval_agrees tbl r _ hy]
      · simp only [Option.some.injEq] at hsome
        subst hsome
        simp [Expr.tryConstEval, Bind.bind, Except.bind, pure, Except.pure,
          constEval_agrees tbl l _ hx, constEval_agrees tbl r _ hy]
  | land l r =>
    intro res h
    simp only [Expr.constEval] at h
    rcases pBind_eq_some _ _ _ h with ⟨e, hx, hr⟩ | ⟨lv, hx, hf⟩
    · subst hr
      simp [Expr.tryConstEval, Bind.bind, Except.bind, constEval_agrees tbl l _ hx]
    · rcases pBind_eq_some _ _ _ hf with ⟨e, hy, hr⟩ | ⟨rv, hy, hsome⟩
      · subst hr
        simp [Expr.tryConstEval, Bind.bind, Except.bind, constEval_agrees tbl l _ hx,
          constEval_agrees tbl r _ hy]
      · simp only [Option.some.injEq] at hsome
        subst hsome
        simp [Expr.tryConstEval, Bind.bind, Except.bind, pure, Except.pure,
          constEval_agrees tbl l _ hx, constEval_agrees tbl r _ hy]
  | lor l r =>
    intro res h
    simp only [Expr.constEval] at h
    rcases pBind_eq_some _ _ _ h with ⟨e, hx, hr⟩ | ⟨lv, hx, hf⟩
    · subst hr
      simp [Expr.tryConstEval, Bind.bind, Except.bind, constEval_agrees tbl l _ hx]
    · rcases pBind_eq_some _ _ _ hf with ⟨e, hy, hr⟩ | ⟨rv, hy, hsome⟩
      · subst hr
        simp [Expr.tryConstEval, Bind.bind, Except.bind, constEval_agrees tbl l _ hx,
          constEval_agrees tbl r _ hy]
      · simp only [Option.some.injEq] at hsome
        subst hsome
        simp [Expr.tryConstEval, Bind.bind, Except.bind, pure, Except.pure,
          constEval_agrees tbl l _ hx, constEval_agrees tbl r _ hy]
  | div l r =>
    intro res h
    simp only [Expr.constEval] at h
    rcases pBind_eq_some _ _ _ h with ⟨e, hx, hr⟩ | ⟨lv, hx, hf⟩
    · subst hr
      simp [Expr.tryConstEval, Bind.bind, Except.bind, constEval_agrees tbl l _ hx]
    · rcases pBind_eq_some _ _ _ hf with ⟨e, hy, hr⟩ | ⟨rv, hy, hsome⟩
      · subst hr
        simp [Expr.tryConstEval, Bind.bind, Except.bind, constEval_agrees tbl l _ hx,
          constEval_agrees tbl r _ hy]
      · by_cases hz : rv = 0
        · rw [if_pos hz] at hsome
          simp only [Option.some.injEq] at hsome
          subst hsome
          simp [Expr.tryConstEval, Bind.bind, Except.bind, constEval_agrees tbl l _ hx,
            constEval_agrees tbl r _ hy, hz]
        · rw [if_neg hz] at hsome
          by_cases hov : lv = -(2 ^ 31) ∧ rv = -1
          · rw [if_pos hov] at hsome
            simp at hsome
          · rw [if_neg hov] at hsome
            simp only [Option.some.injEq] at hsome
            subst hsome
            simp [Expr.tryConstEval, Bind.bind, Except.bind, pure, Except.pure,
              constEval_agrees tbl l _ hx, constEval_agrees tbl r _ hy, hz]
  | mod l r =>
    intro res h
    simp only [Expr.constEval] at h
    rcases pBind_eq_some _ _ _ h with ⟨e, hx, hr⟩ | ⟨lv, hx, hf⟩
    · subst hr
      simp [Expr.tryConstEval, Bind.bind, Except.bind, constEval_agrees tbl l _ hx]
    · rcases pBind_eq_some _ _ _ hf with ⟨e, hy, hr⟩ | ⟨rv, hy, hsome⟩
      · subst hr
        simp [Expr.tryConstEval, Bind.bind, Except.bind, constEval_agrees tbl l _ hx,
          constEval_agrees tbl r _ hy]
      · by_cases hz : rv = 0
        · rw [if_pos hz] at hsome
          simp only [Option.some.injEq] at hsome
          subst hsome
          simp [Expr.tryConstEval, Bind.bind, Except.bind, constEval_agrees tbl l _ hx,
            constEval_agrees tbl r _ hy, hz]
        · rw [if_neg hz] at hsome
          by_cases hov : lv = -(2 ^ 31) ∧ rv = -1
          · rw [if_pos hov] at hsome
            simp at hsome
          · rw [if_neg hov] at hsome
            simp only [Option.some.injEq] at hsome
            subst hsome
            simp [Expr.tryConstEval, Bind.bind, Except.bind, pure, Except.pure,
              constEval_agrees tbl l _ hx, constEval_agrees tbl r _ hy, hz]
  | call ident args =>
    intro res h
    simp only [Expr.constEval, Option.some.injEq] at h
    subst h
    rfl
termination_by sizeOf e

/-- C5: the claim asserts `try_const_eval` is a total function — for every
expression and environment it returns an `i32` or an error, never failing
in any other way.  The code violates this: after its `rhs == 0` guard it
computes with Rust's `/` and `%`, which panic on the `i32::MIN / -1`
overflow in every build profile (division overflow checks are
unconditional, unlike `+`/`-`/`*`), so the reachable const expression
`(0 - 2147483647 - 1) / (0 - 1)` — both operands fold, the right one is
nonzero — aborts the compiler instead of returning.  Over the faithful
panic-aware model `Expr.constEval` (`none` = panic): the failing input
panics for both `/` and `%` though its operands fold to `i32::MIN` and
`-1`; for folded operands, division or modulus panics exactly when
`lhs = i32::MIN` and `rhs = -1`; a right operand folding to 0 still
yields `ConstEvalDivZero`, and in every remaining case the folded
quotient/remainder is returned; and on every non-panicking evaluation the
pipeline's `Except`-valued `tryConstEval` agrees with the faithful model. -/
theorem c5_constEval_div_overflow_panics :
    (Expr.div c5badLhs c5badRhs).constEval tbl0 = none ∧
    (Expr.mod c5badLhs c5badRhs).constEval tbl0 = none ∧
    c5badLhs.constEval tbl0 = some (.ok (-(2 ^ 31))) ∧
    c5badRhs.constEval tbl0 = some (.ok (-1)) ∧
    (∀ tbl : NestedSymbolTable, ∀ l r : Expr, ∀ lv rv : Int,
      l.constEval tbl = some (.ok lv) → r.constEval tbl = some (.ok rv) →
      (((Expr.div l r).constEval tbl = none ↔ lv = -(2 ^ 31) ∧ rv = -1) ∧
       ((Expr.mod l r).constEval tbl = none ↔ lv = -(2 ^ 31) ∧ rv = -1) ∧
       (rv = 0 →
         (Expr.div l r).constEval tbl = some (.error .constEvalDivZero) ∧
         (Expr.mod l r).constEval tbl = some (.error .constEvalDivZero)) ∧
       (rv ≠ 0 → ¬(lv = -(2 ^ 31) ∧ rv = -1) →
         (Expr.div l r).constEval tbl = some (.ok (div32 lv rv)) ∧
         (Expr.mod l r).constEval tbl = some (.ok (mod32 lv rv))))) ∧
    (∀ tbl : NestedSymbolTable, ∀ e : Expr, ∀ r,
      e.constEval tbl = some r → e.tryConstEval tbl = r) := by
  refine ⟨by rfl, by rfl, by rfl, by rfl, ?_, fun tbl e r h => constEval_agrees tbl e r h⟩
  intro tbl l r lv rv hl hr
  have hredDiv : (Expr.div l r).constEval tbl =
      (if rv = 0 then some (.error .constEvalDivZero)
       else if lv = -(2 ^ 31) ∧ rv = -1 then none
       else some (.ok (div32 lv rv))) := by
    simp only [Expr.constEval, pBind, hl, hr]
  have hredMod : (Expr.mod l r).constEval tbl =
      (if rv = 0 then some (.error .constEvalDivZero)
       else if lv = -(2 ^ 31) ∧ rv = -1 then none
       else some (.ok (mod32 lv rv))) := by
    simp only [Expr.constEval, pBind, hl, hr]
  refine ⟨⟨?_, ?_⟩, ⟨?_, ?_⟩, ?_, ?_⟩
  · intro hn
    rw [hredDiv] at hn
    by_cases hz : rv = 0
    · rw [if_pos hz] at hn
      simp at hn
    · rw [if_neg hz] at hn
      by_cases hov : lv = -(2 ^ 31) ∧ rv = -1
      · exact hov
      · rw [if_neg hov] at hn
        simp at hn
  · intro hov
    rw [hredDiv, if_neg (by rw [hov.2]; decide), if_pos hov]
  · intro hn
    rw [hredMod] at hn
    by_cases hz : rv = 0
    · rw [if_pos hz] at hn
      simp at hn
    · rw [if_neg hz] at hn
      by_cases hov : lv = -(2 ^ 31) ∧ rv = -1
      · exact hov
      · rw [if_neg hov] at hn
        simp at hn
  · intro hov
    rw [hredMod, if_neg (by rw [hov.2]; decide), if_pos hov]
  · intro hz
    rw [hredDiv, hredMod, if_pos hz, if_pos hz]
    exact ⟨rfl, rfl⟩
  · intro hz hov
    rw [hredDiv, hredMod, if_neg hz, if_neg hz, if_neg hov, if_neg hov]
    exact ⟨rfl, rfl⟩

/-- Witness for C5: `6 / 0` and `6 % 0` still fold to `ConstEvalDivZero`,
`7 / 2` folds to 3 without panicking, and on that non-panicking fold the
pipeline model agrees. -/
theorem c5_constEval_div_overflow_panics_witness :
    (Expr.div (.num 6) (.num 0)).constEval tbl0 = some (.error .constEvalDivZero) ∧
    (Expr.mod (.num 6) (.num 0)).constEval tbl0 = some (.error .constEvalDivZero) ∧
    (Expr.div (.num 7) (.num 2)).constEval tbl0 = some (.ok (div32 7 2)) ∧
    ¬ (Expr.div (.num 7) (.num 2)).constEval tbl0 = none ∧
    (Expr.div (.num 7) (.num 2)).tryConstEval tbl0 = .ok (div32 7 2) := by
  have h0 := c5_constEval_div_overflow_panics.2.2.2.2.1 tbl0 (.num 6) (.num 0) 6 0
    rfl rfl
  have h5 := c5_constEval_div_overflow_panics.2.2.2.2.1 tbl0 (.num 7) (.num 2) 7 2
    rfl rfl
  have hok := (h5.2.2.2 (by decide) (by decide)).1
  refine ⟨(h0.2.2.1 rfl).1, (h0.2.2.1 rfl).2, hok, ?_, ?_⟩
  · intro hn
    have := h5.1.mp hn
    have h7 := this.1
    norm_num at h7
  · exact c5_constEval_div_overflow_panics.2.2.2.2.2 tbl0
      (Expr.div (.num 7) (.num 2)) (.ok (div32 7 2)) hok

/-! ## C10 — stack slot allocation -/

theorem allocStackStorage_args_stack_size (e : AsmAllocEnv) (v : Nat) (sz : Int) :
    (allocStackStorage e v sz).function_prologue_info.args_stack_size =
      e.function_prologue_info.args_stack_size := rfl

theorem allocStackStorage_stack_size (e : AsmAllocEnv) (v : Nat) (sz : Int) :
    (allocStackStorage e v sz).function_prologue_info.stack_size =
      e.function_prologue_info.stack_size + sz := rfl

theorem allocStackMany_cons (e : AsmAllocEnv) (w : Nat) (ws : List Nat) :
    allocStackMany e (w :: ws) = allocStackMany (allocStackStorage e w 4) ws := rfl

theorem presenceGet_allocStackStorage_ne (e : AsmAllocEnv) (v w : Nat) (sz : Int)
    (h : w ≠ v) : presenceGet (allocStackStorage e v sz) w = presenceGet e w := by
  simp [presenceGet, allocStackStorage, List.find?, Ne.symm h]

theorem presenceGet_allocStackMany_notMem (e : AsmAllocEnv) (ws : List Nat) (v : Nat)
    (h : v ∉ ws) : presenceGet (allocStackMany e ws) v = presenceGet e v := by
  induction ws generalizing e with
  | nil => rfl
  | cons w rest ih =>
    simp only [List.mem_cons, not_or] at h
    rw [allocStackMany_cons]
    exact (ih (allocStackStorage e w 4) h.2).trans
      (presenceGet_allocStackStorage_ne e w v 4 h.1)

theorem allocStackMany_stack_size (e : AsmAllocEnv) (ws : List Nat) :
    (allocStackMany e ws).function_prologue_info.stack_size =
      e.function_prologue_info.stack_size + 4 * ws.length := by
  induction ws generalizing e with
  | nil => simp [allocStackMany]
  | cons w rest ih =>
    rw [allocStackMany_cons, ih, allocStackStorage_stack_size]
    simp only [List.length_cons]
    push_cast
    ring

theorem presenceGet_allocStackMany_get (e : AsmAllocEnv) (ws : List Nat)
    (hnd : ws.Nodup) (i : Nat) (h : i < ws.length) :
    presenceGet (allocStackMany e ws) ws[i] =
      some (.stack (e.function_prologue_info.stack_size +
        e.function_prologue_info.args_stack_size + 4 * i)) := by
  induction ws generalizing e i with
  | nil => simp at h
  | cons w rest ih =>
    rcases List.nodup_cons.mp hnd with ⟨hw, hrest⟩
    cases i with
    | zero =>
      simp only [List.getElem_cons_zero]
      rw [allocStackMany_cons,
        presenceGet_allocStackMany_notMem (allocStackStorage e w 4) rest w hw]
      simp [presenceGet, allocStackStorage, List.find?]
    | succ i' =>
      simp only [List.getElem_cons_succ]
      have h' : i' < rest.length := by simpa using h
      rw [allocStackMany_cons, ih (allocStackStorage e w 4) hrest i' h',
        allocStackStorage_stack_size, allocStackStorage_args_stack_size]
      congr 2
      push_cast
      ring

/-- C10: in a sequence of `alloc_stack_storage` calls (each of size 4, as at
every call site), the `i`-th allocated value is bound to stack offset
`args_stack_size + 4·i` (counting from a fresh `stack_size = 0`), distinct
values receive pairwise disjoint 4-byte slots, every slot sits at offset
`≥ args_stack_size` — strictly above the outgoing-argument area
`sp+0 .. sp+args_stack_size`, within which every stack-passed call argument
(`8 ≤ k < nargs ≤ max_callee_arity`) is stored. -/
theorem c10_alloc_stack_storage_disjoint (env0 : AsmAllocEnv) (vs : List Nat)
    (hs0 : env0.function_prologue_info.stack_size = 0) (hnd : vs.Nodup) :
    ((allocStackMany env0 vs).function_prologue_info.stack_size = 4 * vs.length) ∧
    (∀ i, ∀ h : i < vs.length,
      presenceGet (allocStackMany env0 vs) vs[i] =
        some (.stack (env0.function_prologue_info.args_stack_size + 4 * i))) ∧
    (∀ i j : Nat, i < j →
      (env0.function_prologue_info.args_stack_size + 4 * i) + 4 ≤
        env0.function_prologue_info.args_stack_size + 4 * j) ∧
    (∀ i : Nat, env0.function_prologue_info.args_stack_size ≤
      env0.function_prologue_info.args_stack_size + 4 * i) ∧
    (∀ k maxArgs nargs : Nat, 8 ≤ k → k < nargs → nargs ≤ maxArgs →
      0 ≤ callArgStoreOffset k ∧
      callArgStoreOffset k + 4 ≤ argsStackSizeOf maxArgs) := by
  refine ⟨?_, ?_, ?_, ?_, ?_⟩
  · rw [allocStackMany_stack_size, hs0, zero_add]
  · intro i h
    have := presenceGet_allocStackMany_get env0 vs hnd i h
    rwa [hs0, zero_add] at this
  · intro i j hij
    have : (i : Int) + 1 ≤ j := by exact_mod_cast hij
    omega
  · intro i
    have : (0 : Int) ≤ 4 * i := by positivity
    omega
  · intro k maxArgs nargs h8 hk hn
    unfold callArgStoreOffset argsStackSizeOf
    have h1 : (8 : Int) ≤ k := by exact_mod_cast h8
    have h2 : (k : Int) + 1 ≤ nargs := by exact_mod_cast hk
    have h3 : (nargs : Int) ≤ maxArgs := by exact_mod_cast hn
    constructor
    · omega
    · have hmax : max 0 ((maxArgs : Int) - 8) = (maxArgs : Int) - 8 := by omega
      rw [hmax]; omega

/-- Witness for C10: three allocations on a fresh environment with
`args_stack_size = 8` land at offsets 8, 12, 16. -/
theorem c10_alloc_stack_storage_disjoint_witness :
    presenceGet (allocStackMany ⟨[], ⟨0, true, 8⟩⟩ [5, 9, 11]) 9 = some (.stack 12) ∧
    (allocStackMany ⟨[], ⟨0, true, 8⟩⟩ [5, 9, 11]).function_prologue_info.stack_size = 12 ∧
    callArgStoreOffset 8 + 4 ≤ argsStackSizeOf 9 := by
  refine ⟨?_, ?_, ?_⟩
  · have := (c10_alloc_stack_storage_disjoint ⟨[], ⟨0, true, 8⟩⟩ [5, 9, 11] rfl
      (by decide)).2.1 1 (by decide)
    simpa using this
  · have := (c10_alloc_stack_storage_disjoint ⟨[], ⟨0, true, 8⟩⟩ [5, 9, 11] rfl
      (by decide)).1
    simpa using this
  · exact ((c10_alloc_stack_storage_disjoint ⟨[], ⟨0, true, 8⟩⟩ [] rfl (by decide)).2.2.2.2
      8 9 9 (by decide) (by decide) (by decide)).2

/-! ## C6 — terminator uniqueness after the dead-code sweep -/

theorem getLast?_mem_self {α : Type} {l : List α} {x : α}
    (h : l.getLast? = some x) : x ∈ l := by
  have hx : x ∈ l.getLast? := by simp [h, Option.mem_def]
  obtain ⟨hne, rfl⟩ := List.mem_getLast?_eq_getLast hx
  exact List.getLast_mem hne

theorem sweepBlock_no_term (bb : List (Nat × IRValueKind))
    (h : ∀ p ∈ bb, isTerminator p.2 = false) : sweepBlock bb = bb := by
  induction bb with
  | nil => rfl
  | cons inst rest ih =>
    have h1 := h inst (by simp)
    simp [sweepBlock, h1]
    exact ih (fun p hp => h p (by simp [hp]))

theorem sweepBlock_has_term (bb : List (Nat × IRValueKind))
    (h : ∃ p ∈ bb, isTerminator p.2 = true) :
    (sweepBlock bb).countP (fun p => isTerminator p.2) = 1 ∧
    ∃ l, (sweepBlock bb).getLast? = some l ∧ isTerminator l.2 = true := by
  induction bb with
  | nil => simp at h
  | cons inst rest ih =>
    by_cases h1 : isTerminator inst.2
    · refine ⟨?_, inst, ?_, h1⟩ <;> simp [sweepBlock, h1, List.countP_cons]
    · obtain ⟨p, hp, hterm⟩ := h
      rcases List.mem_cons.mp hp with rfl | hmem
      · exact absurd hterm (by simpa using h1)
      · obtain ⟨hc, l, hl, hlt⟩ := ih ⟨p, hmem, hterm⟩
        have hne : sweepBlock rest ≠ [] := by
          intro hnil; rw [hnil] at hl; simp at hl
        refine ⟨?_, l, ?_, hlt⟩
        · simp [sweepBlock, h1, List.countP_cons, hc]
        · have hshape : sweepBlock (inst :: rest) = [inst] ++ sweepBlock rest := by
            simp [sweepBlock, h1]
          rw [hshape, List.getLast?_append, hl]
          rfl

theorem sweepBlock_cases (bb : List (Nat × IRValueKind)) :
    (sweepBlock bb = bb ∧ ∀ p ∈ bb, isTerminator p.2 = false) ∨
    ((sweepBlock bb).countP (fun p => isTerminator p.2) = 1 ∧
      ∃ l, (sweepBlock bb).getLast? = some l ∧ isTerminator l.2 = true) := by
  by_cases h : ∃ p ∈ bb, isTerminator p.2 = true
  · exact .inr (sweepBlock_has_term bb h)
  · push_neg at h
    exact .inl ⟨sweepBlock_no_term bb (by simpa using h), by simpa using h⟩

theorem dceAppendMain_spec (bbs : List (List (Nat × IRValueKind))) (nv : Nat)
    (h : ∀ bb ∈ bbs,
      (∀ p ∈ bb, isTerminator p.2 = false) ∨
      (bb.countP (fun p => isTerminator p.2) = 1 ∧
        ∃ l, bb.getLast? = some l ∧ isTerminator l.2 = true)) :
    ∀ bb ∈ (dceAppendMain nv bbs).1,
      bb.countP (fun p => isTerminator p.2) = 1 ∧
      ∃ l, bb.getLast? = some l ∧ isTerminator l.2 = true := by
  induction bbs generalizing nv with
  | nil => simp [dceAppendMain]
  | cons bb rest ih =>
    intro bb' hbb'
    rcases h bb (by simp) with hnone | hterm
    · have hcond : (bb.getLast?).elim true (fun inst => !isTerminator inst.2) = true := by
        cases hl : bb.getLast? with
        | none => rfl
        | some l =>
          have : l ∈ bb := getLast?_mem_self hl
          simp [hnone l this]
      simp only [dceAppendMain, hcond, if_true] at hbb'
      rcases List.mem_cons.mp hbb' with rfl | hmem
      · constructor
        · have h0 : bb.countP (fun p => isTerminator p.2) = 0 :=
            List.countP_eq_zero.mpr (fun p hp => by simp [hnone p hp])
          rw [List.countP_append, h0]
          rfl
        · exact ⟨(nv + 1, .ret (some nv)), List.getLast?_concat bb, rfl⟩
      · exact ih (nv + 2)
          (fun b hb => h b (by simp [hb])) bb' hmem
    · obtain ⟨hc, l, hl, hlt⟩ := hterm
      have hcond : (bb.getLast?).elim true (fun inst => !isTerminator inst.2) = false := by
        simp [hl, hlt]
      simp only [dceAppendMain, hcond, if_false] at hbb'
      rcases List.mem_cons.mp hbb' with rfl | hmem
      · exact ⟨hc, l, hl, hlt⟩
      · exact ih nv (fun b hb => h b (by simp [hb])) bb' hmem

/-- C6: after the dead-code sweep, every basic block contains exactly one
terminator and it is the block's last instruction — assuming that, for a
non-`main` function, every block held at least one terminator beforehand;
for `main`, blocks lacking a terminator get an integer-0 `Return`
appended. -/
theorem c6_dceSweep_unique_terminator (isMain : Bool) (nv : Nat)
    (bbs : List (List (Nat × IRValueKind)))
    (hpre : isMain = false → ∀ bb ∈ bbs, ∃ p ∈ bb, isTerminator p.2 = true) :
    ∀ bb ∈ (dceSweep isMain nv bbs).1,
      bb.countP (fun p => isTerminator p.2) = 1 ∧
      ∃ l, bb.getLast? = some l ∧ isTerminator l.2 = true := by
  cases isMain with
  | false =>
    intro bb hbb
    simp only [dceSweep, if_false, Bool.false_eq_true] at hbb
    obtain ⟨src, hsrc, rfl⟩ := List.mem_map.mp hbb
    exact sweepBlock_has_term src (hpre rfl src hsrc)
  | true =>
    intro bb hbb
    simp only [dceSweep, if_true] at hbb
    refine dceAppendMain_spec (bbs.map sweepBlock) nv ?_ bb hbb
    intro b hb
    obtain ⟨src, hsrc, rfl⟩ := List.mem_map.mp hb
    rcases sweepBlock_cases src with ⟨heq, hall⟩ | hterm
    · exact .inl (by rw [heq]; exact hall)
    · exact .inr hterm

/-- Witness for C6: a `main` with one unterminated block and one block with
trailing dead code; after the sweep both blocks end in their unique
terminator. -/
theorem c6_dceSweep_unique_terminator_witness :
    (dceSweep true 7 [[(0, .alloc)], [(1, .ret none), (2, .alloc)]]).1 =
      [[(0, .alloc), (8, .ret (some 7))], [(1, .ret none)]] ∧
    ∀ bb ∈ (dceSweep true 7 [[(0, .alloc)], [(1, .ret none), (2, .alloc)]]).1,
      bb.countP (fun p => isTerminator p.2) = 1 ∧
      ∃ l, bb.getLast? = some l ∧ isTerminator l.2 = true := by
  refine ⟨by decide, ?_⟩
  exact c6_dceSweep_unique_terminator true 7 [[(0, .alloc)], [(1, .ret none), (2, .alloc)]]
    (by intro h; cases h)

/-! ## C9 — long-offset load/store/add lowering -/

theorem Machine.read_write_self (m : Machine) (r : RVRegister) (v : Int)
    (h : r ≠ .zero) : (m.write r v).read r = v := by
  simp [Machine.write, Machine.read, h]

theorem Machine.read_write_ne (m : Machine) (r : RVRegister) (v : Int)
    (x : RVRegister) (h : x ≠ r) : (m.write r v).read x = m.read x := by
  by_cases hz : r = .zero
  · simp [Machine.write, hz]
  · simp only [Machine.write, if_neg hz, Machine.read]
    by_cases hxz : x = .zero
    · simp [hxz]
    · simp [hxz, h]

theorem Machine.mem_write (m : Machine) (r : RVRegister) (v : Int) :
    (m.write r v).mem = m.mem := by
  by_cases hz : r = .zero <;> simp [Machine.write, hz]

theorem Machine.regs_write_ne (m : Machine) (r : RVRegister) (v : Int)
    (x : RVRegister) (h : x ≠ r) : (m.write r v).regs x = m.regs x := by
  by_cases hz : r = .zero
  · simp [Machine.write, hz]
  · simp [Machine.write, hz, h]

theorem Machine.read_zero (m : Machine) : m.read .zero = 0 := rfl

/-- C9: each helper emits the single `lw` / `sw` / `addi` iff
`-2048 ≤ imm < 2048`; out of range it emits a sequence that first loads the
immediate into a pool temporary via `li`, adds the base register, and uses
offset 0 (for load/store) or an `add` in place of the `addi` (for
arithmetic); the emitted sequence has the same net effect as the single
instruction with the full-width immediate — same destination value (`lw`,
`addi`), same memory (`sw`, and untouched memory for `lw`/`addi`), every
register other than the destination and the scratch temporary unchanged. -/
theorem c9_long_offset_helpers :
    (∀ (pool : RVRegisterPool) (rd rs : RVRegister) (imm : Int),
      (-(2 ^ 11) ≤ imm ∧ imm < 2 ^ 11) ↔
        generateLw pool rd rs imm = some ([.lw rd rs imm], pool)) ∧
    (∀ (pool : RVRegisterPool) (rs rd : RVRegister) (imm : Int),
      (-(2 ^ 11) ≤ imm ∧ imm < 2 ^ 11) ↔
        generateSw pool rs rd imm = some ([.sw rs rd imm], pool)) ∧
    (∀ (pool : RVRegisterPool) (rd rs : RVRegister) (imm : Int),
      (-(2 ^ 11) ≤ imm ∧ imm < 2 ^ 11) ↔
        generateAddi pool rd rs imm = some ([.addi rd rs imm], pool)) ∧
    (∀ (rest : RVRegisterPool) (temp rd rs : RVRegister) (imm : Int) (m : Machine),
      ¬ (-(2 ^ 11) ≤ imm ∧ imm < 2 ^ 11) → temp ≠ rs → temp ≠ .zero →
      generateLw (temp :: rest) rd rs imm =
        some ([.li temp imm, .add temp temp rs, .lw rd temp 0], poolRelease rest temp) ∧
      (execInsts m [.li temp imm, .add temp temp rs, .lw rd temp 0]).read rd =
        (execInst m (.lw rd rs imm)).read rd ∧
      (execInsts m [.li temp imm, .add temp temp rs, .lw rd temp 0]).mem = m.mem ∧
      (∀ r, r ≠ rd → r ≠ temp →
        (execInsts m [.li temp imm, .add temp temp rs, .lw rd temp 0]).regs r = m.regs r)) ∧
    (∀ (rest : RVRegisterPool) (temp rs rd : RVRegister) (imm : Int) (m : Machine),
      ¬ (-(2 ^ 11) ≤ imm ∧ imm < 2 ^ 11) → temp ≠ rs → temp ≠ rd → temp ≠ .zero →
      generateSw (temp :: rest) rs rd imm =
        some ([.li temp imm, .add temp temp rd, .sw rs temp 0], poolRelease rest temp) ∧
      (execInsts m [.li temp imm, .add temp temp rd, .sw rs temp 0]).mem =
        (execInst m (.sw rs rd imm)).mem ∧
      (∀ r, r ≠ temp →
        (execInsts m [.li temp imm, .add temp temp rd, .sw rs temp 0]).regs r = m.regs r)) ∧
    (∀ (rest : RVRegisterPool) (temp rd rs : RVRegister) (imm : Int) (m : Machine),
      ¬ (-(2 ^ 11) ≤ imm ∧ imm < 2 ^ 11) → temp ≠ rs → temp ≠ .zero →
      generateAddi (temp :: rest) rd rs imm =
        some ([.li temp imm, .add rd rs temp], poolRelease rest temp) ∧
      (execInsts m [.li temp imm, .add rd rs temp]).read rd =
        (execInst m (.addi rd rs imm)).read rd ∧
      (execInsts m [.li temp imm, .add rd rs temp]).mem = m.mem ∧
      (∀ r, r ≠ rd → r ≠ temp →
        (execInsts m [.li temp imm, .add rd rs temp]).regs r = m.regs r)) := by
  refine ⟨?_, ?_, ?_, ?_, ?_, ?_⟩
  · intro pool rd rs imm
    constructor
    · intro hr; simp only [generateLw]; rw [if_pos hr]
    · intro heq
      by_contra hr
      simp only [generateLw, if_neg hr] at heq
      cases pool with
      | nil => simp [poolNext] at heq
      | cons t rest => simp [poolNext] at heq
  · intro pool rs rd imm
    constructor
    · intro hr; simp only [generateSw]; rw [if_pos hr]
    · intro heq
      by_contra hr
      simp only [generateSw, if_neg hr] at heq
      cases pool with
      | nil => simp [poolNext] at heq
      | cons t rest => simp [poolNext] at heq
  · intro pool rd rs imm
    constructor
    · intro hr; simp only [generateAddi]; rw [if_pos hr]
    · intro heq
      by_contra hr
      simp only [generateAddi, if_neg hr] at heq
      cases pool with
      | nil => simp [poolNext] at heq
      | cons t rest => simp [poolNext] at heq
  · intro rest temp rd rs imm m hrng hts htz
    have hrs : rs ≠ temp := fun h => hts h.symm
    have e1 : (m.write temp imm).read temp = imm := Machine.read_write_self _ _ _ htz
    have e2 : (m.write temp imm).read rs = m.read rs := Machine.read_write_ne _ _ _ _ hrs
    refine ⟨by simp only [generateLw]; rw [if_neg hrng]; rfl, ?_, ?_, ?_⟩
    · simp only [execInsts, List.foldl, execInst, e1, e2]
      have e3 : ((m.write temp imm).write temp (imm + m.read rs)).read temp =
          imm + m.read rs := Machine.read_write_self _ _ _ htz
      have e4 : ((m.write temp imm).write temp (imm + m.read rs)).mem = m.mem := by
        rw [Machine.mem_write, Machine.mem_write]
      rw [e3, e4]
      by_cases hrd : rd = .zero
      · subst hrd
        rw [show ∀ mm : Machine, ∀ v, (mm.write .zero v).read .zero = 0 from
          fun mm v => by simp [Machine.write, Machine.read]]
        rw [show ∀ mm : Machine, ∀ v, (mm.write .zero v).read .zero = 0 from
          fun mm v => by simp [Machine.write, Machine.read]]
      · rw [Machine.read_write_self _ _ _ hrd, Machine.read_write_self _ _ _ hrd,
          add_zero, add_comm]
    · simp only [execInsts, List.foldl, execInst]
      rw [Machine.mem_write, Machine.mem_write, Machine.mem_write]
    · intro r h1 h2
      simp only [execInsts, List.foldl, execInst]
      rw [Machine.regs_write_ne _ _ _ _ h1, Machine.regs_write_ne _ _ _ _ h2,
        Machine.regs_write_ne _ _ _ _ h2]
  · intro rest temp rs rd imm m hrng hts htd htz
    have hrs : rs ≠ temp := fun h => hts h.symm
    have hrd : rd ≠ temp := fun h => htd h.symm
    have e1 : (m.write temp imm).read temp = imm := Machine.read_write_self _ _ _ htz
    have e2 : (m.write temp imm).read rd = m.read rd := Machine.read_write_ne _ _ _ _ hrd
    refine ⟨by simp only [generateSw]; rw [if_neg hrng]; rfl, ?_, ?_⟩
    · simp only [execInsts, List.foldl, execInst, e1, e2]
      have e3 : ((m.write temp imm).write temp (imm + m.read rd)).read temp =
          imm + m.read rd := Machine.read_write_self _ _ _ htz
      have e4 : ((m.write temp imm).write temp (imm + m.read rd)).read rs =
          m.read rs := by
        rw [Machine.read_write_ne _ _ _ _ hrs, Machine.read_write_ne _ _ _ _ hrs]
      have e5 : ((m.write temp imm).write temp (imm + m.read rd)).mem = m.mem := by
        rw [Machine.mem_write, Machine.mem_write]
      rw [e3, e4, e5]
      funext a
      rw [show imm + m.read rd + 0 = m.read rd + imm from by ring]
    · intro r h2
      simp only [execInsts, List.foldl, execInst]
      rw [Machine.regs_write_ne _ _ _ _ h2, Machine.regs_write_ne _ _ _ _ h2]
  · intro rest temp rd rs imm m hrng hts htz
    have hrs : rs ≠ temp := fun h => hts h.symm
    have e1 : (m.write temp imm).read temp = imm := Machine.read_write_self _ _ _ htz
    have e2 : (m.write temp imm).read rs = m.read rs := Machine.read_write_ne _ _ _ _ hrs
    refine ⟨by simp only [generateAddi]; rw [if_neg hrng]; rfl, ?_, ?_, ?_⟩
    · simp only [execInsts, List.foldl, execInst, e1, e2]
      by_cases hrd : rd = .zero
      · subst hrd
        rw [show ∀ mm : Machine, ∀ v, (mm.write .zero v).read .zero = 0 from
          fun mm v => by simp [Machine.write, Machine.read]]
        rw [show ∀ mm : Machine, ∀ v, (mm.write .zero v).read .zero = 0 from
          fun mm v => by simp [Machine.write, Machine.read]]
      · rw [Machine.read_write_self _ _ _ hrd, Machine.read_write_self _ _ _ hrd]
    · simp only [execInsts, List.foldl, execInst]
      rw [Machine.mem_write, Machine.mem_write]
    · intro r h1 h2
      simp only [execInsts, List.foldl, execInst]
      rw [Machine.regs_write_ne _ _ _ _ h1, Machine.regs_write_ne _ _ _ _ h2]

/-- Witness for C9: at `imm = 4096` (out of the 12-bit range) the load
helper emits the three-instruction sequence, whose effect on `t1` matches
`lw t1, 4096(sp)`; at `imm = 4` it emits the single instruction. -/
theorem c9_long_offset_helpers_witness :
    generateLw [.t0] .t1 .sp 4096 =
      some ([.li .t0 4096, .add .t0 .t0 .sp, .lw .t1 .t0 0], poolRelease [] .t0) ∧
    (∀ m : Machine,
      (execInsts m [.li .t0 4096, .add .t0 .t0 .sp, .lw .t1 .t0 0]).read .t1 =
        (execInst m (.lw .t1 .sp 4096)).read .t1) ∧
    generateLw [.t0] .t1 .sp 4 = some ([.lw .t1 .sp 4], [.t0]) := by
  refine ⟨(c9_long_offset_helpers.2.2.2.1 [] .t0 .t1 .sp 4096 ⟨fun _ => 0, fun _ => 0⟩
      (by decide) (by decide) (by decide)).1,
    fun m => (c9_long_offset_helpers.2.2.2.1 [] .t0 .t1 .sp 4096 m
      (by decide) (by decide) (by decide)).2.1,
    (c9_long_offset_helpers.1 [.t0] .t1 .sp 4).mp (by decide)⟩

/-! ## C7 — label uniqueness of the name generator -/

theorem toDigitsCore_eq_natDigits (fuel : Nat) :
    ∀ (n : Nat) (ds : List Char), n < fuel →
      Nat.toDigitsCore 10 fuel n ds = natDigits n ++ ds := by
  induction fuel with
  | zero => intro n ds h; omega
  | succ f ih =>
    intro n ds h
    by_cases hz : n / 10 = 0
    · have h10 : n < 10 := by omega
      rw [natDigits, dif_pos h10]
      simp only [Nat.toDigitsCore, hz, if_true]
      rw [Nat.mod_eq_of_lt h10]
      rfl
    · have h10 : ¬ n < 10 := by omega
      have hlt : n / 10 < f := by omega
      simp only [Nat.toDigitsCore, hz, if_false]
      have hnd : natDigits n = natDigits (n / 10) ++ [Nat.digitChar (n % 10)] := by
        conv_lhs => rw [natDigits]
        rw [dif_neg h10]
      rw [ih (n / 10) _ hlt, hnd, List.append_assoc]
      rfl

theorem toDigits_eq_natDigits (n : Nat) : Nat.toDigits 10 n = natDigits n := by
  have h := toDigitsCore_eq_natDigits (n + 1) n [] (by omega)
  simpa [Nat.toDigits] using h

theorem digitVal_digitChar (d : Nat) (h : d < 10) :
    digitVal (Nat.digitChar d) = d := by
  interval_cases d <;> decide

theorem foldl_natDigits (n : Nat) :
    ∀ a : Nat, (natDigits n).foldl (fun a c => a * 10 + digitVal c) a =
      a * 10 ^ (natDigits n).length + n := by
  induction n using Nat.strong_induction_on with
  | _ n ih =>
    intro a
    by_cases h : n < 10
    · rw [natDigits, dif_pos h]
      simp only [List.foldl, List.length_cons, List.length_nil]
      rw [digitVal_digitChar n h]
      ring
    · rw [natDigits, dif_neg h]
      rw [List.foldl_append, List.length_append]
      have hdiv : n / 10 < n := Nat.div_lt_self (by omega) (by omega)
      rw [ih (n / 10) hdiv a]
      simp only [List.foldl, List.length_cons, List.length_nil]
      rw [digitVal_digitChar (n % 10) (Nat.mod_lt n (by omega))]
      have hk : n / 10 * 10 + n % 10 = n := by omega
      rw [pow_succ]
      calc (a * 10 ^ (natDigits (n / 10)).length + n / 10) * 10 + n % 10
          = a * (10 ^ (natDigits (n / 10)).length * 10) + (n / 10 * 10 + n % 10) := by
            ring
        _ = a * (10 ^ (natDigits (n / 10)).length * 10) + n := by rw [hk]

theorem natDigits_inj {m n : Nat} (h : natDigits m = natDigits n) : m = n := by
  have hm := foldl_natDigits m 0
  have hn := foldl_natDigits n 0
  rw [h, hn] at hm
  simp at hm
  omega

theorem nat_repr_inj {m n : Nat} (h : Nat.repr m = Nat.repr n) : m = n := by
  have hdata : (Nat.toDigits 10 m).asString.data = (Nat.toDigits 10 n).asString.data := by
    rw [show (Nat.toDigits 10 m).asString = Nat.repr m from rfl,
      show (Nat.toDigits 10 n).asString = Nat.repr n from rfl, h]
  have hlist : Nat.toDigits 10 m = Nat.toDigits 10 n := by
    simpa [List.asString] using hdata
  rw [toDigits_eq_natDigits, toDigits_eq_natDigits] at hlist
  exact natDigits_inj hlist

theorem string_append_repr_inj (pfx : String) {m n : Nat}
    (h : pfx ++ Nat.repr m = pfx ++ Nat.repr n) : m = n := by
  apply nat_repr_inj
  have hdata : (pfx ++ Nat.repr m).data = (pfx ++ Nat.repr n).data := by rw [h]
  simp only [String.data_append] at hdata
  have h2 : (Nat.repr m).data = (Nat.repr n).data := List.append_cancel_left hdata
  exact congrArg String.mk h2

/-- C7 (amended): both `generate` and `generate_group` format each label as
the prefix followed by the current counter and then increment the counter,
so the `i`-th call of a run beginning at counter `c0` formats with counter
`c0 + i`; labels produced by two distinct calls from the same prefix are
always distinct.  (Global uniqueness across different prefixes fails — see
the counterexample.) -/
theorem c7_runNG_same_prefix_labels_distinct :
    (∀ (c0 : Nat) (calls : List NGCall),
      (runNG c0 calls).length = calls.length) ∧
    (∀ (c0 : Nat) (calls : List NGCall) (i : Nat), ∀ h : i < calls.length,
      (runNG c0 calls)[i]? = some (calls[i].labels (c0 + i))) ∧
    (∀ (pfx : String) (c0 i j : Nat), i ≠ j →
      pfx ++ Nat.repr (c0 + i) ≠ pfx ++ Nat.repr (c0 + j)) := by
  refine ⟨?_, ?_, ?_⟩
  · intro c0 calls
    induction calls generalizing c0 with
    | nil => rfl
    | cons c rest ih => simp [runNG, ih]
  · intro c0 calls
    induction calls generalizing c0 with
    | nil => intro i h; simp at h
    | cons c rest ih =>
      intro i h
      cases i with
      | zero => simp [runNG]
      | succ i' =>
        have h' : i' < rest.length := by simpa using h
        have := ih (c0 + 1) i' h'
        simp only [runNG, List.getElem?_cons_succ, List.getElem_cons_succ]
        rw [this]
        congr 2
        omega
  · intro pfx c0 i j hij heq
    have := string_append_repr_inj pfx heq
    omega

/-- Witness for C7: the first two calls of a run starting at counter 5 with
the same prefix `"%t"` give the distinct labels `"%t5"` and `"%t6"`. -/
theorem c7_runNG_same_prefix_labels_distinct_witness :
    (runNG 5 [.gen "%t", .gen "%t"])[0]? = some ["%t5"] ∧
    (runNG 5 [.gen "%t", .gen "%t"])[1]? = some ["%t6"] ∧
    "%t" ++ Nat.repr (5 + 0) ≠ "%t" ++ Nat.repr (5 + 1) := by
  refine ⟨?_, ?_,
    c7_runNG_same_prefix_labels_distinct.2.2 "%t" 5 0 1 (by decide)⟩
  · have h := c7_runNG_same_prefix_labels_distinct.2.1 5 [.gen "%t", .gen "%t"] 0 (by decide)
    simpa using h
  · have h := c7_runNG_same_prefix_labels_distinct.2.1 5 [.gen "%t", .gen "%t"] 1 (by decide)
    simpa using h

/-- Counterexample for C7 as stated: with prefixes `"a1"` and `"a"`, call 0
(counter 0) and call 10 (counter 10) of one compilation both return the
label `"a10"`, so the labels of one `NameGenerator` are not globally unique
across different prefixes. -/
theorem c7_cross_prefix_collision_counterexample :
    (runNG 0 c7calls).flatten.getD 0 "" = "a10" ∧
    (runNG 0 c7calls).flatten.getD 10 "" = "a10" ∧
    ¬ (runNG 0 c7calls).flatten.Nodup := by
  refine ⟨by decide, by decide, by decide⟩

/-! ## Generation-state toolkit -/

theorem assocGet_cons_self {α : Type} (k : Nat) (v : α) (l : List (Nat × α)) :
    assocGet ((k, v) :: l) k = some v := by simp [assocGet]

theorem assocGet_cons_ne {α : Type} (k k' : Nat) (v : α) (l : List (Nat × α))
    (h : k ≠ k') : assocGet ((k, v) :: l) k' = assocGet l k' := by
  simp [assocGet, h]

theorem assocGet_append {α : Type} (l1 l2 : List (Nat × α)) (k : Nat) :
    assocGet (l1 ++ l2) k =
      match assocGet l1 k with
      | some v => some v
      | none => assocGet l2 k := by
  induction l1 with
  | nil => simp [assocGet]
  | cons p rest ih =>
    by_cases h : p.1 = k
    · subst h
      simp [assocGet]
    · simpa [assocGet, h] using ih

theorem assocGet_map_append (l : List (Nat × List Nat)) (k k' v : Nat) :
    assocGet (l.map (fun p => if p.1 = k then (p.1, p.2 ++ [v]) else p)) k' =
      if k' = k then (assocGet l k').map (fun il => il ++ [v])
      else assocGet l k' := by
  induction l with
  | nil => by_cases h : k' = k <;> simp [assocGet, h]
  | cons p rest ih =>
    by_cases hp : p.1 = k
    · subst hp
      by_cases hk : p.1 = k'
      · subst hk
        simp [assocGet]
      · simp only [List.map_cons, eq_self_iff_true, if_true]
        rw [assocGet_cons_ne _ _ _ _ hk, ih]
        have hne : ¬ k' = p.1 := fun h => hk h.symm
        rw [if_neg hne, if_neg hne]
        conv_rhs => rw [assocGet]
        rw [if_neg hk]
    · by_cases hk : p.1 = k'
      · subst hk
        simp only [List.map_cons, if_neg hp]
        simp [assocGet]
      · simp only [List.map_cons, if_neg hp]
        conv_lhs => rw [assocGet]
        rw [if_neg hk, ih]
        conv_rhs => rw [assocGet]
        rw [if_neg hk]

theorem dfgGet_newValue_self (s : GenState) (k : IRValueKind) :
    (s.newValue k).2.dfgGet s.nextValue = some k := by
  simp [GenState.newValue, GenState.dfgGet, assocGet]

theorem dfgGet_newValue_ne (s : GenState) (k : IRValueKind) (h : Nat)
    (hne : s.nextValue ≠ h) : (s.newValue k).2.dfgGet h = s.dfgGet h := by
  simp [GenState.newValue, GenState.dfgGet, assocGet, hne]

theorem dfgGet_addInst (s : GenState) (v h : Nat) :
    (s.addInst v).dfgGet h = s.dfgGet h := rfl

theorem dfgGet_createBlock (s : GenState) (name : String) (h : Nat) :
    (s.createBlock name).2.dfgGet h = s.dfgGet h := rfl

theorem dfgGet_enterBB (s : GenState) (bb h : Nat) :
    (s.enterBB bb).dfgGet h = s.dfgGet h := rfl

theorem dfgGet_genName (s : GenState) (pfx : String) (h : Nat) :
    (s.genName pfx).2.dfgGet h = s.dfgGet h := rfl

theorem blockOf_newValue (s : GenState) (k : IRValueKind) (bb : Nat) :
    (s.newValue k).2.blockOf bb = s.blockOf bb := rfl

theorem blockOf_enterBB (s : GenState) (bb' bb : Nat) :
    (s.enterBB bb').blockOf bb = s.blockOf bb := rfl

theorem blockOf_genName (s : GenState) (pfx : String) (bb : Nat) :
    (s.genName pfx).2.blockOf bb = s.blockOf bb := rfl

theorem blockOf_addInst_ne (s : GenState) (v bb : Nat) (h : bb ≠ s.curBB) :
    (s.addInst v).blockOf bb = s.blockOf bb := by
  simp only [GenState.addInst, GenState.blockOf]
  rw [assocGet_map_append, if_neg h]

theorem blockOf_addInst_self (s : GenState) (v : Nat)
    (h : (assocGet s.blockInsts s.curBB).isSome = true) :
    (s.addInst v).blockOf s.curBB = s.blockOf s.curBB ++ [v] := by
  simp only [GenState.addInst, GenState.blockOf]
  rw [assocGet_map_append, if_pos rfl]
  obtain ⟨il, hil⟩ := Option.isSome_iff_exists.mp h
  simp [hil]

theorem blockKeys_addInst (s : GenState) (v bb : Nat) :
    (assocGet (s.addInst v).blockInsts bb).isSome =
      (assocGet s.blockInsts bb).isSome := by
  simp only [GenState.addInst]
  rw [assocGet_map_append]
  by_cases h : bb = s.curBB <;> simp [h]

theorem blockOf_createBlock_old (s : GenState) (name : String) (bb : Nat)
    (h : bb ≠ s.nextBB) : (s.createBlock name).2.blockOf bb = s.blockOf bb := by
  simp only [GenState.createBlock, GenState.blockOf]
  rw [assocGet_append]
  cases hg : assocGet s.blockInsts bb with
  | some v => rfl
  | none => simp [assocGet, Ne.symm h]

theorem blockOf_createBlock_new (s : GenState) (name : String)
    (h : assocGet s.blockInsts s.nextBB = none) :
    (s.createBlock name).2.blockOf s.nextBB = [] := by
  simp only [GenState.createBlock, GenState.blockOf]
  rw [assocGet_append, h]
  simp [assocGet]

theorem curBB_newValue (s : GenState) (k : IRValueKind) :
    (s.newValue k).2.curBB = s.curBB := rfl

theorem curBB_addInst (s : GenState) (v : Nat) :
    (s.addInst v).curBB = s.curBB := rfl

theorem curBB_createBlock (s : GenState) (name : String) :
    (s.createBlock name).2.curBB = s.curBB := rfl

/-! ## C2 — pure-operand lowering of `&&` and `||` -/

/-- C2 (amended): with pure operands, both sides are lowered in
left-then-right order and all emitted instructions go to the current block;
for `a && b` each operand is normalized to 0/1 via a `!= 0` comparison and
the normalized operands are combined with `And`; for `a || b`, however, the
*raw* operand values are combined with `Or` and only the combined result is
normalized with `!= 0` — the `Or`'s operands are not individually
normalized. -/
theorem c2_pure_logical_lowering (tbl : NestedSymbolTable) (l r : Expr)
    (st s1 s2 : GenState) (lv rv : Nat)
    (hpure : (l.hasSideEffect || r.hasSideEffect) = false)
    (hl : generateExpr tbl l st = .ok (lv, s1))
    (hr : generateExpr tbl r s1 = .ok (rv, s2))
    (hcb : (assocGet s2.blockInsts s2.curBB).isSome = true) :
    (∃ sF, generateExpr tbl (.land l r) st = .ok (s2.nextValue + 3, sF) ∧
      sF.curBB = s2.curBB ∧ sF.nextBB = s2.nextBB ∧
      sF.blockOf s2.curBB = s2.blockOf s2.curBB ++
        [s2.nextValue + 1, s2.nextValue + 2, s2.nextValue + 3] ∧
      sF.dfgGet s2.nextValue = some (.integer 0) ∧
      sF.dfgGet (s2.nextValue + 1) = some (.binary .notEq lv s2.nextValue) ∧
      sF.dfgGet (s2.nextValue + 2) = some (.binary .notEq rv s2.nextValue) ∧
      sF.dfgGet (s2.nextValue + 3) =
        some (.binary .and (s2.nextValue + 1) (s2.nextValue + 2))) ∧
    (∃ sF, generateExpr tbl (.lor l r) st = .ok (s2.nextValue + 2, sF) ∧
      sF.curBB = s2.curBB ∧ sF.nextBB = s2.nextBB ∧
      sF.blockOf s2.curBB = s2.blockOf s2.curBB ++
        [s2.nextValue + 1, s2.nextValue + 2] ∧
      sF.dfgGet s2.nextValue = some (.integer 0) ∧
      sF.dfgGet (s2.nextValue + 1) = some (.binary .or lv rv) ∧
      sF.dfgGet (s2.nextValue + 2) =
        some (.binary .notEq (s2.nextValue + 1) s2.nextValue)) := by
  obtain ⟨il, hil⟩ := Option.isSome_iff_exists.mp hcb
  constructor
  · have hh : generateExpr tbl (.land l r) st = .ok (s2.nextValue + 3,
        (((((((s2.newValue (.integer 0)).2.newValue
            (.binary .notEq lv s2.nextValue)).2.newValue
            (.binary .notEq rv s2.nextValue)).2.newValue
            (.binary .and (s2.nextValue + 1) (s2.nextValue + 2))).2.addInst
            (s2.nextValue + 1)).addInst (s2.nextValue + 2)).addInst
            (s2.nextValue + 3))) := by
      simp only [generateExpr, hpure, Bool.false_eq_true, if_false, hl, hr]
      rfl
    refine ⟨_, hh, rfl, rfl, ?_, ?_, ?_, ?_, ?_⟩
    · simp only [GenState.blockOf, GenState.addInst, GenState.newValue,
        assocGet_map_append, hil, eq_self_iff_true, if_true, Option.map_some',
        Option.getD_some, List.append_assoc, List.singleton_append,
        List.cons_append, List.nil_append]
    · simp only [GenState.dfgGet, GenState.newValue, GenState.addInst, assocGet]
      split_ifs <;> first | rfl | omega
    · simp only [GenState.dfgGet, GenState.newValue, GenState.addInst, assocGet]
      split_ifs <;> first | rfl | omega
    · simp only [GenState.dfgGet, GenState.newValue, GenState.addInst, assocGet]
      split_ifs <;> first | rfl | omega
    · simp only [GenState.dfgGet, GenState.newValue, GenState.addInst, assocGet]
      split_ifs <;> first | rfl | omega
  · have hh : generateExpr tbl (.lor l r) st = .ok (s2.nextValue + 2,
        (((((s2.newValue (.integer 0)).2.newValue
            (.binary .or lv rv)).2.newValue
            (.binary .notEq (s2.nextValue + 1) s2.nextValue)).2.addInst
            (s2.nextValue + 1)).addInst (s2.nextValue + 2))) := by
      simp only [generateExpr, hpure, Bool.false_eq_true, if_false, hl, hr]
      rfl
    refine ⟨_, hh, rfl, rfl, ?_, ?_, ?_, ?_⟩
    · simp only [GenState.blockOf, GenState.addInst, GenState.newValue,
        assocGet_map_append, hil, eq_self_iff_true, if_true, Option.map_some',
        Option.getD_some, List.append_assoc, List.singleton_append,
        List.cons_append, List.nil_append]
    · simp only [GenState.dfgGet, GenState.newValue, GenState.addInst, assocGet]
      split_ifs <;> first | rfl | omega
    · simp only [GenState.dfgGet, GenState.newValue, GenState.addInst, assocGet]
      split_ifs <;> first | rfl | omega
    · simp only [GenState.dfgGet, GenState.newValue, GenState.addInst, assocGet]
      split_ifs <;> first | rfl | omega

/-- Witness for C2: lowering `1 && 2` emits `[!= 1 0, != 2 0, and]` and
`1 || 2` emits `[or 1 2, != or 0]` into the current block. -/
theorem c2_pure_logical_lowering_witness :
    (∃ sF, generateExpr tbl0 (.land (.num 1) (.num 2)) initGenState =
        .ok (2 + 3, sF) ∧
      sF.curBB = 0 ∧ sF.nextBB = 1 ∧
      sF.blockOf 0 = [] ++ [2 + 1, 2 + 2, 2 + 3] ∧
      sF.dfgGet 2 = some (.integer 0) ∧
      sF.dfgGet (2 + 1) = some (.binary .notEq 0 2) ∧
      sF.dfgGet (2 + 2) = some (.binary .notEq 1 2) ∧
      sF.dfgGet (2 + 3) = some (.binary .and (2 + 1) (2 + 2))) := by
  have h := c2_pure_logical_lowering tbl0 (.num 1) (.num 2) initGenState _ _ 0 1
    rfl rfl rfl rfl
  exact h.1

/-- Counterexample for C2 as stated: lowering the pure `5 || 7` emits the
`Or` of the two *raw* literal values followed by a single `!= 0` of the
result — the operands of the emitted `Or` are the integer literals 5 and 7
themselves, not `!= 0` normalizations as the claim prescribes. -/
theorem c2_lor_pure_counterexample :
    c2run.map (fun p => (p.2.blockOf 0).map p.2.dfgGet) =
      .ok [some (.binary .or 0 1), some (.binary .notEq 3 2)] ∧
    c2run.map (fun p => p.2.dfgGet 0) = .ok (some (.integer 5)) ∧
    c2run.map (fun p => p.2.dfgGet 1) = .ok (some (.integer 7)) ∧
    c2run.map (fun p => orOperandsNormalized p.2 3) = .ok false := by
  refine ⟨rfl, rfl, rfl, rfl⟩

/-! ## C3 — void functions: final `Return(None)` -/

/-- C3 (amended): for a void function the front-end appends the final
`Return(None)` unconditionally after lowering the body — with no check of
whether the current block already ends in a terminator.  (The claim's
"only if the current block lacks a terminator" is refuted by the
counterexample below.) -/
theorem c3_void_return_appended_unconditionally (f : FuncDef)
    (tbl tbl1 : NestedSymbolTable) (st s : GenState)
    (hvoid : f.funcType = .void)
    (hcore : generateFuncCore f tbl st = .ok (tbl1, s))
    (hcb : (assocGet s.blockInsts s.curBB).isSome = true) :
    generateFuncDef f tbl st =
      .ok (tbl1, (s.newValue (.ret none)).2.addInst s.nextValue) ∧
    ((s.newValue (.ret none)).2.addInst s.nextValue).blockOf s.curBB =
      s.blockOf s.curBB ++ [s.nextValue] ∧
    ((s.newValue (.ret none)).2.addInst s.nextValue).dfgGet s.nextValue =
      some (.ret none) := by
  refine ⟨?_, ?_, ?_⟩
  · simp only [generateFuncDef, hcore, hvoid]
    rfl
  · exact blockOf_addInst_self _ _ hcb
  · exact dfgGet_newValue_self s (.ret none)

/-- Witness for C3 (amended): a void function with an empty body gets the
`Return(None)` appended to its `%entry` block. -/
theorem c3_void_return_appended_unconditionally_witness :
    generateFuncDef ⟨.void, "g", [], .mk []⟩ tbl0 emptyGenState =
      .ok (.mk [("g", .func 0 .unit [])] none,
        (({ dfg := [], nextValue := 0, blockInsts := [(0, [])],
            blockNames := [(0, "%entry")], nextBB := 1, curBB := 0,
            nameCounter := 0, nextFunc := 1 } : GenState).newValue
              (.ret none)).2.addInst 0) ∧
    ((({ dfg := [], nextValue := 0, blockInsts := [(0, [])],
          blockNames := [(0, "%entry")], nextBB := 1, curBB := 0,
          nameCounter := 0, nextFunc := 1 } : GenState).newValue
            (.ret none)).2.addInst 0).blockOf 0 = [] ++ [0] := by
  refine ⟨(c3_void_return_appended_unconditionally ⟨.void, "g", [], .mk []⟩
      tbl0 _ emptyGenState _ rfl rfl rfl).1,
    (c3_void_return_appended_unconditionally ⟨.void, "g", [], .mk []⟩
      tbl0 _ emptyGenState _ rfl rfl rfl).2.1⟩

/-- Counterexample for C3 as stated: in the void function
`void f() { return 0; }` the body leaves the `%entry` block already ended in
a terminator (`ret 0`), yet the front-end appends another `Return(None)` —
the emitted block is `[ret (some 0), ret none]`, not `[ret (some 0)]` as the
claim requires. -/
theorem c3_void_double_return_counterexample :
    c3run.map (fun p => (p.2.blockOf 0).map p.2.dfgGet) =
      .ok [some (.ret (some 0)), some (.ret none)] ∧
    isTerminator (.ret (some 0)) = true := ⟨rfl, rfl⟩
/-! ## C4 — extension and well-formedness infrastructure -/

theorem assocGet_eq_none_of_lt {α : Type} (l : List (Nat × α)) (n k : Nat)
    (hk : ∀ p ∈ l, p.1 < n) (h : n ≤ k) : assocGet l k = none := by
  induction l with
  | nil => rfl
  | cons p rest ih =>
    have hp := hk p (by simp)
    rw [show assocGet (p :: rest) k = if p.1 = k then some p.2 else assocGet rest k
      from rfl, if_neg (by omega : ¬ p.1 = k)]
    exact ih (fun q hq => hk q (by simp [hq]))

theorem blockOf_ge_nextBB (s : GenState) (bb : Nat) (hwf : WFGen s)
    (h : s.nextBB ≤ bb) : s.blockOf bb = [] := by
  unfold GenState.blockOf
  rw [assocGet_eq_none_of_lt s.blockInsts s.nextBB bb hwf.blockKeysLt h]
  rfl

theorem blockKeys_createBlock_self (s : GenState) (name : String) :
    (assocGet (s.createBlock name).2.blockInsts s.nextBB).isSome = true := by
  simp only [GenState.createBlock]
  rw [assocGet_append]
  cases hg : assocGet s.blockInsts s.nextBB with
  | some v => rfl
  | none => simp [assocGet]

theorem blockKeys_createBlock_mono (s : GenState) (name : String) (bb : Nat)
    (h : (assocGet s.blockInsts bb).isSome = true) :
    (assocGet (s.createBlock name).2.blockInsts bb).isSome = true := by
  simp only [GenState.createBlock]
  rw [assocGet_append]
  obtain ⟨v, hv⟩ := Option.isSome_iff_exists.mp h
  rw [hv]
  rfl

theorem blockOf_createBlock_cases (s : GenState) (name : String) (bb : Nat) :
    (s.createBlock name).2.blockOf bb = s.blockOf bb ∨
    (s.createBlock name).2.blockOf bb = [] := by
  by_cases h : bb = s.nextBB
  · cases hg : assocGet s.blockInsts bb with
    | some v =>
      left
      simp only [GenState.createBlock, GenState.blockOf]
      rw [assocGet_append, hg]
    | none =>
      right
      rw [h]
      exact blockOf_createBlock_new s name (h ▸ hg)
  · exact .inl (blockOf_createBlock_old s name bb h)

theorem blockOf_addInst_cases (s : GenState) (v bb : Nat) :
    (s.addInst v).blockOf bb = s.blockOf bb ∨
    ((s.addInst v).blockOf bb = s.blockOf bb ++ [v] ∧ bb = s.curBB) := by
  by_cases h : bb = s.curBB
  · rw [h]
    by_cases hs : (assocGet s.blockInsts s.curBB).isSome = true
    · exact .inr ⟨blockOf_addInst_self s v hs, rfl⟩
    · left
      simp only [GenState.addInst, GenState.blockOf]
      rw [assocGet_map_append, if_pos rfl]
      cases hg : assocGet s.blockInsts s.curBB with
      | some w => exact absurd (by rw [hg]; rfl) hs
      | none => rfl
  · exact .inl (blockOf_addInst_ne s v bb h)

theorem mem_assoc_of_assocGet {α : Type} {l : List (Nat × α)} {h : Nat} {k : α}
    (hk : assocGet l h = some k) : (h, k) ∈ l := by
  induction l with
  | nil => simp [assocGet] at hk
  | cons p rest ih =>
    rw [show assocGet (p :: rest) h = if p.1 = h then some p.2 else assocGet rest h
      from rfl] at hk
    by_cases hp : p.1 = h
    · rw [if_pos hp] at hk
      cases p with
      | mk a b =>
        simp only [Option.some.injEq] at hk
        simp only at hp
        subst hp
        subst hk
        exact List.mem_cons_self _ _
    · rw [if_neg hp] at hk
      exact List.mem_cons_of_mem _ (ih hk)

theorem mem_dfg_of_dfgGet {s : GenState} {h : Nat} {k : IRValueKind}
    (hk : s.dfgGet h = some k) : (h, k) ∈ s.dfg :=
  mem_assoc_of_assocGet hk

theorem genExtends_refl (st : GenState) (hwf : WFGen st) : GenExtends st st := by
  refine ⟨le_refl _, le_refl _, fun h _ => rfl, ?_, fun bb _ _ => rfl, ?_,
    fun bb h => h, .inl rfl⟩
  · intro h k hk hge t ht
    have := hwf.dfgKeysLt _ (mem_dfg_of_dfgGet hk)
    omega
  · intro bb h h1 h2
    exact absurd h1 h2

theorem genExtends_trans {st1 st2 st3 : GenState}
    (a : GenExtends st1 st2) (b : GenExtends st2 st3) : GenExtends st1 st3 := by
  refine ⟨le_trans a.hval b.hval, le_trans a.hbb b.hbb, ?_, ?_, ?_, ?_,
    fun bb h => b.hkeys bb (a.hkeys bb h), ?_⟩
  · intro h hh
    rw [b.hdfg_old h (lt_of_lt_of_le hh a.hval), a.hdfg_old h hh]
  · intro h k hk hge t ht
    by_cases hmid : h < st2.nextValue
    · have := a.hdfg_new h k (by rw [← b.hdfg_old h hmid]; exact hk) hge t ht
      exact ⟨this.1, lt_of_lt_of_le this.2 b.hbb⟩
    · have := b.hdfg_new h k hk (by omega) t ht
      exact ⟨le_trans a.hbb this.1, this.2⟩
  · intro bb hne hlt
    have hcur2 : bb ≠ st2.curBB := by
      rcases a.hcur with h | h
      · rw [h]; exact hne
      · omega
    rw [b.hblocks_old bb hcur2 (lt_of_lt_of_le hlt a.hbb), a.hblocks_old bb hne hlt]
  · intro bb h hmem hnot
    by_cases hmid : h ∈ st2.blockOf bb
    · obtain ⟨⟨hv1, hv2⟩, hloc⟩ := a.hblocks_new bb h hmid hnot
      refine ⟨⟨hv1, lt_of_lt_of_le hv2 b.hval⟩, ?_⟩
      rcases hloc with h | h
      · exact .inl h
      · exact .inr ⟨h.1, lt_of_lt_of_le h.2 b.hbb⟩
    · obtain ⟨⟨hv1, hv2⟩, hloc⟩ := b.hblocks_new bb h hmem hmid
      refine ⟨⟨le_trans a.hval hv1, hv2⟩, ?_⟩
      rcases hloc with h | h
      · subst h
        rcases a.hcur with hc | hc
        · exact .inl hc
        · exact .inr ⟨hc.1, lt_of_lt_of_le hc.2 b.hbb⟩
      · exact .inr ⟨le_trans a.hbb h.1, h.2⟩
  · rcases b.hcur with h | h
    · rcases a.hcur with hc | hc
      · exact .inl (h.trans hc)
      · refine .inr ⟨?_, ?_⟩
        · rw [h]; exact hc.1
        · rw [h]; exact lt_of_lt_of_le hc.2 b.hbb
    · exact .inr ⟨le_trans a.hbb h.1, h.2⟩

theorem ext_step_newValue (st s : GenState) (k : IRValueKind)
    (hext : GenExtends st s) (hwf : WFGen s)
    (htgt : ∀ t ∈ kindTargets k, st.nextBB ≤ t ∧ t < s.nextBB) :
    GenExtends st (s.newValue k).2 ∧ WFGen (s.newValue k).2 := by
  constructor
  · refine ⟨?_, hext.hbb, ?_, ?_, hext.hblocks_old, ?_, fun bb h => hext.hkeys bb h,
      hext.hcur⟩
    · have := hext.hval
      simp only [GenState.newValue]
      omega
    · intro h hh
      rw [dfgGet_newValue_ne s k h (by have := hext.hval; omega)]
      exact hext.hdfg_old h hh
    · intro h k' hk hge t ht
      by_cases hh : s.nextValue = h
      · subst hh
        rw [dfgGet_newValue_self] at hk
        cases hk
        exact htgt t ht
      · rw [dfgGet_newValue_ne s k h hh] at hk
        exact hext.hdfg_new h k' hk hge t ht
    · intro bb h h1 h2
      have hbn := hext.hblocks_new bb h h1 h2
      refine ⟨⟨hbn.1.1, ?_⟩, hbn.2⟩
      have := hbn.1.2
      simp only [GenState.newValue]
      omega
  · refine ⟨?_, ?_, hwf.blockKeysLt, ?_, hwf.curBBLt, hwf.curBBSome⟩
    · intro p hp
      simp only [GenState.newValue] at hp
      rcases List.mem_cons.mp hp with h | hmem
      · subst h
        simp [GenState.newValue]
      · have := hwf.dfgKeysLt p hmem
        simp only [GenState.newValue]
        omega
    · intro p hp
      simp only [GenState.newValue] at hp
      rcases List.mem_cons.mp hp with h | hmem
      · subst h
        intro t ht
        exact (htgt t ht).2
      · exact hwf.dfgTargetsLt p hmem
    · intro p hp x hx
      have := hwf.blockHandlesLt p hp x hx
      simp only [GenState.newValue]
      omega

theorem ext_step_addInst (st s : GenState) (h : Nat)
    (hext : GenExtends st s) (hwf : WFGen s)
    (hlo : st.nextValue ≤ h) (hhi : h < s.nextValue) :
    GenExtends st (s.addInst h) ∧ WFGen (s.addInst h) := by
  constructor
  · refine ⟨hext.hval, hext.hbb, fun x hx => hext.hdfg_old x hx,
      fun x k hk => hext.hdfg_new x k hk, ?_, ?_, ?_, hext.hcur⟩
    · intro bb hne hlt
      have hne2 : bb ≠ s.curBB := by
        rcases hext.hcur with hc | hc
        · rw [hc]; exact hne
        · omega
      rw [blockOf_addInst_ne s h bb hne2]
      exact hext.hblocks_old bb hne hlt
    · intro bb x h1 h2
      rcases blockOf_addInst_cases s h bb with hc | ⟨hc, hbbc⟩
      · rw [hc] at h1
        exact hext.hblocks_new bb x h1 h2
      · rw [hc] at h1
        rcases List.mem_append.mp h1 with hm | hm
        · exact hext.hblocks_new bb x hm h2
        · simp at hm
          subst hm
          subst hbbc
          exact ⟨⟨hlo, hhi⟩, hext.hcur⟩
    · intro bb hk
      rw [blockKeys_addInst]
      exact hext.hkeys bb hk
  · refine ⟨hwf.dfgKeysLt, hwf.dfgTargetsLt, ?_, ?_, hwf.curBBLt, ?_⟩
    · intro p hp
      simp only [GenState.addInst] at hp
      obtain ⟨q, hq, hpq⟩ := List.mem_map.mp hp
      have hql := hwf.blockKeysLt q hq
      show p.1 < s.nextBB
      by_cases hc : q.1 = s.curBB
      · rw [if_pos hc] at hpq
        subst hpq
        exact hql
      · rw [if_neg hc] at hpq
        subst hpq
        exact hql
    · intro p hp x hx
      simp only [GenState.addInst] at hp
      obtain ⟨q, hq, hpq⟩ := List.mem_map.mp hp
      show x < s.nextValue
      by_cases hc : q.1 = s.curBB
      · rw [if_pos hc] at hpq
        subst hpq
        simp only at hx
        rcases List.mem_append.mp hx with hm | hm
        · exact hwf.blockHandlesLt q hq x hm
        · simp at hm
          omega
      · rw [if_neg hc] at hpq
        subst hpq
        exact hwf.blockHandlesLt q hq x hx
    · show (assocGet (s.addInst h).blockInsts s.curBB).isSome = true
      rw [blockKeys_addInst]
      exact hwf.curBBSome


theorem ext_step_createBlock (st s : GenState) (name : String)
    (hext : GenExtends st s) (hwf : WFGen s) :
    GenExtends st (s.createBlock name).2 ∧ WFGen (s.createBlock name).2 := by
  have hnb : (s.createBlock name).2.nextBB = s.nextBB + 1 := rfl
  constructor
  · refine ⟨hext.hval, ?_, fun x hx => hext.hdfg_old x hx, ?_, ?_, ?_, ?_, ?_⟩
    · rw [hnb]
      have := hext.hbb
      omega
    · intro x k hk hge t ht
      have := hext.hdfg_new x k hk hge t ht
      rw [hnb]
      exact ⟨this.1, by omega⟩
    · intro bb hne hlt
      rw [blockOf_createBlock_old s name bb (by have := hext.hbb; omega)]
      exact hext.hblocks_old bb hne hlt
    · intro bb x h1 h2
      rcases blockOf_createBlock_cases s name bb with hc | hc
      · rw [hc] at h1
        have := hext.hblocks_new bb x h1 h2
        refine ⟨this.1, ?_⟩
        rcases this.2 with h | h
        · exact .inl h
        · exact .inr ⟨h.1, by rw [hnb]; omega⟩
      · rw [hc] at h1
        simp at h1
    · intro bb hk
      exact blockKeys_createBlock_mono s name bb (hext.hkeys bb hk)
    · rcases hext.hcur with h | h
      · exact .inl h
      · exact .inr ⟨h.1, by rw [hnb, show (s.createBlock name).2.curBB = s.curBB from rfl]; omega⟩
  · refine ⟨hwf.dfgKeysLt, ?_, ?_, ?_, ?_, ?_⟩
    · intro p hp t ht
      have := hwf.dfgTargetsLt p hp t ht
      rw [hnb]
      omega
    · intro p hp
      rw [hnb]
      simp only [GenState.createBlock] at hp
      rcases List.mem_append.mp hp with hm | hm
      · have := hwf.blockKeysLt p hm
        omega
      · simp at hm
        subst hm
        show s.nextBB < s.nextBB + 1
        omega
    · intro p hp x hx
      simp only [GenState.createBlock] at hp
      rcases List.mem_append.mp hp with hm | hm
      · exact hwf.blockHandlesLt p hm x hx
      · simp at hm
        subst hm
        simp at hx
    · rw [hnb, show (s.createBlock name).2.curBB = s.curBB from rfl]
      have := hwf.curBBLt
      omega
    · show (assocGet (s.createBlock name).2.blockInsts s.curBB).isSome = true
      exact blockKeys_createBlock_mono s name s.curBB hwf.curBBSome

theorem ext_step_enterBB (st s : GenState) (bb : Nat)
    (hext : GenExtends st s) (hwf : WFGen s)
    (hloc : bb = st.curBB ∨ (st.nextBB ≤ bb ∧ bb < s.nextBB))
    (hlt : bb < s.nextBB)
    (hsome : (assocGet s.blockInsts bb).isSome = true) :
    GenExtends st (s.enterBB bb) ∧ WFGen (s.enterBB bb) := by
  constructor
  · exact ⟨hext.hval, hext.hbb, fun x hx => hext.hdfg_old x hx,
      fun x k hk => hext.hdfg_new x k hk, fun b hne hl => hext.hblocks_old b hne hl,
      fun b x h1 h2 => hext.hblocks_new b x h1 h2, fun b hk => hext.hkeys b hk, hloc⟩
  · exact ⟨hwf.dfgKeysLt, hwf.dfgTargetsLt, hwf.blockKeysLt, hwf.blockHandlesLt,
      hlt, hsome⟩

theorem ext_step_genName (st s : GenState) (pfx : String)
    (hext : GenExtends st s) (hwf : WFGen s) :
    GenExtends st (s.genName pfx).2 ∧ WFGen (s.genName pfx).2 := by
  constructor
  · exact ⟨hext.hval, hext.hbb, fun x hx => hext.hdfg_old x hx,
      fun x k hk => hext.hdfg_new x k hk, fun b hne hl => hext.hblocks_old b hne hl,
      fun b x h1 h2 => hext.hblocks_new b x h1 h2, fun b hk => hext.hkeys b hk,
      hext.hcur⟩
  · exact ⟨hwf.dfgKeysLt, hwf.dfgTargetsLt, hwf.blockKeysLt, hwf.blockHandlesLt,
      hwf.curBBLt, hwf.curBBSome⟩


/-! ## C4 — the entry/guard fragments are instances of the generic ones -/

theorem landEntry_eq (st : GenState) : landEntry st = genEntry 0 st := rfl

theorem lorEntry_eq (st : GenState) : lorEntry st = genEntry 1 st := rfl

theorem landGuard_eq (s : GenState) (lv : Nat) :
    landGuard s lv = genGuard .notEq "%logical_and_branch" "%logical_and_merge" s lv := rfl

theorem lorGuard_eq (s : GenState) (lv : Nat) :
    lorGuard s lv = genGuard .eq "%logical_or_branch" "%logical_or_merge" s lv := rfl

theorem genEntry_fst (c : Int) (st : GenState) : (genEntry c st).1 = st.nextValue := rfl

theorem genEntry_nextValue (c : Int) (st : GenState) :
    (genEntry c st).2.nextValue = st.nextValue + 3 := rfl

theorem genEntry_nextBB (c : Int) (st : GenState) :
    (genEntry c st).2.nextBB = st.nextBB := rfl

theorem genEntry_curBB (c : Int) (st : GenState) :
    (genEntry c st).2.curBB = st.curBB := rfl

theorem genEntry_dfg (c : Int) (st : GenState) :
    (genEntry c st).2.dfg =
      (st.nextValue + 2, .store (st.nextValue + 1) st.nextValue) ::
      (st.nextValue + 1, .integer c) :: (st.nextValue, .alloc) :: st.dfg := rfl

theorem genGuard_fst (gop : IRBinaryOp) (nm1 nm2 : String) (s : GenState) (lv : Nat) :
    (genGuard gop nm1 nm2 s lv).1 = s.nextValue + 1 := rfl

theorem genGuard_bbBranch (gop : IRBinaryOp) (nm1 nm2 : String) (s : GenState) (lv : Nat) :
    (genGuard gop nm1 nm2 s lv).2.1 = s.nextBB := rfl

theorem genGuard_bbMerge (gop : IRBinaryOp) (nm1 nm2 : String) (s : GenState) (lv : Nat) :
    (genGuard gop nm1 nm2 s lv).2.2.1 = s.nextBB + 1 := rfl

theorem genGuard_nextValue (gop : IRBinaryOp) (nm1 nm2 : String) (s : GenState) (lv : Nat) :
    (genGuard gop nm1 nm2 s lv).2.2.2.nextValue = s.nextValue + 3 := rfl

theorem genGuard_nextBB (gop : IRBinaryOp) (nm1 nm2 : String) (s : GenState) (lv : Nat) :
    (genGuard gop nm1 nm2 s lv).2.2.2.nextBB = s.nextBB + 2 := rfl

theorem genGuard_curBB (gop : IRBinaryOp) (nm1 nm2 : String) (s : GenState) (lv : Nat) :
    (genGuard gop nm1 nm2 s lv).2.2.2.curBB = s.nextBB := rfl

theorem genGuard_dfg (gop : IRBinaryOp) (nm1 nm2 : String) (s : GenState) (lv : Nat) :
    (genGuard gop nm1 nm2 s lv).2.2.2.dfg =
      (s.nextValue + 2, .branch (s.nextValue + 1) s.nextBB (s.nextBB + 1)) ::
      (s.nextValue + 1, .binary gop lv s.nextValue) ::
      (s.nextValue, .integer 0) :: s.dfg := rfl

theorem genGuard_blockInsts (gop : IRBinaryOp) (nm1 nm2 : String) (s : GenState) (lv : Nat) :
    (genGuard gop nm1 nm2 s lv).2.2.2.blockInsts =
      ((s.blockInsts.map
          (fun (p : Nat × List Nat) =>
            if p.1 = s.curBB then (p.1, p.2 ++ [s.nextValue + 1]) else p)
        ++ [(s.nextBB, [])] ++ [(s.nextBB + 1, [])]).map
          (fun (p : Nat × List Nat) =>
            if p.1 = s.curBB then (p.1, p.2 ++ [s.nextValue + 2]) else p)) := rfl

theorem scClose_fst (s : GenState) (rv res bm : Nat) :
    (scClose s rv res bm).1 = s.nextValue + 4 := rfl

theorem scClose_nextValue (s : GenState) (rv res bm : Nat) :
    (scClose s rv res bm).2.nextValue = s.nextValue + 5 := rfl

theorem scClose_nextBB (s : GenState) (rv res bm : Nat) :
    (scClose s rv res bm).2.nextBB = s.nextBB := rfl

theorem scClose_curBB (s : GenState) (rv res bm : Nat) :
    (scClose s rv res bm).2.curBB = bm := rfl

theorem scClose_dfg (s : GenState) (rv res bm : Nat) :
    (scClose s rv res bm).2.dfg =
      (s.nextValue + 4, .load res) :: (s.nextValue + 3, .jump bm) ::
      (s.nextValue + 2, .store (s.nextValue + 1) res) ::
      (s.nextValue + 1, .binary .notEq rv s.nextValue) ::
      (s.nextValue, .integer 0) :: s.dfg := rfl


/-! ## C4 — dataflow lookups across the fragments -/

theorem genEntry_dfgGet_old (c : Int) (st : GenState) (h : Nat)
    (hh : h < st.nextValue) : (genEntry c st).2.dfgGet h = st.dfgGet h := by
  unfold GenState.dfgGet
  rw [genEntry_dfg, assocGet_cons_ne _ _ _ _ (by omega), assocGet_cons_ne _ _ _ _ (by omega),
    assocGet_cons_ne _ _ _ _ (by omega)]

theorem genEntry_dfgGet_result (c : Int) (st : GenState) :
    (genEntry c st).2.dfgGet st.nextValue = some .alloc := by
  unfold GenState.dfgGet
  rw [genEntry_dfg, assocGet_cons_ne _ _ _ _ (by omega), assocGet_cons_ne _ _ _ _ (by omega),
    assocGet_cons_self]

theorem genEntry_dfgGet_init (c : Int) (st : GenState) :
    (genEntry c st).2.dfgGet (st.nextValue + 1) = some (.integer c) := by
  unfold GenState.dfgGet
  rw [genEntry_dfg, assocGet_cons_ne _ _ _ _ (by omega), assocGet_cons_self]

theorem genEntry_dfgGet_store (c : Int) (st : GenState) :
    (genEntry c st).2.dfgGet (st.nextValue + 2) =
      some (.store (st.nextValue + 1) st.nextValue) := by
  unfold GenState.dfgGet
  rw [genEntry_dfg, assocGet_cons_self]

theorem genEntry_dfgGet_cases (c : Int) (st : GenState) (h : Nat) (k : IRValueKind)
    (hk : (genEntry c st).2.dfgGet h = some k) :
    st.dfgGet h = some k ∨ (h = st.nextValue ∧ k = .alloc) ∨
    (h = st.nextValue + 1 ∧ k = .integer c) ∨
    (h = st.nextValue + 2 ∧ k = .store (st.nextValue + 1) st.nextValue) := by
  unfold GenState.dfgGet at hk
  rw [genEntry_dfg] at hk
  by_cases h2 : st.nextValue + 2 = h
  · subst h2
    rw [assocGet_cons_self] at hk
    simp only [Option.some.injEq] at hk
    exact .inr (.inr (.inr ⟨rfl, hk.symm⟩))
  · rw [assocGet_cons_ne _ _ _ _ h2] at hk
    by_cases h1 : st.nextValue + 1 = h
    · subst h1
      rw [assocGet_cons_self] at hk
      simp only [Option.some.injEq] at hk
      exact .inr (.inr (.inl ⟨rfl, hk.symm⟩))
    · rw [assocGet_cons_ne _ _ _ _ h1] at hk
      by_cases h0 : st.nextValue = h
      · subst h0
        rw [assocGet_cons_self] at hk
        simp only [Option.some.injEq] at hk
        exact .inr (.inl ⟨rfl, hk.symm⟩)
      · rw [assocGet_cons_ne _ _ _ _ h0] at hk
        exact .inl hk

theorem genGuard_dfgGet_old (gop : IRBinaryOp) (nm1 nm2 : String) (s : GenState)
    (lv h : Nat) (hh : h < s.nextValue) :
    (genGuard gop nm1 nm2 s lv).2.2.2.dfgGet h = s.dfgGet h := by
  unfold GenState.dfgGet
  rw [genGuard_dfg, assocGet_cons_ne _ _ _ _ (by omega), assocGet_cons_ne _ _ _ _ (by omega),
    assocGet_cons_ne _ _ _ _ (by omega)]

theorem genGuard_dfgGet_zero (gop : IRBinaryOp) (nm1 nm2 : String) (s : GenState) (lv : Nat) :
    (genGuard gop nm1 nm2 s lv).2.2.2.dfgGet s.nextValue = some (.integer 0) := by
  unfold GenState.dfgGet
  rw [genGuard_dfg, assocGet_cons_ne _ _ _ _ (by omega), assocGet_cons_ne _ _ _ _ (by omega),
    assocGet_cons_self]

theorem genGuard_dfgGet_guard (gop : IRBinaryOp) (nm1 nm2 : String) (s : GenState) (lv : Nat) :
    (genGuard gop nm1 nm2 s lv).2.2.2.dfgGet (s.nextValue + 1) =
      some (.binary gop lv s.nextValue) := by
  unfold GenState.dfgGet
  rw [genGuard_dfg, assocGet_cons_ne _ _ _ _ (by omega), assocGet_cons_self]

theorem genGuard_dfgGet_branch (gop : IRBinaryOp) (nm1 nm2 : String) (s : GenState) (lv : Nat) :
    (genGuard gop nm1 nm2 s lv).2.2.2.dfgGet (s.nextValue + 2) =
      some (.branch (s.nextValue + 1) s.nextBB (s.nextBB + 1)) := by
  unfold GenState.dfgGet
  rw [genGuard_dfg, assocGet_cons_self]

theorem genGuard_dfgGet_cases (gop : IRBinaryOp) (nm1 nm2 : String) (s : GenState)
    (lv h : Nat) (k : IRValueKind)
    (hk : (genGuard gop nm1 nm2 s lv).2.2.2.dfgGet h = some k) :
    s.dfgGet h = some k ∨ (h = s.nextValue ∧ k = .integer 0) ∨
    (h = s.nextValue + 1 ∧ k = .binary gop lv s.nextValue) ∨
    (h = s.nextValue + 2 ∧ k = .branch (s.nextValue + 1) s.nextBB (s.nextBB + 1)) := by
  unfold GenState.dfgGet at hk
  rw [genGuard_dfg] at hk
  by_cases h2 : s.nextValue + 2 = h
  · subst h2
    rw [assocGet_cons_self] at hk
    simp only [Option.some.injEq] at hk
    exact .inr (.inr (.inr ⟨rfl, hk.symm⟩))
  · rw [assocGet_cons_ne _ _ _ _ h2] at hk
    by_cases h1 : s.nextValue + 1 = h
    · subst h1
      rw [assocGet_cons_self] at hk
      simp only [Option.some.injEq] at hk
      exact .inr (.inr (.inl ⟨rfl, hk.symm⟩))
    · rw [assocGet_cons_ne _ _ _ _ h1] at hk
      by_cases h0 : s.nextValue = h
      · subst h0
        rw [assocGet_cons_self] at hk
        simp only [Option.some.injEq] at hk
        exact .inr (.inl ⟨rfl, hk.symm⟩)
      · rw [assocGet_cons_ne _ _ _ _ h0] at hk
        exact .inl hk

theorem scClose_dfgGet_old (s : GenState) (rv res bm h : Nat) (hh : h < s.nextValue) :
    (scClose s rv res bm).2.dfgGet h = s.dfgGet h := by
  unfold GenState.dfgGet
  rw [scClose_dfg, assocGet_cons_ne _ _ _ _ (by omega), assocGet_cons_ne _ _ _ _ (by omega),
    assocGet_cons_ne _ _ _ _ (by omega), assocGet_cons_ne _ _ _ _ (by omega),
    assocGet_cons_ne _ _ _ _ (by omega)]

theorem scClose_dfgGet_load (s : GenState) (rv res bm : Nat) :
    (scClose s rv res bm).2.dfgGet (s.nextValue + 4) = some (.load res) := by
  unfold GenState.dfgGet
  rw [scClose_dfg, assocGet_cons_self]

theorem scClose_dfgGet_cases (s : GenState) (rv res bm h : Nat) (k : IRValueKind)
    (hk : (scClose s rv res bm).2.dfgGet h = some k) :
    s.dfgGet h = some k ∨ (h = s.nextValue ∧ k = .integer 0) ∨
    (h = s.nextValue + 1 ∧ k = .binary .notEq rv s.nextValue) ∨
    (h = s.nextValue + 2 ∧ k = .store (s.nextValue + 1) res) ∨
    (h = s.nextValue + 3 ∧ k = .jump bm) ∨
    (h = s.nextValue + 4 ∧ k = .load res) := by
  unfold GenState.dfgGet at hk
  rw [scClose_dfg] at hk
  by_cases h4 : s.nextValue + 4 = h
  · subst h4
    rw [assocGet_cons_self] at hk
    simp only [Option.some.injEq] at hk
    exact .inr (.inr (.inr (.inr (.inr ⟨rfl, hk.symm⟩))))
  · rw [assocGet_cons_ne _ _ _ _ h4] at hk
    by_cases h3 : s.nextValue + 3 = h
    · subst h3
      rw [assocGet_cons_self] at hk
      simp only [Option.some.injEq] at hk
      exact .inr (.inr (.inr (.inr (.inl ⟨rfl, hk.symm⟩))))
    · rw [assocGet_cons_ne _ _ _ _ h3] at hk
      by_cases h2 : s.nextValue + 2 = h
      · subst h2
        rw [assocGet_cons_self] at hk
        simp only [Option.some.injEq] at hk
        exact .inr (.inr (.inr (.inl ⟨rfl, hk.symm⟩)))
      · rw [assocGet_cons_ne _ _ _ _ h2] at hk
        by_cases h1 : s.nextValue + 1 = h
        · subst h1
          rw [assocGet_cons_self] at hk
          simp only [Option.some.injEq] at hk
          exact .inr (.inr (.inl ⟨rfl, hk.symm⟩))
        · rw [assocGet_cons_ne _ _ _ _ h1] at hk
          by_cases h0 : s.nextValue = h
          · subst h0
            rw [assocGet_cons_self] at hk
            simp only [Option.some.injEq] at hk
            exact .inr (.inl ⟨rfl, hk.symm⟩)
          · rw [assocGet_cons_ne _ _ _ _ h0] at hk
            exact .inl hk


/-! ## C4 — block contents across the fragments -/

theorem mem_blockOf_addInst (s : GenState) (v bb h : Nat)
    (hm : h ∈ (s.addInst v).blockOf bb) : h ∈ s.blockOf bb ∨ h = v := by
  rcases blockOf_addInst_cases s v bb with hc | ⟨hc, _⟩
  · rw [hc] at hm
    exact .inl hm
  · rw [hc] at hm
    rcases List.mem_append.mp hm with hm | hm
    · exact .inl hm
    · simp at hm
      exact .inr hm

theorem scClose_blockInsts (s : GenState) (rv res bm : Nat) :
    (scClose s rv res bm).2.blockInsts =
      (((s.blockInsts.map
          (fun (p : Nat × List Nat) =>
            if p.1 = s.curBB then (p.1, p.2 ++ [s.nextValue + 1]) else p)).map
          (fun (p : Nat × List Nat) =>
            if p.1 = s.curBB then (p.1, p.2 ++ [s.nextValue + 2]) else p)).map
          (fun (p : Nat × List Nat) =>
            if p.1 = s.curBB then (p.1, p.2 ++ [s.nextValue + 3]) else p)).map
          (fun (p : Nat × List Nat) =>
            if p.1 = bm then (p.1, p.2 ++ [s.nextValue + 4]) else p) := rfl

theorem genGuard_blockOf_cur (gop : IRBinaryOp) (nm1 nm2 : String) (s : GenState)
    (lv : Nat) (hwf : WFGen s) :
    (genGuard gop nm1 nm2 s lv).2.2.2.blockOf s.curBB =
      s.blockOf s.curBB ++ [s.nextValue + 1, s.nextValue + 2] := by
  obtain ⟨l, hl⟩ := Option.isSome_iff_exists.mp hwf.curBBSome
  have hA : assocGet (s.blockInsts.map
      (fun (p : Nat × List Nat) =>
        if p.1 = s.curBB then (p.1, p.2 ++ [s.nextValue + 1]) else p)) s.curBB =
      some (l ++ [s.nextValue + 1]) := by
    rw [assocGet_map_append, if_pos rfl, hl]
    rfl
  have hAB : assocGet (s.blockInsts.map
      (fun (p : Nat × List Nat) =>
        if p.1 = s.curBB then (p.1, p.2 ++ [s.nextValue + 1]) else p)
      ++ [(s.nextBB, [])]) s.curBB = some (l ++ [s.nextValue + 1]) := by
    rw [assocGet_append, hA]
  have hABC : assocGet ((s.blockInsts.map
      (fun (p : Nat × List Nat) =>
        if p.1 = s.curBB then (p.1, p.2 ++ [s.nextValue + 1]) else p)
      ++ [(s.nextBB, [])]) ++ [(s.nextBB + 1, [])]) s.curBB =
      some (l ++ [s.nextValue + 1]) := by
    rw [assocGet_append, hAB]
  unfold GenState.blockOf
  rw [genGuard_blockInsts, assocGet_map_append, if_pos rfl, hABC, hl]
  simp [List.append_assoc]

theorem genGuard_assocGet_bbBranch (gop : IRBinaryOp) (nm1 nm2 : String) (s : GenState)
    (lv : Nat) (hwf : WFGen s) :
    assocGet (genGuard gop nm1 nm2 s lv).2.2.2.blockInsts s.nextBB = some [] := by
  have hcne : ¬ s.nextBB = s.curBB := by have := hwf.curBBLt; omega
  have hnone : assocGet s.blockInsts s.nextBB =
      (none : Option (List Nat)) :=
    assocGet_eq_none_of_lt _ _ _ hwf.blockKeysLt (le_refl _)
  have hA : assocGet (s.blockInsts.map
      (fun (p : Nat × List Nat) =>
        if p.1 = s.curBB then (p.1, p.2 ++ [s.nextValue + 1]) else p)) s.nextBB =
      (none : Option (List Nat)) := by
    rw [assocGet_map_append, if_neg hcne, hnone]
  have hAB : assocGet (s.blockInsts.map
      (fun (p : Nat × List Nat) =>
        if p.1 = s.curBB then (p.1, p.2 ++ [s.nextValue + 1]) else p)
      ++ [(s.nextBB, [])]) s.nextBB = some [] := by
    rw [assocGet_append, hA]
    show assocGet [(s.nextBB, ([] : List Nat))] s.nextBB = some []
    exact assocGet_cons_self _ _ _
  have hABC : assocGet ((s.blockInsts.map
      (fun (p : Nat × List Nat) =>
        if p.1 = s.curBB then (p.1, p.2 ++ [s.nextValue + 1]) else p)
      ++ [(s.nextBB, [])]) ++ [(s.nextBB + 1, [])]) s.nextBB = some [] := by
    rw [assocGet_append, hAB]
  rw [genGuard_blockInsts, assocGet_map_append, if_neg hcne, hABC]

theorem genGuard_assocGet_bbMerge (gop : IRBinaryOp) (nm1 nm2 : String) (s : GenState)
    (lv : Nat) (hwf : WFGen s) :
    assocGet (genGuard gop nm1 nm2 s lv).2.2.2.blockInsts (s.nextBB + 1) = some [] := by
  have hcne : ¬ s.nextBB + 1 = s.curBB := by have := hwf.curBBLt; omega
  have hnone : assocGet s.blockInsts (s.nextBB + 1) =
      (none : Option (List Nat)) :=
    assocGet_eq_none_of_lt _ _ _ hwf.blockKeysLt (by omega)
  have hA : assocGet (s.blockInsts.map
      (fun (p : Nat × List Nat) =>
        if p.1 = s.curBB then (p.1, p.2 ++ [s.nextValue + 1]) else p)) (s.nextBB + 1) =
      (none : Option (List Nat)) := by
    rw [assocGet_map_append, if_neg hcne, hnone]
  have hAB : assocGet (s.blockInsts.map
      (fun (p : Nat × List Nat) =>
        if p.1 = s.curBB then (p.1, p.2 ++ [s.nextValue + 1]) else p)
      ++ [(s.nextBB, [])]) (s.nextBB + 1) = (none : Option (List Nat)) := by
    rw [assocGet_append, hA]
    show assocGet [(s.nextBB, ([] : List Nat))] (s.nextBB + 1) = none
    rw [assocGet_cons_ne _ _ _ _ (by omega)]
    rfl
  have hABC : assocGet ((s.blockInsts.map
      (fun (p : Nat × List Nat) =>
        if p.1 = s.curBB then (p.1, p.2 ++ [s.nextValue + 1]) else p)
      ++ [(s.nextBB, [])]) ++ [(s.nextBB + 1, [])]) (s.nextBB + 1) = some [] := by
    rw [assocGet_append, hAB]
    show assocGet [(s.nextBB + 1, ([] : List Nat))] (s.nextBB + 1) = some []
    exact assocGet_cons_self _ _ _
  rw [genGuard_blockInsts, assocGet_map_append, if_neg hcne, hABC]

theorem genGuard_blockOf_bbBranch (gop : IRBinaryOp) (nm1 nm2 : String) (s : GenState)
    (lv : Nat) (hwf : WFGen s) :
    (genGuard gop nm1 nm2 s lv).2.2.2.blockOf s.nextBB = [] := by
  unfold GenState.blockOf
  rw [genGuard_assocGet_bbBranch gop nm1 nm2 s lv hwf]
  rfl

theorem genGuard_blockOf_bbMerge (gop : IRBinaryOp) (nm1 nm2 : String) (s : GenState)
    (lv : Nat) (hwf : WFGen s) :
    (genGuard gop nm1 nm2 s lv).2.2.2.blockOf (s.nextBB + 1) = [] := by
  unfold GenState.blockOf
  rw [genGuard_assocGet_bbMerge gop nm1 nm2 s lv hwf]
  rfl

theorem scClose_blockOf_other (s : GenState) (rv res bm bb : Nat)
    (h1 : ¬ bb = s.curBB) (h2 : ¬ bb = bm) :
    (scClose s rv res bm).2.blockOf bb = s.blockOf bb := by
  unfold GenState.blockOf
  rw [scClose_blockInsts, assocGet_map_append, if_neg h2, assocGet_map_append,
    if_neg h1, assocGet_map_append, if_neg h1, assocGet_map_append, if_neg h1]

theorem scClose_blockOf_merge (s : GenState) (rv res bm : Nat)
    (hne : ¬ bm = s.curBB) (hsome : (assocGet s.blockInsts bm).isSome = true) :
    (scClose s rv res bm).2.blockOf bm = s.blockOf bm ++ [s.nextValue + 4] := by
  obtain ⟨l, hl⟩ := Option.isSome_iff_exists.mp hsome
  unfold GenState.blockOf
  rw [scClose_blockInsts, assocGet_map_append, if_pos rfl, assocGet_map_append,
    if_neg hne, assocGet_map_append, if_neg hne, assocGet_map_append, if_neg hne, hl]
  rfl

theorem scClose_mem_blockOf (s : GenState) (rv res bm bb h : Nat)
    (hmem : h ∈ (scClose s rv res bm).2.blockOf bb) :
    h ∈ s.blockOf bb ∨ s.nextValue ≤ h := by
  unfold GenState.blockOf at hmem ⊢
  rw [scClose_blockInsts, assocGet_map_append] at hmem
  by_cases hbm : bb = bm
  · rw [if_pos hbm, assocGet_map_append] at hmem
    by_cases hcur : bb = s.curBB
    · rw [if_pos hcur, assocGet_map_append, if_pos hcur, assocGet_map_append,
        if_pos hcur] at hmem
      cases hbase : assocGet s.blockInsts bb with
      | none =>
        rw [hbase] at hmem
        simp at hmem
      | some l =>
        rw [hbase] at hmem
        simp only [Option.map_some', Option.getD_some, List.append_assoc,
          List.mem_append, List.mem_singleton] at hmem
        simp only [Option.getD_some]
        rcases hmem with hm | hm | hm | hm | hm
        · exact .inl hm
        · exact .inr (by omega)
        · exact .inr (by omega)
        · exact .inr (by omega)
        · exact .inr (by omega)
    · rw [if_neg hcur, assocGet_map_append, if_neg hcur, assocGet_map_append,
        if_neg hcur] at hmem
      cases hbase : assocGet s.blockInsts bb with
      | none =>
        rw [hbase] at hmem
        simp at hmem
      | some l =>
        rw [hbase] at hmem
        simp only [Option.map_some', Option.getD_some, List.append_assoc,
          List.mem_append, List.mem_singleton] at hmem
        simp only [Option.getD_some]
        rcases hmem with hm | hm
        · exact .inl hm
        · exact .inr (by omega)
  · rw [if_neg hbm, assocGet_map_append] at hmem
    by_cases hcur : bb = s.curBB
    · rw [if_pos hcur, assocGet_map_append, if_pos hcur, assocGet_map_append,
        if_pos hcur] at hmem
      cases hbase : assocGet s.blockInsts bb with
      | none =>
        rw [hbase] at hmem
        simp at hmem
      | some l =>
        rw [hbase] at hmem
        simp only [Option.map_some', Option.getD_some, List.append_assoc,
          List.mem_append, List.mem_singleton] at hmem
        simp only [Option.getD_some]
        rcases hmem with hm | hm | hm | hm
        · exact .inl hm
        · exact .inr (by omega)
        · exact .inr (by omega)
        · exact .inr (by omega)
    · rw [if_neg hcur, assocGet_map_append, if_neg hcur, assocGet_map_append,
        if_neg hcur] at hmem
      exact .inl hmem



/-! ## C4 — extension facts for the fragments -/

theorem assocGet_map_append_isSome (l : List (Nat × List Nat)) (k k' v : Nat) :
    (assocGet (l.map (fun p => if p.1 = k then (p.1, p.2 ++ [v]) else p)) k').isSome =
      (assocGet l k').isSome := by
  rw [assocGet_map_append]
  by_cases h : k' = k
  · rw [if_pos h]
    cases assocGet l k' <;> rfl
  · rw [if_neg h]

theorem genEntry_ext (c : Int) (base s : GenState)
    (hext : GenExtends base s) (hwf : WFGen s) :
    GenExtends base (genEntry c s).2 ∧ WFGen (genEntry c s).2 := by
  obtain ⟨e1, w1⟩ := ext_step_newValue base s .alloc hext hwf
    (by intro t ht; simp [kindTargets] at ht)
  obtain ⟨e2, w2⟩ := ext_step_addInst base _ s.nextValue e1 w1 hext.hval
    (by exact Nat.lt_succ_self _)
  obtain ⟨e3, w3⟩ := ext_step_newValue base _ (.integer c) e2 w2
    (by intro t ht; simp [kindTargets] at ht)
  obtain ⟨e4, w4⟩ := ext_step_newValue base _ (.store (s.nextValue + 1) s.nextValue) e3 w3
    (by intro t ht; simp [kindTargets] at ht)
  exact ext_step_addInst base _ (s.nextValue + 2) e4 w4
    (by have := hext.hval; omega)
    (by show s.nextValue + 2 < s.nextValue + 3; omega)

theorem genGuard_ext (gop : IRBinaryOp) (nm1 nm2 : String) (base s : GenState) (lv : Nat)
    (hext : GenExtends base s) (hwf : WFGen s) :
    GenExtends base (genGuard gop nm1 nm2 s lv).2.2.2 ∧
      WFGen (genGuard gop nm1 nm2 s lv).2.2.2 := by
  obtain ⟨e1, w1⟩ := ext_step_newValue base s (.integer 0) hext hwf
    (by intro t ht; simp [kindTargets] at ht)
  obtain ⟨e2, w2⟩ := ext_step_newValue base _ (.binary gop lv s.nextValue) e1 w1
    (by intro t ht; simp [kindTargets] at ht)
  obtain ⟨e3, w3⟩ := ext_step_addInst base _ (s.nextValue + 1) e2 w2
    (by have := hext.hval; omega)
    (by show s.nextValue + 1 < s.nextValue + 2; omega)
  obtain ⟨e4, w4⟩ := ext_step_genName base _ nm1 e3 w3
  obtain ⟨e5, w5⟩ := ext_step_createBlock base _ (nm1 ++ Nat.repr s.nameCounter) e4 w4
  obtain ⟨e6, w6⟩ := ext_step_genName base _ nm2 e5 w5
  obtain ⟨e7, w7⟩ := ext_step_createBlock base _ (nm2 ++ Nat.repr (s.nameCounter + 1)) e6 w6
  obtain ⟨e8, w8⟩ := ext_step_newValue base _
    (.branch (s.nextValue + 1) s.nextBB (s.nextBB + 1)) e7 w7
    (by
      intro t ht
      have hb := hext.hbb
      simp only [kindTargets, List.mem_cons, List.mem_singleton] at ht
      show base.nextBB ≤ t ∧ t < s.nextBB + 2
      rcases ht with rfl | ht
      · omega
      · simp at ht
        omega)
  obtain ⟨e9, w9⟩ := ext_step_addInst base _ (s.nextValue + 2) e8 w8
    (by have := hext.hval; omega)
    (by show s.nextValue + 2 < s.nextValue + 3; omega)
  exact ext_step_enterBB base _ s.nextBB e9 w9
    (Or.inr ⟨hext.hbb, by show s.nextBB < s.nextBB + 2; omega⟩)
    (by show s.nextBB < s.nextBB + 2; omega)
    (by
      show (assocGet (genGuard gop nm1 nm2 s lv).2.2.2.blockInsts s.nextBB).isSome = true
      rw [genGuard_assocGet_bbBranch gop nm1 nm2 s lv hwf]
      rfl)

theorem scClose_ext (base s : GenState) (rv res bm : Nat)
    (hext : GenExtends base s) (hwf : WFGen s)
    (hbm1 : base.nextBB ≤ bm) (hbm2 : bm < s.nextBB)
    (hkey : (assocGet s.blockInsts bm).isSome = true) :
    GenExtends base (scClose s rv res bm).2 ∧ WFGen (scClose s rv res bm).2 := by
  obtain ⟨e1, w1⟩ := ext_step_newValue base s (.integer 0) hext hwf
    (by intro t ht; simp [kindTargets] at ht)
  obtain ⟨e2, w2⟩ := ext_step_newValue base _ (.binary .notEq rv s.nextValue) e1 w1
    (by intro t ht; simp [kindTargets] at ht)
  obtain ⟨e3, w3⟩ := ext_step_addInst base _ (s.nextValue + 1) e2 w2
    (by have := hext.hval; omega)
    (by show s.nextValue + 1 < s.nextValue + 2; omega)
  obtain ⟨e4, w4⟩ := ext_step_newValue base _ (.store (s.nextValue + 1) res) e3 w3
    (by intro t ht; simp [kindTargets] at ht)
  obtain ⟨e5, w5⟩ := ext_step_addInst base _ (s.nextValue + 2) e4 w4
    (by have := hext.hval; omega)
    (by show s.nextValue + 2 < s.nextValue + 3; omega)
  obtain ⟨e6, w6⟩ := ext_step_newValue base _ (.jump bm) e5 w5
    (by
      intro t ht
      simp only [kindTargets, List.mem_singleton] at ht
      show base.nextBB ≤ t ∧ t < s.nextBB
      rw [ht]
      exact ⟨hbm1, hbm2⟩)
  obtain ⟨e7, w7⟩ := ext_step_addInst base _ (s.nextValue + 3) e6 w6
    (by have := hext.hval; omega)
    (by show s.nextValue + 3 < s.nextValue + 4; omega)
  have hsome7 : (assocGet
      (((s.blockInsts.map
        (fun (p : Nat × List Nat) =>
          if p.1 = s.curBB then (p.1, p.2 ++ [s.nextValue + 1]) else p)).map
        (fun (p : Nat × List Nat) =>
          if p.1 = s.curBB then (p.1, p.2 ++ [s.nextValue + 2]) else p)).map
        (fun (p : Nat × List Nat) =>
          if p.1 = s.curBB then (p.1, p.2 ++ [s.nextValue + 3]) else p)) bm).isSome =
      true := by
    rw [assocGet_map_append_isSome, assocGet_map_append_isSome, assocGet_map_append_isSome]
    exact hkey
  obtain ⟨e8, w8⟩ := ext_step_enterBB base _ bm e7 w7
    (Or.inr ⟨hbm1, by show bm < s.nextBB; exact hbm2⟩)
    (by show bm < s.nextBB; exact hbm2)
    hsome7
  obtain ⟨e9, w9⟩ := ext_step_newValue base _ (.load res) e8 w8
    (by intro t ht; simp [kindTargets] at ht)
  exact ext_step_addInst base _ (s.nextValue + 4) e9 w9
    (by have := hext.hval; omega)
    (by show s.nextValue + 4 < s.nextValue + 5; omega)


/-! ## C4 — every expression lowering extends the state and preserves
well-formedness -/

theorem simpleFinish_ext (base s : GenState) (k : IRValueKind)
    (hk : kindTargets k = []) (hext : GenExtends base s) (hwf : WFGen s) :
    GenExtends base ((s.newValue k).2.addInst s.nextValue) ∧
      WFGen ((s.newValue k).2.addInst s.nextValue) := by
  obtain ⟨e1, w1⟩ := ext_step_newValue base s k hext hwf
    (by intro t ht; rw [hk] at ht; simp at ht)
  exact ext_step_addInst base _ s.nextValue e1 w1 hext.hval (Nat.lt_succ_self _)

mutual

theorem generateExpr_ext (tbl : NestedSymbolTable) (e : Expr) (st : GenState)
    (v : Nat) (st' : GenState)
    (hg : generateExpr tbl e st = .ok (v, st')) (hwf : WFGen st) :
    GenExtends st st' ∧ WFGen st' := by
  cases e with
  | num n =>
    simp only [generateExpr] at hg
    simp only [Except.ok.injEq] at hg
    have hst : (st.newValue (.integer n)).2 = st' := congrArg Prod.snd hg
    rw [← hst]
    exact (ext_step_newValue st st (.integer n) (genExtends_refl st hwf) hwf
      (by intro t ht; simp [kindTargets] at ht))
  | lval ident =>
    simp only [generateExpr] at hg
    split at hg
    · simp at hg
    · rename_i nm n heq
      simp only [Except.ok.injEq] at hg
      have hst : (st.newValue (.integer n)).2 = st' := congrArg Prod.snd hg
      rw [← hst]
      exact (ext_step_newValue st st (.integer n) (genExtends_refl st hwf) hwf
        (by intro t ht; simp [kindTargets] at ht))
    · rename_i vv heq
      simp only [Except.ok.injEq, Prod.mk.injEq] at hg
      obtain ⟨hv, hst⟩ := hg
      rw [← hst]
      exact simpleFinish_ext st st (.load vv) rfl (genExtends_refl st hwf) hwf
    · simp at hg
  | pos e =>
    simp only [generateExpr] at hg
    exact generateExpr_ext tbl e st v st' hg hwf
  | neg e =>
    simp only [generateExpr] at hg
    split at hg
    · simp at hg
    · rename_i ev s2 he
      simp only [Except.ok.injEq, Prod.mk.injEq] at hg
      obtain ⟨hv, hst⟩ := hg
      rw [← hst]
      obtain ⟨e0, w0⟩ := ext_step_newValue st st (.integer 0) (genExtends_refl st hwf) hwf
        (by intro t ht; simp [kindTargets] at ht)
      obtain ⟨eI, wI⟩ := generateExpr_ext tbl e (st.newValue (.integer 0)).2 ev s2 he w0
      exact simpleFinish_ext st s2 (.binary .sub (st.newValue (.integer 0)).1 ev) rfl
        (genExtends_trans e0 eI) wI
  | not e =>
    simp only [generateExpr] at hg
    split at hg
    · simp at hg
    · rename_i ev s2 he
      simp only [Except.ok.injEq, Prod.mk.injEq] at hg
      obtain ⟨hv, hst⟩ := hg
      rw [← hst]
      obtain ⟨e0, w0⟩ := ext_step_newValue st st (.integer 0) (genExtends_refl st hwf) hwf
        (by intro t ht; simp [kindTargets] at ht)
      obtain ⟨eI, wI⟩ := generateExpr_ext tbl e (st.newValue (.integer 0)).2 ev s2 he w0
      exact simpleFinish_ext st s2 (.binary .eq ev (st.newValue (.integer 0)).1) rfl
        (genExtends_trans e0 eI) wI
  | add l r =>
    simp only [generateExpr] at hg
    split at hg
    · simp at hg
    · rename_i lv s1 hl
      split at hg
      · simp at hg
      · rename_i rv s2 hr
        simp only [Except.ok.injEq, Prod.mk.injEq] at hg
        obtain ⟨hv, hst⟩ := hg
        rw [← hst]
        obtain ⟨eL, wL⟩ := generateExpr_ext tbl l st lv s1 hl hwf
        obtain ⟨eR, wR⟩ := generateExpr_ext tbl r s1 rv s2 hr wL
        exact simpleFinish_ext st s2 (.binary .add lv rv) rfl (genExtends_trans eL eR) wR
  | sub l r =>
    simp only [generateExpr] at hg
    split at hg
    · simp at hg
    · rename_i lv s1 hl
      split at hg
      · simp at hg
      · rename_i rv s2 hr
        simp only [Except.ok.injEq, Prod.mk.injEq] at hg
        obtain ⟨hv, hst⟩ := hg
        rw [← hst]
        obtain ⟨eL, wL⟩ := generateExpr_ext tbl l st lv s1 hl hwf
        obtain ⟨eR, wR⟩ := generateExpr_ext tbl r s1 rv s2 hr wL
        exact simpleFinish_ext st s2 (.binary .sub lv rv) rfl (genExtends_trans eL eR) wR
  | mul l r =>
    simp only [generateExpr] at hg
    split at hg
    · simp at hg
    · rename_i lv s1 hl
      split at hg
      · simp at hg
      · rename_i rv s2 hr
        simp only [Except.ok.injEq, Prod.mk.injEq] at hg
        obtain ⟨hv, hst⟩ := hg
        rw [← hst]
        obtain ⟨eL, wL⟩ := generateExpr_ext tbl l st lv s1 hl hwf
        obtain ⟨eR, wR⟩ := generateExpr_ext tbl r s1 rv s2 hr wL
        exact simpleFinish_ext st s2 (.binary .mul lv rv) rfl (genExtends_trans eL eR) wR
  | div l r =>
    simp only [generateExpr] at hg
    split at hg
    · simp at hg
    · rename_i lv s1 hl
      split at hg
      · simp at hg
      · rename_i rv s2 hr
        simp only [Except.ok.injEq, Prod.mk.injEq] at hg
        obtain ⟨hv, hst⟩ := hg
        rw [← hst]
        obtain ⟨eL, wL⟩ := generateExpr_ext tbl l st lv s1 hl hwf
        obtain ⟨eR, wR⟩ := generateExpr_ext tbl r s1 rv s2 hr wL
        exact simpleFinish_ext st s2 (.binary .div lv rv) rfl (genExtends_trans eL eR) wR
  | mod l r =>
    simp only [generateExpr] at hg
    split at hg
    · simp at hg
    · rename_i lv s1 hl
      split at hg
      · simp at hg
      · rename_i rv s2 hr
        simp only [Except.ok.injEq, Prod.mk.injEq] at hg
        obtain ⟨hv, hst⟩ := hg
        rw [← hst]
        obtain ⟨eL, wL⟩ := generateExpr_ext tbl l st lv s1 hl hwf
        obtain ⟨eR, wR⟩ := generateExpr_ext tbl r s1 rv s2 hr wL
        exact simpleFinish_ext st s2 (.binary .mod lv rv) rfl (genExtends_trans eL eR) wR
  | lt l r =>
    simp only [generateExpr] at hg
    split at hg
    · simp at hg
    · rename_i lv s1 hl
      split at hg
      · simp at hg
      · rename_i rv s2 hr
        simp only [Except.ok.injEq, Prod.mk.injEq] at hg
        obtain ⟨hv, hst⟩ := hg
        rw [← hst]
        obtain ⟨eL, wL⟩ := generateExpr_ext tbl l st lv s1 hl hwf
        obtain ⟨eR, wR⟩ := generateExpr_ext tbl r s1 rv s2 hr wL
        exact simpleFinish_ext st s2 (.binary .lt lv rv) rfl (genExtends_trans eL eR) wR
  | gt l r =>
    simp only [generateExpr] at hg
    split at hg
    · simp at hg
    · rename_i lv s1 hl
      split at hg
      · simp at hg
      · rename_i rv s2 hr
        simp only [Except.ok.injEq, Prod.mk.injEq] at hg
        obtain ⟨hv, hst⟩ := hg
        rw [← hst]
        obtain ⟨eL, wL⟩ := generateExpr_ext tbl l st lv s1 hl hwf
        obtain ⟨eR, wR⟩ := generateExpr_ext tbl r s1 rv s2 hr wL
        exact simpleFinish_ext st s2 (.binary .gt lv rv) rfl (genExtends_trans eL eR) wR
  | le l r =>
    simp only [generateExpr] at hg
    split at hg
    · simp at hg
    · rename_i lv s1 hl
      split at hg
      · simp at hg
      · rename_i rv s2 hr
        simp only [Except.ok.injEq, Prod.mk.injEq] at hg
        obtain ⟨hv, hst⟩ := hg
        rw [← hst]
        obtain ⟨eL, wL⟩ := generateExpr_ext tbl l st lv s1 hl hwf
        obtain ⟨eR, wR⟩ := generateExpr_ext tbl r s1 rv s2 hr wL
        exact simpleFinish_ext st s2 (.binary .le lv rv) rfl (genExtends_trans eL eR) wR
  | ge l r =>
    simp only [generateExpr] at hg
    split at hg
    · simp at hg
    · rename_i lv s1 hl
      split at hg
      · simp at hg
      · rename_i rv s2 hr
        simp only [Except.ok.injEq, Prod.mk.injEq] at hg
        obtain ⟨hv, hst⟩ := hg
        rw [← hst]
        obtain ⟨eL, wL⟩ := generateExpr_ext tbl l st lv s1 hl hwf
        obtain ⟨eR, wR⟩ := generateExpr_ext tbl r s1 rv s2 hr wL
        exact simpleFinish_ext st s2 (.binary .ge lv rv) rfl (genExtends_trans eL eR) wR
  | eq l r =>
    simp only [generateExpr] at hg
    split at hg
    · simp at hg
    · rename_i lv s1 hl
      split at hg
      · simp at hg
      · rename_i rv s2 hr
        simp only [Except.ok.injEq, Prod.mk.injEq] at hg
        obtain ⟨hv, hst⟩ := hg
        rw [← hst]
        obtain ⟨eL, wL⟩ := generateExpr_ext tbl l st lv s1 hl hwf
        obtain ⟨eR, wR⟩ := generateExpr_ext tbl r s1 rv s2 hr wL
        exact simpleFinish_ext st s2 (.binary .eq lv rv) rfl (genExtends_trans eL eR) wR
  | ne l r =>
    simp only [generateExpr] at hg
    split at hg
    · simp at hg
    · rename_i lv s1 hl
      split at hg
      · simp at hg
      · rename_i rv s2 hr
        simp only [Except.ok.injEq, Prod.mk.injEq] at hg
        obtain ⟨hv, hst⟩ := hg
        rw [← hst]
        obtain ⟨eL, wL⟩ := generateExpr_ext tbl l st lv s1 hl hwf
        obtain ⟨eR, wR⟩ := generateExpr_ext tbl r s1 rv s2 hr wL
        exact simpleFinish_ext st s2 (.binary .notEq lv rv) rfl (genExtends_trans eL eR) wR
  | land lhs rhs =>
    by_cases hse : (lhs.hasSideEffect || rhs.hasSideEffect) = true
    · simp only [generateExpr, hse, if_true] at hg
      split at hg
      · simp at hg
      · rename_i lhsVal s1 hl
        split at hg
        · simp at hg
        · rename_i rhsVal s2 hr
          simp only [Except.ok.injEq] at hg
          have hst : (scClose s2 rhsVal (landEntry st).1 (landGuard s1 lhsVal).2.2.1).2 = st' :=
            congrArg Prod.snd hg
          rw [← hst]
          obtain ⟨eE, wE⟩ := genEntry_ext 0 st st (genExtends_refl st hwf) hwf
          obtain ⟨eL, wL⟩ := generateExpr_ext tbl lhs (landEntry st).2 lhsVal s1 hl wE
          obtain ⟨eG, wG⟩ := genGuard_ext .notEq "%logical_and_branch" "%logical_and_merge"
            st s1 lhsVal (genExtends_trans eE eL) wL
          obtain ⟨eR, wR⟩ := generateExpr_ext tbl rhs (landGuard s1 lhsVal).2.2.2
            rhsVal s2 hr wG
          refine scClose_ext st s2 rhsVal (landEntry st).1 ((landGuard s1 lhsVal).2.2.1)
            (genExtends_trans eG eR) wR ?_ ?_ ?_
          · have h1 := eL.hbb
            rw [landEntry_eq, genEntry_nextBB] at h1
            rw [landGuard_eq, genGuard_bbMerge]
            omega
          · have h2 := eR.hbb
            rw [landGuard_eq, genGuard_nextBB] at h2
            rw [landGuard_eq, genGuard_bbMerge]
            omega
          · rw [landGuard_eq, genGuard_bbMerge]
            exact eR.hkeys (s1.nextBB + 1)
              (by rw [landGuard_eq, genGuard_assocGet_bbMerge .notEq "%logical_and_branch"
                  "%logical_and_merge" s1 lhsVal wL]; rfl)
    · simp only [generateExpr] at hg
      rw [if_neg hse] at hg
      split at hg
      · simp at hg
      · rename_i lv s1 hl
        split at hg
        · simp at hg
        · rename_i rv s2 hr
          simp only [Except.ok.injEq, Prod.mk.injEq] at hg
          obtain ⟨hv, hst⟩ := hg
          rw [← hst]
          obtain ⟨eL, wL⟩ := generateExpr_ext tbl lhs st lv s1 hl hwf
          obtain ⟨eR, wR⟩ := generateExpr_ext tbl rhs s1 rv s2 hr wL
          obtain ⟨a1, b1⟩ := ext_step_newValue st s2 (.integer 0)
            (genExtends_trans eL eR) wR (by intro t ht; simp [kindTargets] at ht)
          obtain ⟨a2, b2⟩ := ext_step_newValue st _
            (.binary .notEq lv (s2.newValue (.integer 0)).1) a1 b1
            (by intro t ht; simp [kindTargets] at ht)
          obtain ⟨a3, b3⟩ := ext_step_newValue st _
            (.binary .notEq rv (s2.newValue (.integer 0)).1) a2 b2
            (by intro t ht; simp [kindTargets] at ht)
          obtain ⟨a4, b4⟩ := ext_step_newValue st _
            (.binary .and (s2.nextValue + 1) (s2.nextValue + 2)) a3 b3
            (by intro t ht; simp [kindTargets] at ht)
          obtain ⟨a5, b5⟩ := ext_step_addInst st _ (s2.nextValue + 1) a4 b4
            (by have := (genExtends_trans eL eR).hval; omega)
            (by show s2.nextValue + 1 < s2.nextValue + 4; omega)
          obtain ⟨a6, b6⟩ := ext_step_addInst st _ (s2.nextValue + 2) a5 b5
            (by have := (genExtends_trans eL eR).hval; omega)
            (by show s2.nextValue + 2 < s2.nextValue + 4; omega)
          exact ext_step_addInst st _ (s2.nextValue + 3) a6 b6
            (by have := (genExtends_trans eL eR).hval; omega)
            (by show s2.nextValue + 3 < s2.nextValue + 4; omega)
  | lor lhs rhs =>
    by_cases hse : (lhs.hasSideEffect || rhs.hasSideEffect) = true
    · simp only [generateExpr, hse, if_true] at hg
      split at hg
      · simp at hg
      · rename_i lhsVal s1 hl
        split at hg
        · simp at hg
        · rename_i rhsVal s2 hr
          simp only [Except.ok.injEq] at hg
          have hst : (scClose s2 rhsVal (lorEntry st).1 (lorGuard s1 lhsVal).2.2.1).2 = st' :=
            congrArg Prod.snd hg
          rw [← hst]
          obtain ⟨eE, wE⟩ := genEntry_ext 1 st st (genExtends_refl st hwf) hwf
          obtain ⟨eL, wL⟩ := generateExpr_ext tbl lhs (lorEntry st).2 lhsVal s1 hl wE
          obtain ⟨eG, wG⟩ := genGuard_ext .eq "%logical_or_branch" "%logical_or_merge"
            st s1 lhsVal (genExtends_trans eE eL) wL
          obtain ⟨eR, wR⟩ := generateExpr_ext tbl rhs (lorGuard s1 lhsVal).2.2.2
            rhsVal s2 hr wG
          refine scClose_ext st s2 rhsVal (lorEntry st).1 ((lorGuard s1 lhsVal).2.2.1)
            (genExtends_trans eG eR) wR ?_ ?_ ?_
          · have h1 := eL.hbb
            rw [lorEntry_eq, genEntry_nextBB] at h1
            rw [lorGuard_eq, genGuard_bbMerge]
            omega
          · have h2 := eR.hbb
            rw [lorGuard_eq, genGuard_nextBB] at h2
            rw [lorGuard_eq, genGuard_bbMerge]
            omega
          · rw [lorGuard_eq, genGuard_bbMerge]
            exact eR.hkeys (s1.nextBB + 1)
              (by rw [lorGuard_eq, genGuard_assocGet_bbMerge .eq "%logical_or_branch"
                  "%logical_or_merge" s1 lhsVal wL]; rfl)
    · simp only [generateExpr] at hg
      rw [if_neg hse] at hg
      split at hg
      · simp at hg
      · rename_i lv s1 hl
        split at hg
        · simp at hg
        · rename_i rv s2 hr
          simp only [Except.ok.injEq, Prod.mk.injEq] at hg
          obtain ⟨hv, hst⟩ := hg
          rw [← hst]
          obtain ⟨eL, wL⟩ := generateExpr_ext tbl lhs st lv s1 hl hwf
          obtain ⟨eR, wR⟩ := generateExpr_ext tbl rhs s1 rv s2 hr wL
          obtain ⟨a1, b1⟩ := ext_step_newValue st s2 (.integer 0)
            (genExtends_trans eL eR) wR (by intro t ht; simp [kindTargets] at ht)
          obtain ⟨a2, b2⟩ := ext_step_newValue st _ (.binary .or lv rv) a1 b1
            (by intro t ht; simp [kindTargets] at ht)
          obtain ⟨a3, b3⟩ := ext_step_newValue st _
            (.binary .notEq (s2.nextValue + 1) (s2.newValue (.integer 0)).1) a2 b2
            (by intro t ht; simp [kindTargets] at ht)
          obtain ⟨a4, b4⟩ := ext_step_addInst st _ (s2.nextValue + 1) a3 b3
            (by have := (genExtends_trans eL eR).hval; omega)
            (by show s2.nextValue + 1 < s2.nextValue + 3; omega)
          exact ext_step_addInst st _ (s2.nextValue + 2) a4 b4
            (by have := (genExtends_trans eL eR).hval; omega)
            (by show s2.nextValue + 2 < s2.nextValue + 3; omega)
  | call ident args =>
    simp only [generateExpr] at hg
    split at hg
    · simp at hg
    · rename_i handle rty ps heq
      split at hg
      · simp at hg
      · rename_i argVals s1 hl
        simp only [Except.ok.injEq, Prod.mk.injEq] at hg
        obtain ⟨hv, hst⟩ := hg
        rw [← hst]
        obtain ⟨eA, wA⟩ := generateExprList_ext tbl args st argVals s1 hl hwf
        exact simpleFinish_ext st s1 (.call handle argVals) rfl eA wA
    · simp at hg
termination_by sizeOf e

theorem generateExprList_ext (tbl : NestedSymbolTable) (es : List Expr) (st : GenState)
    (vs : List Nat) (st' : GenState)
    (hg : generateExprList tbl es st = .ok (vs, st')) (hwf : WFGen st) :
    GenExtends st st' ∧ WFGen st' := by
  cases es with
  | nil =>
    simp only [generateExprList] at hg
    simp only [Except.ok.injEq, Prod.mk.injEq] at hg
    obtain ⟨hv, hst⟩ := hg
    rw [← hst]
    exact ⟨genExtends_refl st hwf, hwf⟩
  | cons e rest =>
    simp only [generateExprList] at hg
    split at hg
    · simp at hg
    · rename_i ev s1 he
      split at hg
      · simp at hg
      · rename_i vs2 s2 hrest
        simp only [Except.ok.injEq, Prod.mk.injEq] at hg
        obtain ⟨hv, hst⟩ := hg
        rw [← hst]
        obtain ⟨e1, w1⟩ := generateExpr_ext tbl e st ev s1 he hwf
        obtain ⟨e2, w2⟩ := generateExprList_ext tbl rest s1 vs2 s2 hrest w1
        exact ⟨genExtends_trans e1 e2, w2⟩
termination_by sizeOf es

end


/-! ## C4 — execution traces: executed handles come from visited blocks -/

theorem blockOf_handles_lt (s : GenState) (bb h : Nat) (hwf : WFGen s)
    (hm : h ∈ s.blockOf bb) : h < s.nextValue := by
  unfold GenState.blockOf at hm
  cases hb : assocGet s.blockInsts bb with
  | none => rw [hb] at hm; simp at hm
  | some l =>
    rw [hb] at hm
    simp only [Option.getD_some] at hm
    exact hwf.blockHandlesLt (bb, l) (mem_assoc_of_assocGet hb) h hm

theorem runBlock_executed (dfg : List (Nat × IRValueKind)) (oracle : Nat → Int) :
    ∀ (l : List Nat) (est : ExecSt) (h : Nat),
      h ∈ (runBlock dfg oracle l est).1.executed → h ∈ est.executed ∨ h ∈ l := by
  intro l
  induction l with
  | nil =>
    intro est h hm
    exact .inl hm
  | cons h0 rest ih =>
    intro est h hm
    simp only [runBlock] at hm
    split at hm
    · rcases List.mem_append.mp hm with hm | hm
      · exact .inl hm
      · simp at hm
        simp [hm]
    · rcases List.mem_append.mp hm with hm | hm
      · exact .inl hm
      · simp at hm
        simp [hm]
    · rcases List.mem_append.mp hm with hm | hm
      · exact .inl hm
      · simp at hm
        simp [hm]
    · rcases ih _ h hm with hm | hm
      · rcases List.mem_append.mp hm with hm | hm
        · exact .inl hm
        · simp at hm
          simp [hm]
      · exact .inr (List.mem_cons_of_mem _ hm)
    · rcases ih _ h hm with hm | hm
      · rcases List.mem_append.mp hm with hm | hm
        · exact .inl hm
        · simp at hm
          simp [hm]
      · exact .inr (List.mem_cons_of_mem _ hm)
    · rcases ih _ h hm with hm | hm
      · rcases List.mem_append.mp hm with hm | hm
        · exact .inl hm
        · simp at hm
          simp [hm]
      · exact .inr (List.mem_cons_of_mem _ hm)
    · rcases ih _ h hm with hm | hm
      · rcases List.mem_append.mp hm with hm | hm
        · exact .inl hm
        · simp at hm
          simp [hm]
      · exact .inr (List.mem_cons_of_mem _ hm)
    · rcases ih _ h hm with hm | hm
      · rcases List.mem_append.mp hm with hm | hm
        · exact .inl hm
        · simp at hm
          simp [hm]
      · exact .inr (List.mem_cons_of_mem _ hm)

theorem runCFG_executed (dfg : List (Nat × IRValueKind)) (blocks : List (Nat × List Nat))
    (oracle : Nat → Int) :
    ∀ (fuel bb : Nat) (est : ExecSt) (h : Nat),
      h ∈ (runCFG dfg blocks oracle fuel bb est).1.executed →
      h ∈ est.executed ∨
        ∃ b ∈ (runCFG dfg blocks oracle fuel bb est).2,
          h ∈ (assocGet blocks b).getD [] := by
  intro fuel
  induction fuel with
  | zero =>
    intro bb est h hm
    exact .inl hm
  | succ fuel ih =>
    intro bb est h hm
    simp only [runCFG] at hm ⊢
    rcases hp : (runBlock dfg oracle ((assocGet blocks bb).getD []) est).2 with nxt | _ | _
    · rw [hp] at hm
      simp only at hm
      rcases ih nxt _ h hm with hm2 | hm2
      · rcases runBlock_executed dfg oracle _ est h hm2 with hm3 | hm3
        · exact .inl hm3
        · exact .inr ⟨bb, List.mem_cons_self _ _, hm3⟩
      · obtain ⟨b, hb, hbm⟩ := hm2
        exact .inr ⟨b, List.mem_cons_of_mem _ hb, hbm⟩
    · rw [hp] at hm
      simp only at hm
      rcases runBlock_executed dfg oracle _ est h hm with hm3 | hm3
      · exact .inl hm3
      · exact .inr ⟨bb, List.mem_cons_self _ _, hm3⟩
    · rw [hp] at hm
      simp only at hm
      rcases runBlock_executed dfg oracle _ est h hm with hm3 | hm3
      · exact .inl hm3
      · exact .inr ⟨bb, List.mem_cons_self _ _, hm3⟩


/-! ## C4 — the core short-circuit lowering lemma, generic in the operator -/

theorem scCore (gop : IRBinaryOp) (nm1 nm2 : String) (c : Int)
    (tbl : NestedSymbolTable) (lhs rhs : Expr) (st0 s1 s2 : GenState)
    (lhsVal rhsVal : Nat)
    (hwf0 : WFGen st0)
    (hl : generateExpr tbl lhs (genEntry c st0).2 = .ok (lhsVal, s1))
    (hr : generateExpr tbl rhs (genGuard gop nm1 nm2 s1 lhsVal).2.2.2 = .ok (rhsVal, s2)) :
    C4Core st0 s1 (genGuard gop nm1 nm2 s1 lhsVal).2.2.2 s2
      (scClose s2 rhsVal st0.nextValue (s1.nextBB + 1)).2 lhsVal (s2.nextValue + 4)
      gop c := by
  obtain ⟨eE, wE⟩ := genEntry_ext c st0 st0 (genExtends_refl st0 hwf0) hwf0
  obtain ⟨eL, wL⟩ := generateExpr_ext tbl lhs (genEntry c st0).2 lhsVal s1 hl wE
  obtain ⟨eG, wG⟩ := genGuard_ext gop nm1 nm2 s1 s1 lhsVal (genExtends_refl s1 wL) wL
  obtain ⟨eR, wR⟩ := generateExpr_ext tbl rhs (genGuard gop nm1 nm2 s1 lhsVal).2.2.2
    rhsVal s2 hr wG
  have hL_nv : st0.nextValue + 3 ≤ s1.nextValue := by
    have := eL.hval
    rw [genEntry_nextValue] at this
    exact this
  have hL_nb : st0.nextBB ≤ s1.nextBB := by
    have := eL.hbb
    rw [genEntry_nextBB] at this
    exact this
  have hR_nv : s1.nextValue + 3 ≤ s2.nextValue := by
    have := eR.hval
    rw [genGuard_nextValue] at this
    exact this
  have hR_nb : s1.nextBB + 2 ≤ s2.nextBB := by
    have := eR.hbb
    rw [genGuard_nextBB] at this
    exact this
  have hcur1 : s1.curBB < s1.nextBB := wL.curBBLt
  have hc1 : (scClose s2 rhsVal st0.nextValue (s1.nextBB + 1)).2.dfgGet st0.nextValue =
      some .alloc := by
    rw [scClose_dfgGet_old _ _ _ _ _ (by omega),
      eR.hdfg_old st0.nextValue (by rw [genGuard_nextValue]; omega),
      genGuard_dfgGet_old gop nm1 nm2 s1 lhsVal st0.nextValue (by omega),
      eL.hdfg_old st0.nextValue (by rw [genEntry_nextValue]; omega),
      genEntry_dfgGet_result]
  have hc2 : (scClose s2 rhsVal st0.nextValue (s1.nextBB + 1)).2.dfgGet
      (st0.nextValue + 1) = some (.integer c) := by
    rw [scClose_dfgGet_old _ _ _ _ _ (by omega),
      eR.hdfg_old (st0.nextValue + 1) (by rw [genGuard_nextValue]; omega),
      genGuard_dfgGet_old gop nm1 nm2 s1 lhsVal (st0.nextValue + 1) (by omega),
      eL.hdfg_old (st0.nextValue + 1) (by rw [genEntry_nextValue]; omega),
      genEntry_dfgGet_init]
  have hc3 : (scClose s2 rhsVal st0.nextValue (s1.nextBB + 1)).2.dfgGet
      (st0.nextValue + 2) = some (.store (st0.nextValue + 1) st0.nextValue) := by
    rw [scClose_dfgGet_old _ _ _ _ _ (by omega),
      eR.hdfg_old (st0.nextValue + 2) (by rw [genGuard_nextValue]; omega),
      genGuard_dfgGet_old gop nm1 nm2 s1 lhsVal (st0.nextValue + 2) (by omega),
      eL.hdfg_old (st0.nextValue + 2) (by rw [genEntry_nextValue]; omega),
      genEntry_dfgGet_store]
  have hc4 : (scClose s2 rhsVal st0.nextValue (s1.nextBB + 1)).2.dfgGet s1.nextValue =
      some (.integer 0) := by
    rw [scClose_dfgGet_old _ _ _ _ _ (by omega),
      eR.hdfg_old s1.nextValue (by rw [genGuard_nextValue]; omega),
      genGuard_dfgGet_zero]
  have hc5 : (scClose s2 rhsVal st0.nextValue (s1.nextBB + 1)).2.dfgGet
      (s1.nextValue + 1) = some (.binary gop lhsVal s1.nextValue) := by
    rw [scClose_dfgGet_old _ _ _ _ _ (by omega),
      eR.hdfg_old (s1.nextValue + 1) (by rw [genGuard_nextValue]; omega),
      genGuard_dfgGet_guard]
  have hc6 : (scClose s2 rhsVal st0.nextValue (s1.nextBB + 1)).2.dfgGet
      (s1.nextValue + 2) =
      some (.branch (s1.nextValue + 1) s1.nextBB (s1.nextBB + 1)) := by
    rw [scClose_dfgGet_old _ _ _ _ _ (by omega),
      eR.hdfg_old (s1.nextValue + 2) (by rw [genGuard_nextValue]; omega),
      genGuard_dfgGet_branch]
  have hcurne : ¬ s1.curBB = s2.curBB := by
    rcases eR.hcur with hcc | hcc
    · rw [genGuard_curBB] at hcc
      omega
    · have h2 := hcc.1
      rw [genGuard_nextBB] at h2
      omega
  have hc7 : (scClose s2 rhsVal st0.nextValue (s1.nextBB + 1)).2.blockOf s1.curBB =
      s1.blockOf s1.curBB ++ [s1.nextValue + 1, s1.nextValue + 2] := by
    rw [scClose_blockOf_other s2 rhsVal st0.nextValue (s1.nextBB + 1) s1.curBB hcurne
        (by omega),
      eR.hblocks_old s1.curBB (by rw [genGuard_curBB]; omega)
        (by rw [genGuard_nextBB]; omega),
      genGuard_blockOf_cur gop nm1 nm2 s1 lhsVal wL]
  have hc8 : (scClose s2 rhsVal st0.nextValue (s1.nextBB + 1)).2.dfgGet
      (s2.nextValue + 4) = some (.load st0.nextValue) :=
    scClose_dfgGet_load s2 rhsVal st0.nextValue (s1.nextBB + 1)
  have hmne : ¬ (s1.nextBB + 1) = s2.curBB := by
    rcases eR.hcur with hcc | hcc
    · rw [genGuard_curBB] at hcc
      omega
    · have h2 := hcc.1
      rw [genGuard_nextBB] at h2
      omega
  have hmkey : (assocGet s2.blockInsts (s1.nextBB + 1)).isSome = true :=
    eR.hkeys (s1.nextBB + 1)
      (by rw [genGuard_assocGet_bbMerge gop nm1 nm2 s1 lhsVal wL]; rfl)
  have hm2 : s2.blockOf (s1.nextBB + 1) = [] := by
    rw [eR.hblocks_old (s1.nextBB + 1) (by rw [genGuard_curBB]; omega)
        (by rw [genGuard_nextBB]; omega),
      genGuard_blockOf_bbMerge gop nm1 nm2 s1 lhsVal wL]
  have hc9 : (scClose s2 rhsVal st0.nextValue (s1.nextBB + 1)).2.blockOf
      (s1.nextBB + 1) = [s2.nextValue + 4] := by
    rw [scClose_blockOf_merge s2 rhsVal st0.nextValue (s1.nextBB + 1) hmne hmkey, hm2]
    rfl
  have hplace : ∀ bb h,
      h ∈ (scClose s2 rhsVal st0.nextValue (s1.nextBB + 1)).2.blockOf bb →
      (genGuard gop nm1 nm2 s1 lhsVal).2.2.2.nextValue ≤ h → h < s2.nextValue →
      bb = s1.nextBB ∨ (s1.nextBB + 2 ≤ bb ∧ bb < s2.nextBB) := by
    intro bb h hmem hge hlt
    rcases scClose_mem_blockOf s2 rhsVal st0.nextValue (s1.nextBB + 1) bb h hmem with
      hm | hm
    · have hnotG : h ∉ (genGuard gop nm1 nm2 s1 lhsVal).2.2.2.blockOf bb := by
        intro hcon
        have := blockOf_handles_lt _ bb h wG hcon
        omega
      have hnew := eR.hblocks_new bb h hm hnotG
      rcases hnew.2 with hb | hb
      · exact .inl (by rw [hb]; exact genGuard_curBB gop nm1 nm2 s1 lhsVal)
      · have hbb := hb.1
        rw [genGuard_nextBB] at hbb
        exact .inr ⟨by omega, hb.2⟩
    · omega
  have honly : ∀ h k,
      (scClose s2 rhsVal st0.nextValue (s1.nextBB + 1)).2.dfgGet h = some k →
      ∀ t ∈ kindTargets k,
      (t = s1.nextBB ∨ (s1.nextBB + 2 ≤ t ∧ t < s2.nextBB)) →
      h = s1.nextValue + 2 ∨
        ((genGuard gop nm1 nm2 s1 lhsVal).2.2.2.nextValue ≤ h ∧ h < s2.nextValue) := by
    intro h k hk t ht hR
    rcases scClose_dfgGet_cases s2 rhsVal st0.nextValue (s1.nextBB + 1) h k hk with
      hc | hc | hc | hc | hc | hc
    · by_cases hge : (genGuard gop nm1 nm2 s1 lhsVal).2.2.2.nextValue ≤ h
      · by_cases hlt2 : h < s2.nextValue
        · exact .inr ⟨hge, hlt2⟩
        · have := wR.dfgKeysLt _ (mem_dfg_of_dfgGet hc)
          omega
      · rw [eR.hdfg_old h (by omega)] at hc
        rcases genGuard_dfgGet_cases gop nm1 nm2 s1 lhsVal h k hc with
          hc2 | hc2 | hc2 | hc2
        · by_cases hgeE : (genEntry c st0).2.nextValue ≤ h
          · by_cases hlt4 : h < s1.nextValue
            · have hbnd := eL.hdfg_new h k hc2 hgeE t ht
              have hb2 := hbnd.2
              exfalso
              rcases hR with hRt | hRt
              · omega
              · have := hRt.1
                omega
            · have := wL.dfgKeysLt _ (mem_dfg_of_dfgGet hc2)
              omega
          · rw [eL.hdfg_old h (by omega)] at hc2
            rcases genEntry_dfgGet_cases c st0 h k hc2 with hc3 | hc3 | hc3 | hc3
            · have := hwf0.dfgTargetsLt _ (mem_dfg_of_dfgGet hc3) t ht
              exfalso
              rcases hR with hRt | hRt
              · omega
              · have := hRt.1
                omega
            · rw [hc3.2] at ht
              simp [kindTargets] at ht
            · rw [hc3.2] at ht
              simp [kindTargets] at ht
            · rw [hc3.2] at ht
              simp [kindTargets] at ht
        · rw [hc2.2] at ht
          simp [kindTargets] at ht
        · rw [hc2.2] at ht
          simp [kindTargets] at ht
        · exact .inl hc2.1
    · rw [hc.2] at ht
      simp [kindTargets] at ht
    · rw [hc.2] at ht
      simp [kindTargets] at ht
    · rw [hc.2] at ht
      simp [kindTargets] at ht
    · rw [hc.2] at ht
      simp only [kindTargets, List.mem_singleton] at ht
      exfalso
      rcases hR with hRt | hRt
      · omega
      · have := hRt.1
        omega
    · rw [hc.2] at ht
      simp [kindTargets] at ht
  have hguardrun : ∀ (oracle : Nat → Int) (est : ExecSt),
      denoteBin gop
        (evalVal (scClose s2 rhsVal st0.nextValue (s1.nextBB + 1)).2.dfg est.env lhsVal)
        0 = 0 →
      (runBlock (scClose s2 rhsVal st0.nextValue (s1.nextBB + 1)).2.dfg oracle
        [s1.nextValue + 1, s1.nextValue + 2] est).2 = .goto (s1.nextBB + 1) ∧
      (runBlock (scClose s2 rhsVal st0.nextValue (s1.nextBB + 1)).2.dfg oracle
        [s1.nextValue + 1, s1.nextValue + 2] est).1.executed =
        est.executed ++ [s1.nextValue + 1, s1.nextValue + 2] := by
    intro oracle est hden
    have hgk : assocGet (scClose s2 rhsVal st0.nextValue (s1.nextBB + 1)).2.dfg
        (s1.nextValue + 1) = some (.binary gop lhsVal s1.nextValue) := hc5
    have hbk : assocGet (scClose s2 rhsVal st0.nextValue (s1.nextBB + 1)).2.dfg
        (s1.nextValue + 2) =
        some (.branch (s1.nextValue + 1) s1.nextBB (s1.nextBB + 1)) := hc6
    have hzk : assocGet (scClose s2 rhsVal st0.nextValue (s1.nextBB + 1)).2.dfg
        s1.nextValue = some (.integer 0) := hc4
    constructor
    · simp only [runBlock, hgk, hbk, evalVal, hzk]
      simp only [evalVal] at hden
      rw [if_true, hden]
      simp
    · simp only [runBlock, hgk, hbk, evalVal, hzk]
      simp [List.append_assoc]
  have hmergerun : ∀ (oracle : Nat → Int) (fuel : Nat) (est : ExecSt),
      (runCFG (scClose s2 rhsVal st0.nextValue (s1.nextBB + 1)).2.dfg
        (scClose s2 rhsVal st0.nextValue (s1.nextBB + 1)).2.blockInsts oracle
        (fuel + 1) (s1.nextBB + 1) est).2 = [s1.nextBB + 1] := by
    intro oracle fuel est
    have hbof : (assocGet
        (scClose s2 rhsVal st0.nextValue (s1.nextBB + 1)).2.blockInsts
        (s1.nextBB + 1)).getD [] = [s2.nextValue + 4] := hc9
    have hload : assocGet (scClose s2 rhsVal st0.nextValue (s1.nextBB + 1)).2.dfg
        (s2.nextValue + 4) = some (.load st0.nextValue) := hc8
    simp only [runCFG, hbof, runBlock, hload]
  have havoid : ∀ (oracle : Nat → Int) (fuel bb : Nat) (est : ExecSt) (h : Nat),
      (genGuard gop nm1 nm2 s1 lhsVal).2.2.2.nextValue ≤ h → h < s2.nextValue →
      h ∉ est.executed →
      (∀ b ∈ (runCFG (scClose s2 rhsVal st0.nextValue (s1.nextBB + 1)).2.dfg
          (scClose s2 rhsVal st0.nextValue (s1.nextBB + 1)).2.blockInsts oracle
          fuel bb est).2,
        ¬(b = s1.nextBB ∨ (s1.nextBB + 2 ≤ b ∧ b < s2.nextBB))) →
      h ∉ (runCFG (scClose s2 rhsVal st0.nextValue (s1.nextBB + 1)).2.dfg
          (scClose s2 rhsVal st0.nextValue (s1.nextBB + 1)).2.blockInsts oracle
          fuel bb est).1.executed := by
    intro oracle fuel bb est h hge hlt hnot hforb hexec
    rcases runCFG_executed _ _ oracle fuel bb est h hexec with hcc | hcc
    · exact hnot hcc
    · obtain ⟨b, hbv, hbm⟩ := hcc
      exact hforb b hbv (hplace b h hbm hge hlt)
  exact ⟨hc1, hc2, hc3, hc4, hc5, hc6, hc7, hc8, hc9, hplace, honly, hguardrun,
    hmergerun, havoid⟩


/-! ## C4 — the claim -/

/-- C4: short-circuit preservation for side-effecting operands.  (The
checked-in `ast.rs` predates the `Call` constructor, so the call case of
`Expr.hasSideEffect` is modelled from the spec: a call has a side effect.)
For `lhs && rhs` where the right operand has a side effect — making the
strategy condition `lhs.has_side_effect || rhs.has_side_effect` true — the
lowering decomposes as: allocate a result slot (handle `st0.nextValue`)
initialized to the constant 0, lower the left operand in the current flow,
emit the guard `lhsVal != 0` and a branch on it whose true edge is the
fresh second-operand block `s1.nextBB` and whose false edge is the merge
block `s1.nextBB + 1`, lower the right operand starting in the
second-operand block, and close with a store/jump/load; `C4Core` certifies
the slot and its initialization, the guard comparison and branch placed
last in the block the left operand finished in, the result load as sole
instruction of the merge block, that every right-operand instruction sits
in the second-operand region (the branch block or blocks created after the
merge block), that only the guard branch (or right-operand-internal
transfers) targets that region, and the runtime behaviour: when the guard
comparison evaluates to 0 (for `&&`: the left operand is 0) the branch
goes to the merge block, whose run visits no further block, and any
execution avoiding the second-operand region never executes a
right-operand instruction — so `rhs` is not evaluated.  Symmetrically for
`lhs || rhs` with the slot initialized to 1 and guard `lhsVal == 0` (so
`rhs` is not evaluated when the left operand is nonzero). -/
theorem c4_short_circuit_lowering (tbl : NestedSymbolTable) (lhs rhs : Expr)
    (st0 stF : GenState) (v : Nat)
    (hwf : WFGen st0) (hse : rhs.hasSideEffect = true) :
    (generateExpr tbl (.land lhs rhs) st0 = .ok (v, stF) →
      ∃ lhsVal s1 rhsVal s2,
        generateExpr tbl lhs (landEntry st0).2 = .ok (lhsVal, s1) ∧
        generateExpr tbl rhs (landGuard s1 lhsVal).2.2.2 = .ok (rhsVal, s2) ∧
        stF = (scClose s2 rhsVal st0.nextValue (s1.nextBB + 1)).2 ∧
        v = s2.nextValue + 4 ∧
        C4Core st0 s1 (landGuard s1 lhsVal).2.2.2 s2 stF lhsVal v .notEq 0) ∧
    (generateExpr tbl (.lor lhs rhs) st0 = .ok (v, stF) →
      ∃ lhsVal s1 rhsVal s2,
        generateExpr tbl lhs (lorEntry st0).2 = .ok (lhsVal, s1) ∧
        generateExpr tbl rhs (lorGuard s1 lhsVal).2.2.2 = .ok (rhsVal, s2) ∧
        stF = (scClose s2 rhsVal st0.nextValue (s1.nextBB + 1)).2 ∧
        v = s2.nextValue + 4 ∧
        C4Core st0 s1 (lorGuard s1 lhsVal).2.2.2 s2 stF lhsVal v .eq 1) := by
  have hse2 : (lhs.hasSideEffect || rhs.hasSideEffect) = true := by
    rw [hse]
    simp
  constructor
  · intro hg
    simp only [generateExpr, hse2, if_true] at hg
    split at hg
    · simp at hg
    · rename_i lhsVal s1 hl
      split at hg
      · simp at hg
      · rename_i rhsVal s2 hr
        simp only [Except.ok.injEq] at hg
        have hst : (scClose s2 rhsVal (landEntry st0).1 (landGuard s1 lhsVal).2.2.1).2 =
            stF := congrArg Prod.snd hg
        have hv : (scClose s2 rhsVal (landEntry st0).1 (landGuard s1 lhsVal).2.2.1).1 =
            v := congrArg Prod.fst hg
        refine ⟨lhsVal, s1, rhsVal, s2, hl, hr, ?_, ?_, ?_⟩
        · rw [← hst]
          exact rfl
        · rw [← hv]
          exact scClose_fst s2 rhsVal (landEntry st0).1 (landGuard s1 lhsVal).2.2.1
        · rw [← hst, ← hv]
          exact scCore .notEq "%logical_and_branch" "%logical_and_merge" 0 tbl lhs rhs
            st0 s1 s2 lhsVal rhsVal hwf hl hr
  · intro hg
    simp only [generateExpr, hse2, if_true] at hg
    split at hg
    · simp at hg
    · rename_i lhsVal s1 hl
      split at hg
      · simp at hg
      · rename_i rhsVal s2 hr
        simp only [Except.ok.injEq] at hg
        have hst : (scClose s2 rhsVal (lorEntry st0).1 (lorGuard s1 lhsVal).2.2.1).2 =
            stF := congrArg Prod.snd hg
        have hv : (scClose s2 rhsVal (lorEntry st0).1 (lorGuard s1 lhsVal).2.2.1).1 =
            v := congrArg Prod.fst hg
        refine ⟨lhsVal, s1, rhsVal, s2, hl, hr, ?_, ?_, ?_⟩
        · rw [← hst]
          exact rfl
        · rw [← hv]
          exact scClose_fst s2 rhsVal (lorEntry st0).1 (lorGuard s1 lhsVal).2.2.1
        · rw [← hst, ← hv]
          exact scCore .eq "%logical_or_branch" "%logical_or_merge" 1 tbl lhs rhs
            st0 s1 s2 lhsVal rhsVal hwf hl hr

/-- The initial one-block state is well-formed. -/
theorem wf_initGenState : WFGen initGenState := by
  constructor
  · intro p hp
    simp [initGenState] at hp
  · intro p hp
    simp [initGenState] at hp
  · intro p hp
    simp only [initGenState] at hp
    have := List.mem_singleton.mp hp
    subst this
    decide
  · intro p hp x hx
    simp only [initGenState] at hp
    have := List.mem_singleton.mp hp
    subst this
    simp at hx
  · decide
  · decide

/-- Witness for C4: the concrete lowerings of `0 && f()` and `0 || f()`
(with `f` a bound void function, so the right operand has a side effect)
from the initial state satisfy every part of the claim. -/
theorem c4_short_circuit_lowering_witness :
    WFGen initGenState ∧ (Expr.call "f" []).hasSideEffect = true ∧
    (∃ lhsVal s1 rhsVal s2,
      generateExpr c4tbl (.num 0) (landEntry initGenState).2 = .ok (lhsVal, s1) ∧
      generateExpr c4tbl (.call "f" []) (landGuard s1 lhsVal).2.2.2 = .ok (rhsVal, s2) ∧
      c4landRes.2 = (scClose s2 rhsVal initGenState.nextValue (s1.nextBB + 1)).2 ∧
      c4landRes.1 = s2.nextValue + 4 ∧
      C4Core initGenState s1 (landGuard s1 lhsVal).2.2.2 s2 c4landRes.2 lhsVal
        c4landRes.1 .notEq 0) ∧
    (∃ lhsVal s1 rhsVal s2,
      generateExpr c4tbl (.num 0) (lorEntry initGenState).2 = .ok (lhsVal, s1) ∧
      generateExpr c4tbl (.call "f" []) (lorGuard s1 lhsVal).2.2.2 = .ok (rhsVal, s2) ∧
      c4lorRes.2 = (scClose s2 rhsVal initGenState.nextValue (s1.nextBB + 1)).2 ∧
      c4lorRes.1 = s2.nextValue + 4 ∧
      C4Core initGenState s1 (lorGuard s1 lhsVal).2.2.2 s2 c4lorRes.2 lhsVal
        c4lorRes.1 .eq 1) := by
  refine ⟨wf_initGenState, rfl, ?_, ?_⟩
  · exact (c4_short_circuit_lowering c4tbl (.num 0) (.call "f" []) initGenState
      c4landRes.2 c4landRes.1 wf_initGenState rfl).1 rfl
  · exact (c4_short_circuit_lowering c4tbl (.num 0) (.call "f" []) initGenState
      c4lorRes.2 c4lorRes.1 wf_initGenState rfl).2 rfl

end SysY
